import Mathlib

/-!
# dbpivot: schema diff, migration synthesis and apply/rollback orchestration

A shallow embedding of `internal/diff/diff.go`, `internal/migration/migration.go`,
`internal/db/db.go` and the orchestration code of `internal/cli/commands.go`.

Conventions of the embedding:

* Go strings are Lean `String`s; the `strings` functions used by the code are
  defined here on the underlying character lists.
* A Go `map[string]interface{}` is the list of its entries in the order in which
  `range` enumerates them; keys are unique (`keysNodup`).  Lookups take the entry
  of the key, enumeration walks the list.
* A dynamic value (`interface{}`) is a `Value`.
* A function that can return an error or panic returns `Except Failure _`.
-/

namespace DbPivot

/-! ## Go `strings` helpers -/

/-- Go `strings.HasPrefix`. -/
def hasPrefix (s p : String) : Bool := p.data.isPrefixOf s.data

/-- Go `strings.TrimPrefix`. -/
def trimPrefix (s p : String) : String :=
  if hasPrefix s p then ⟨s.data.drop p.data.length⟩ else s

/-- Go `strings.HasSuffix`. -/
def hasSuffix (s p : String) : Bool := p.data.reverse.isPrefixOf s.data.reverse

/-- Go `strings.TrimSuffix`. -/
def trimSuffix (s p : String) : String :=
  if hasSuffix s p then ⟨s.data.take (s.data.length - p.data.length)⟩ else s

/-- Split a character list at every occurrence of `sep`; the result always has at
least one piece. -/
def splitChars (sep : Char) : List Char → List (List Char)
  | [] => [[]]
  | c :: cs =>
    if c = sep then [] :: splitChars sep cs
    else
      match splitChars sep cs with
      | [] => [[c]]
      | p :: ps => (c :: p) :: ps

/-- Go `strings.Split(s, sep)` for a separator of one character. -/
def stringsSplit (s : String) (sep : Char) : List String :=
  (splitChars sep s.data).map String.mk

/-- Go `strings.Join`. -/
def stringsJoin : List String → String → String
  | [], _ => ""
  | [a], _ => a
  | a :: b :: rest, sep => a ++ sep ++ stringsJoin (b :: rest) sep

/-- Go `unicode.IsSpace`: the code points with the Unicode White_Space property. -/
def isSpace (c : Char) : Bool :=
  let n := c.toNat
  (9 ≤ n && n ≤ 13) || n = 32 || n = 0x85 || n = 0xA0 || n = 0x1680 ||
  (0x2000 ≤ n && n ≤ 0x200A) || n = 0x2028 || n = 0x2029 || n = 0x202F ||
  n = 0x205F || n = 0x3000

/-- Go `strings.TrimSpace`: drop leading and trailing white space. -/
def trimSpace (s : String) : String :=
  ⟨((s.data.dropWhile isSpace).reverse.dropWhile isSpace).reverse⟩

/-- Lower-casing of one code point as far as `strings.ToLower` can produce an
ASCII letter: `A`..`Z`, U+0130 and U+212A.  Every other code point is mapped by Go
to itself or to another non-ASCII code point; it is left unchanged here, which
does not affect a comparison of the result with an ASCII literal. -/
def toLowerRune (c : Char) : Char :=
  if 65 ≤ c.toNat ∧ c.toNat ≤ 90 then Char.ofNat (c.toNat + 32)
  else if c.toNat = 0x130 then 'i'
  else if c.toNat = 0x212A then 'k'
  else c

/-- Go `strings.ToLower` (see `toLowerRune`). -/
def toLower (s : String) : String := ⟨s.data.map toLowerRune⟩

/-! ## Dynamic values and maps -/

/-- A Go `interface{}` value as it occurs in a decoded snapshot: `nil`, `bool`,
`float64` (by its IEEE-754 bit pattern), `string`, `[]interface{}` and
`map[string]interface{}`. -/
inductive Value where
  | null
  | bool (b : Bool)
  | num (bits : Nat)
  | str (s : String)
  | arr (items : List Value)
  | obj (fields : List (String × Value))

/-- A Go `map[string]interface{}` with its enumeration order. -/
abbrev GoMap := List (String × Value)

/-- Failure of a Go function: a returned `error` or a run-time panic. -/
inductive Failure where
  | error (msg : String)
  | panic
  deriving DecidableEq, Repr

/-- The keys of a map are pairwise different. -/
def keysNodup (m : GoMap) : Bool := decide (m.map Prod.fst).Nodup

/-- Go `m[k]`: the value of the key, `nil` when the key is absent. -/
def index (m : GoMap) (k : String) : Value := (m.lookup k).getD .null

/-- Go `v.(map[string]interface{})`, which panics on any other dynamic type. -/
def assertMap : Value → Except Failure GoMap
  | .obj fields => .ok fields
  | _ => .error .panic

/-- Go `v.(bool)`, which panics on any other dynamic type. -/
def assertBool : Value → Except Failure Bool
  | .bool b => .ok b
  | _ => .error .panic

/-- Go `==` on two `float64` given by their bit patterns: NaN differs from
everything, the two zeros are equal. -/
def float64Eq (a b : Nat) : Bool :=
  let isNaN := fun (x : Nat) => (x / 2 ^ 52) % 2 ^ 11 = 2047 ∧ x % 2 ^ 52 ≠ 0
  let isZero := fun (x : Nat) => x % 2 ^ 63 = 0
  if isNaN a ∨ isNaN b then false
  else if isZero a ∧ isZero b then true
  else a % 2 ^ 64 = b % 2 ^ 64

/-- Go `a != b` on interface values: different dynamic types are unequal, equal
dynamic types compare by value, and comparing two maps or two slices panics. -/
def ifaceNe : Value → Value → Except Failure Bool
  | .null, .null => .ok false
  | .bool a, .bool b => .ok (a != b)
  | .num a, .num b => .ok (!float64Eq a b)
  | .str a, .str b => .ok (a != b)
  | .arr _, .arr _ => .error .panic
  | .obj _, .obj _ => .error .panic
  | _, _ => .ok true

/-- The operand of a `%s` verb of `fmt.Sprintf`: a string is written as it is; the
text `fmt` writes for an operand of another dynamic type is the parameter `bad`. -/
def fmtS (bad : Value → String) : Value → String
  | .str s => s
  | v => bad v

/-! ## `internal/diff/diff.go` -/

/-- The Go struct `diff.Change`; the field `Type` is named `kind` here. -/
structure Change where
  kind : String
  object : String
  detail : String
  deriving DecidableEq, Repr

/-- The inner loop of `Compare` (lines 31-39): one column definition per column of
a new table, in enumeration order. -/
def colDefs (bad : Value → String) : GoMap → List String → Except Failure (List String)
  | [], defs => .ok defs
  | (colName, colData) :: rest, defs => do
    let colMap ← assertMap colData
    let isNull ← assertBool (index colMap "null")
    let nullStr := if isNull then "NULL" else "NOT NULL"
    let colDef := colName ++ " " ++ fmtS bad (index colMap "type") ++ " " ++ nullStr
    colDefs bad rest (defs ++ [colDef])

/-- First loop of `compareColumns` (lines 71-101), over the columns of `currCols`. -/
def compareColumnsCurr (bad : Value → String) (table : String) (prevCols : GoMap) :
    GoMap → List Change → Except Failure (List Change)
  | [], changes => .ok changes
  | (colName, currCol) :: rest, changes => do
    let currDetail ← assertMap currCol
    match prevCols.lookup colName with
    | none =>
      let isNull ← assertBool (index currDetail "null")
      let nullStr := if isNull then " NULL" else ""
      compareColumnsCurr bad table prevCols rest (changes ++ [{
        kind := "add",
        object := "column:" ++ table ++ "." ++ colName,
        detail := "type " ++ fmtS bad (index currDetail "type") ++ nullStr }])
    | some prevCol =>
      let prevDetail ← assertMap prevCol
      let typeDiffers ← ifaceNe (index prevDetail "type") (index currDetail "type")
      let differs ← if typeDiffers then pure true
        else ifaceNe (index prevDetail "null") (index currDetail "null")
      if differs then
        let currNull ← assertBool (index currDetail "null")
        let currNullStr := if currNull then " NULL" else ""
        let prevNull ← assertBool (index prevDetail "null")
        let prevNullStr := if prevNull then " NULL" else ""
        compareColumnsCurr bad table prevCols rest (changes ++ [{
          kind := "modify",
          object := "column:" ++ table ++ "." ++ colName,
          detail := "type " ++ fmtS bad (index currDetail "type") ++ currNullStr ++
            " from " ++ fmtS bad (index prevDetail "type") ++ prevNullStr }])
      else
        compareColumnsCurr bad table prevCols rest changes

/-- Second loop of `compareColumns` (lines 103-111), over the columns of `prevCols`. -/
def compareColumnsPrev (table : String) (currCols : GoMap) : GoMap → List Change → List Change
  | [], changes => changes
  | (colName, _) :: rest, changes =>
    match currCols.lookup colName with
    | none =>
      compareColumnsPrev table currCols rest (changes ++ [{
        kind := "remove",
        object := "column:" ++ table ++ "." ++ colName,
        detail := "column removed" }])
    | some _ => compareColumnsPrev table currCols rest changes

/-- Go `compareColumns`. -/
def compareColumns (bad : Value → String) (table : String) (prevCols currCols : GoMap) :
    Except Failure (List Change) := do
  let changes ← compareColumnsCurr bad table prevCols currCols []
  pure (compareColumnsPrev table currCols prevCols changes)

/-- First loop of `Compare` (lines 23-53), over the tables of `curr`. -/
def compareCurr (bad : Value → String) (prev : GoMap) :
    GoMap → List Change → Except Failure (List Change)
  | [], changes => .ok changes
  | (table, tableData) :: rest, changes =>
    match prev.lookup table with
    | none => do
      let tableMap ← assertMap tableData
      match index tableMap "columns" with
      | .obj columns =>
        let defs ← colDefs bad columns []
        let detail := stringsJoin defs ",\n"
        compareCurr bad prev rest (changes ++ [{
          kind := "add", object := "table:" ++ table, detail := detail }])
      | _ => .error (.error ("schema inválido para a tabela " ++ table))
    | some prevData => do
      let prevTable ← assertMap prevData
      let currTable ← assertMap tableData
      let prevCols ← assertMap (index prevTable "columns")
      let currCols ← assertMap (index currTable "columns")
      let cs ← compareColumns bad table prevCols currCols
      compareCurr bad prev rest (changes ++ cs)

/-- Second loop of `Compare` (lines 55-63), over the tables of `prev`. -/
def comparePrev (curr : GoMap) : GoMap → List Change → List Change
  | [], changes => changes
  | (table, _) :: rest, changes =>
    match curr.lookup table with
    | none =>
      comparePrev curr rest (changes ++ [{
        kind := "remove", object := "table:" ++ table, detail := "table removed" }])
    | some _ => comparePrev curr rest changes

/-- Go `DefaultDiffStrategy.Compare`. -/
def Compare (bad : Value → String) (prev curr : GoMap) : Except Failure (List Change) := do
  let changes ← compareCurr bad prev curr []
  pure (comparePrev curr prev changes)

/-! ## Well-formed snapshots -/

/-- The `type` of a column entry when it is a string. -/
def colType : Value → Option String
  | .obj fields => match fields.lookup "type" with
    | some (.str s) => some s
    | _ => none
  | _ => none

/-- The `null` flag of a column entry when it is a boolean. -/
def colNull : Value → Option Bool
  | .obj fields => match fields.lookup "null" with
    | some (.bool b) => some b
    | _ => none
  | _ => none

/-- The columns map of a table entry, when it has one. -/
def tableColumns : Value → Option GoMap
  | .obj fields => match fields.lookup "columns" with
    | some (.obj cols) => some cols
    | _ => none
  | _ => none

/-- A column entry is a map with a string `type` and a boolean `null`. -/
def wfColumn (v : Value) : Bool := (colType v).isSome && (colNull v).isSome

/-- A columns map has unique names and well-formed entries. -/
def wfColumns (cols : GoMap) : Bool := keysNodup cols && cols.all (fun e => wfColumn e.2)

/-- A table entry is a map with a well-formed columns map. -/
def wfTable (v : Value) : Bool :=
  match tableColumns v with
  | some cols => wfColumns cols
  | none => false

/-- A snapshot has unique table names and well-formed table entries. -/
def wfSnapshot (s : GoMap) : Bool := keysNodup s && s.all (fun e => wfTable e.2)

/-- Two columns maps have the same column names, and each column has the same
type and null flag on both sides. -/
def sameColumns (prevCols currCols : GoMap) : Bool :=
  prevCols.all (fun e => (currCols.lookup e.1).isSome) &&
  currCols.all (fun e => match prevCols.lookup e.1 with
    | some p => colType p == colType e.2 && colNull p == colNull e.2
    | none => false)

/-- Two snapshots have the same tables, and each table has the same columns with
the same types and null flags on both sides. -/
def sameSchema (prev curr : GoMap) : Bool :=
  prev.all (fun e => (curr.lookup e.1).isSome) &&
  curr.all (fun e => match prev.lookup e.1 with
    | some pt => match tableColumns pt, tableColumns e.2 with
      | some pc, some cc => sameColumns pc cc
      | _, _ => false
    | none => false)

/-- The column definition `<name> <type> <NULL|NOT NULL>` of a well-formed column
entry. -/
def columnDef (e : String × Value) : String :=
  e.1 ++ " " ++ (colType e.2).getD "" ++ " " ++
    (if (colNull e.2).getD false then "NULL" else "NOT NULL")

/-- The column definitions of a well-formed table entry, in enumeration order,
joined by a comma and a line break. -/
def tableDetail (v : Value) : String :=
  stringsJoin (((tableColumns v).getD []).map columnDef) ",\n"

/-- No table name of one snapshot is a table name of the other. -/
def disjointTables (prev curr : GoMap) : Bool :=
  curr.all (fun e => (prev.lookup e.1).isNone) && prev.all (fun e => (curr.lookup e.1).isNone)

/-- Two columns maps have the same column names, and each column other than `c`
has the same type and null flag on both sides. -/
def sameColumnsExcept (c : String) (prevCols currCols : GoMap) : Bool :=
  prevCols.all (fun e => (currCols.lookup e.1).isSome) &&
  currCols.all (fun e => match prevCols.lookup e.1 with
    | some p => e.1 == c || (colType p == colType e.2 && colNull p == colNull e.2)
    | none => false)

/-- Two snapshots have the same tables and columns, and each column other than
column `c` of table `t` has the same type and null flag on both sides. -/
def sameSchemaExcept (t c : String) (prev curr : GoMap) : Bool :=
  prev.all (fun e => (curr.lookup e.1).isSome) &&
  curr.all (fun e => match prev.lookup e.1 with
    | some pt => match tableColumns pt, tableColumns e.2 with
      | some pc, some cc => if e.1 = t then sameColumnsExcept c pc cc else sameColumns pc cc
      | _, _ => false
    | none => false)

/-- The entry of column `c` of table `t` in a snapshot. -/
def lookupColumn (s : GoMap) (t c : String) : Option Value :=
  match s.lookup t with
  | some tv => match tableColumns tv with
    | some cols => cols.lookup c
    | none => none
  | none => none

/-- A table entry that is a map without a columns map: the key `columns` is absent
or its value is not a map. -/
def lacksColumns : Value → Bool
  | .obj fields => (tableColumns (.obj fields)).isNone
  | _ => false

/-! ## `internal/migration/migration.go` -/

/-- The Go struct `migration.Migration`. -/
structure Migration where
  Version : String
  UpScript : String
  DownScript : String
  Checksum : String
  deriving DecidableEq, Repr

/-- The loop of `extractType` and `extractOldType`: the part that follows the first
part equal to `token` and having a successor. -/
def tokenAfter (token : String) : List String → Option String
  | [] => none
  | [_] => none
  | a :: b :: rest => if a = token then some b else tokenAfter token (b :: rest)

/-- Go `extractType`. -/
def extractType (detail : String) : String :=
  (tokenAfter "type" (stringsSplit detail ' ')).getD "VARCHAR(255)"

/-- Go `extractOldType`. -/
def extractOldType (detail : String) : String :=
  (tokenAfter "from" (stringsSplit detail ' ')).getD "VARCHAR(255)"

/-- The table and the column of an object `column:<table>.<column>`: the object
without the prefix `column:`, split at the dots, when that gives exactly two parts
(lines 42-46, 57-61 and 65-69). -/
def columnParts (object : String) : Option (String × String) :=
  match stringsSplit (trimPrefix object "column:") '.' with
  | [table, column] => some (table, column)
  | _ => none

/-- The body of the loop of `GenerateMigration` (lines 31-77) for one change: the
two script buffers after the change, or the returned error. -/
def synthChange (change : Change) (up down : String) : Except Failure (String × String) :=
  if change.kind = "add" then
    if hasPrefix change.object "table:" then
      let table := trimPrefix change.object "table:"
      let trimmed := trimSpace change.detail
      let tableDefinition :=
        if trimmed = "" ∨ toLower trimmed = "table added" then
          "id INT AUTO_INCREMENT PRIMARY KEY"
        else trimmed
      .ok (up ++ ("CREATE TABLE " ++ table ++ " (\n" ++ tableDefinition ++ "\n);\n"),
        down ++ ("DROP TABLE " ++ table ++ ";\n"))
    else if hasPrefix change.object "column:" then
      match columnParts change.object with
      | some (table, column) =>
        let colType := extractType change.detail
        .ok (up ++ ("ALTER TABLE " ++ table ++ " ADD " ++ column ++ " " ++ colType ++ ";\n"),
          down ++ ("ALTER TABLE " ++ table ++ " DROP COLUMN " ++ column ++ ";\n"))
      | none => .error (.error ("formato inválido para coluna: " ++ change.object))
    else .ok (up, down)
  else if change.kind = "remove" then
    if hasPrefix change.object "table:" then
      let table := trimPrefix change.object "table:"
      .ok (up ++ ("DROP TABLE " ++ table ++ ";\n"), down)
    else if hasPrefix change.object "column:" then
      match columnParts change.object with
      | some (table, column) =>
        .ok (up ++ ("ALTER TABLE " ++ table ++ " DROP COLUMN " ++ column ++ ";\n"), down)
      | none => .error (.error ("formato inválido para coluna: " ++ change.object))
    else .ok (up, down)
  else if change.kind = "modify" then
    if hasPrefix change.object "column:" then
      match columnParts change.object with
      | some (table, column) =>
        let newType := extractType change.detail
        let oldType := extractOldType change.detail
        .ok (up ++ ("ALTER TABLE " ++ table ++ " MODIFY " ++ column ++ " " ++ newType ++ ";\n"),
          down ++ ("ALTER TABLE " ++ table ++ " MODIFY " ++ column ++ " " ++ oldType ++ ";\n"))
      | none => .error (.error ("formato inválido para coluna: " ++ change.object))
    else .ok (up, down)
  else .error (.error ("tipo de mudança não suportado: " ++ change.kind))

/-- The loop of `GenerateMigration` over the changes, in input order. -/
def synthesize : List Change → String → String → Except Failure (String × String)
  | [], up, down => .ok (up, down)
  | change :: rest, up, down =>
    match synthChange change up down with
    | .ok (up', down') => synthesize rest up' down'
    | .error e => .error e

/-- What `GenerateMigration` takes from outside the program: the formatted current
time, `filepath.Join`, the hexadecimal SHA-256 digest, and `os.WriteFile` (the text
of its error, `none` on success). -/
structure GenEnv where
  timestamp : String
  pathJoin : String → String → String
  sha256Hex : String → String
  writeFile : String → String → Option String

/-- The outcome of `GenerateMigration`: its result and the files it has written. -/
structure GenOutcome where
  result : Except Failure Migration
  written : List (String × String)

/-- Go `GenerateMigration`. -/
def GenerateMigration (env : GenEnv) (changes : List Change) (migrationDir : String) :
    GenOutcome :=
  let version := env.timestamp
  let filename := env.pathJoin migrationDir (version ++ "_migration.sql")
  match synthesize changes "-- Up migration\n" "-- Down migration\n" with
  | .error e => { result := .error e, written := [] }
  | .ok (upScript, downScript) =>
    let content := upScript ++ "\n" ++ downScript
    let checksum := env.sha256Hex content
    match env.writeFile filename content with
    | some err =>
      { result := .error (.error ("falha ao escrever o arquivo de migração: " ++ err)),
        written := [] }
    | none =>
      { result := .ok ⟨version, upScript, downScript, checksum⟩,
        written := [(filename, content)] }

/-- The detail `type <newT>[ NULL] from <oldT>[ NULL]` that `compareColumns` gives a
`modify` change (diff.go:97). -/
def modifyDetail (newT : String) (newNull : Bool) (oldT : String) (oldNull : Bool) : String :=
  "type " ++ newT ++ (if newNull then " NULL" else "") ++ " from " ++ oldT ++
    (if oldNull then " NULL" else "")

/-- The kind of a change is none of `add`, `remove` and `modify`. -/
def unsupportedKind (c : Change) : Bool :=
  !(c.kind = "add" || c.kind = "remove" || c.kind = "modify")

/-- A change of a supported kind whose object starts with `column:` and is not of
the form `column:<table>.<column>` with exactly one dot after the prefix. -/
def invalidColumn (c : Change) : Bool :=
  (c.kind = "add" || c.kind = "remove" || c.kind = "modify") &&
    hasPrefix c.object "column:" && (columnParts c.object).isNone

/-- The error `GenerateMigration` returns at a change it cannot process. -/
def synthError (c : Change) : Failure :=
  if unsupportedKind c then .error ("tipo de mudança não suportado: " ++ c.kind)
  else .error ("formato inválido para coluna: " ++ c.object)

/-- A name that is not empty and contains no white space. -/
def plainName (s : String) : Bool := s.data ≠ [] && s.data.all (fun ch => !isSpace ch)

/-! ## The database adapter, `internal/db/db.go` and the world of a command -/

/-- The Go interface `adapters.DBAdapter` over a database in state `σ`, as the
orchestration uses it: `ApplyMigration` gives the state after the call and the text
of its error; `countVersion` is the scan of
`SELECT COUNT(*) FROM schema_migrations WHERE version = ?`; `lastVersion` is the scan
of `SELECT version FROM schema_migrations ORDER BY applied_at DESC LIMIT 1`;
`GetSchema` reads the schema. -/
structure DBAdapter (σ : Type) where
  ApplyMigration : σ → String → σ × Option String
  countVersion : σ → String → Except String Int
  lastVersion : σ → Except String String
  GetSchema : σ → Except String GoMap

/-- What a command does to the outside, in order: a call of
`DBManager.IsMigrationApplied`, a call of the adapter's `ApplyMigration`, a line of
the log, a file written. -/
inductive Event where
  | check (version : String)
  | exec (script : String)
  | log (msg : String)
  | write (path : String) (content : String)
  deriving DecidableEq, Repr

/-- The database together with the trace of what has been done so far. -/
structure World (σ : Type) where
  db : σ
  trace : List Event
  deriving DecidableEq, Repr

/-- The scripts passed to the adapter's `ApplyMigration`, in order. -/
def executed (trace : List Event) : List String :=
  trace.filterMap (fun e => match e with
    | .exec s => some s
    | _ => none)

/-- The versions passed to `IsMigrationApplied`, in order. -/
def checked (trace : List Event) : List String :=
  trace.filterMap (fun e => match e with
    | .check v => some v
    | _ => none)

/-- The files written, in order. -/
def written (trace : List Event) : List (String × String) :=
  trace.filterMap (fun e => match e with
    | .write p c => some (p, c)
    | _ => none)

/-- Go `config.Config`. -/
structure Config where
  DBMS : String
  Connection : String
  SnapshotDir : String
  MigrationDir : String
  deriving DecidableEq, Repr

/-- What the commands take from outside the program: `config.LoadConfig`, the error
of the adapter's `Connect`, the formatted current time, `filepath.Join`, the
hexadecimal SHA-256 digest, `os.ReadDir` (the names), `os.ReadFile`, `os.WriteFile`
(the text of its error) and `json.MarshalIndent`. -/
structure Sys where
  loadConfig : Except String Config
  connectError : Option String
  timestamp : String
  pathJoin : String → String → String
  sha256Hex : String → String
  readDir : String → Except String (List String)
  readFile : String → Except String String
  writeFile : String → String → Option String
  marshalIndent : GoMap → Except String String

/-- Add a line to the log. -/
def World.logLine {σ : Type} (w : World σ) (msg : String) : World σ :=
  { w with trace := w.trace ++ [.log msg] }

/-- Go `db.NewDBManager`: only the DBMS `mysql` has an adapter, which must connect. -/
def NewDBManager (sys : Sys) (dbms : String) : Except String Unit :=
  if dbms = "mysql" then
    match sys.connectError with
    | some err => .error err
    | none => .ok ()
  else .error ("unsupported DBMS: " ++ dbms)

/-- Go `DBManager.ApplyMigration`: the script is executed by the adapter. -/
def DBManager.ApplyMigration {σ : Type} (A : DBAdapter σ) (w : World σ) (script : String) :
    World σ × Option String :=
  let r := A.ApplyMigration w.db script
  ({ db := r.1, trace := w.trace ++ [.exec script] }, r.2)

/-- Go `DBManager.IsMigrationApplied`. -/
def DBManager.IsMigrationApplied {σ : Type} (A : DBAdapter σ) (w : World σ) (version : String) :
    World σ × Except String Bool :=
  ({ w with trace := w.trace ++ [.check version] },
    match A.countVersion w.db version with
    | .error err =>
      .error ("failed to check if migration " ++ version ++ " is applied: " ++ err)
    | .ok count => .ok (decide (count > 0)))

/-- Go `DBManager.GetLastAppliedMigration`: no row is the empty version. -/
def DBManager.GetLastAppliedMigration {σ : Type} (A : DBAdapter σ) (w : World σ) :
    Except String String :=
  match A.lastVersion w.db with
  | .error err =>
    if err = "sql: no rows in result set" then .ok ""
    else .error ("failed to get last applied migration: " ++ err)
  | .ok version => .ok version

/-- Go `DBManager.CaptureSnapshot`. -/
def DBManager.CaptureSnapshot {σ : Type} (A : DBAdapter σ) (sys : Sys) (w : World σ)
    (snapshotDir : String) : World σ × Option String :=
  match A.GetSchema w.db with
  | .error err => (w, some ("failed to get schema: " ++ err))
  | .ok schema =>
    match sys.marshalIndent schema with
    | .error err => (w, some ("failed to marshal schema: " ++ err))
    | .ok data =>
      let filename := sys.pathJoin snapshotDir ("snapshot_" ++ sys.timestamp ++ ".json")
      match sys.writeFile filename data with
      | some err => (w, some ("failed to write snapshot: " ++ err))
      | none => ({ w with trace := w.trace ++ [.write filename data] }, none)

/-! ## `ApplyMigration` and `RollbackMigration` of `internal/migration/migration.go` -/

/-- The loop of `RollbackMigration` (lines 99-107): the lines after a line starting
with the down marker that are not blank. -/
def downSection : List String → Bool → String → String
  | [], _, acc => acc
  | line :: rest, inDownSection, acc =>
    if hasPrefix line "-- Down migration" then downSection rest true acc
    else if inDownSection && decide (trimSpace line ≠ "") then
      downSection rest inDownSection (acc ++ (line ++ "\n"))
    else downSection rest inDownSection acc

/-- The loop of `ApplyMigration` (lines 125-137): the lines after a line starting
with the up marker, up to the first line starting with the down marker. -/
def upSection : List String → Bool → String → String
  | [], _, acc => acc
  | line :: rest, inUpSection, acc =>
    if hasPrefix line "-- Up migration" then upSection rest true acc
    else if hasPrefix line "-- Down migration" then acc
    else if inUpSection then upSection rest inUpSection (acc ++ (line ++ "\n"))
    else upSection rest inUpSection acc

/-- The statement that removes the ledger row of a version (line 113). -/
def deleteScript (version : String) : String :=
  "DELETE FROM schema_migrations WHERE version = '" ++ version ++ "'"

/-- The statement that inserts the ledger row of a version (lines 143-144). -/
def registerScript (version checksum : String) : String :=
  "INSERT INTO schema_migrations (version, description, checksum) VALUES ('" ++ version ++
    "', '" ++ ("Migration " ++ version ++ " applied") ++ "', '" ++ checksum ++ "')"

/-- Go `migration.RollbackMigration`. -/
def RollbackMigration {σ : Type} (A : DBAdapter σ) (w : World σ) (mig : Migration) :
    World σ × Option String :=
  let lines := stringsSplit (mig.UpScript ++ "\n" ++ mig.DownScript) '\n'
  let downScript := downSection lines false ""
  match DBManager.ApplyMigration A w downScript with
  | (w1, some err) =>
    (w1, some ("falha ao aplicar a migração down " ++ mig.Version ++ ": " ++ err))
  | (w1, none) =>
    match DBManager.ApplyMigration A w1 (deleteScript mig.Version) with
    | (w2, some err) =>
      (w2, some ("falha ao remover o registro da migração " ++ mig.Version ++ ": " ++ err))
    | (w2, none) => (w2, none)

/-- Go `migration.ApplyMigration`. -/
def ApplyMigration {σ : Type} (A : DBAdapter σ) (w : World σ) (mig : Migration) :
    World σ × Option String :=
  let lines := stringsSplit (mig.UpScript ++ "\n" ++ mig.DownScript) '\n'
  let upScript := upSection lines false ""
  match DBManager.ApplyMigration A w upScript with
  | (w1, some err) =>
    (w1, some ("falha ao aplicar a migração up " ++ mig.Version ++ ": " ++ err))
  | (w1, none) =>
    match DBManager.ApplyMigration A w1 (registerScript mig.Version mig.Checksum) with
    | (w2, some err) =>
      (w2, some ("falha ao registrar a migração " ++ mig.Version ++ ": " ++ err))
    | (w2, none) => (w2, none)

/-! ## `internal/cli/commands.go` -/

/-- Strict order of Go strings: lexicographic by code point, which is the order of
the bytes of the UTF-8 encodings. -/
def lexLt : List Char → List Char → Bool
  | _, [] => false
  | [], _ :: _ => true
  | a :: as, b :: bs => decide (a.toNat < b.toNat) || (decide (a = b) && lexLt as bs)

/-- Go `a <= b` on strings. -/
def stringLe (a b : String) : Prop := lexLt b.data a.data = false

instance : DecidableRel stringLe := fun _ _ => inferInstanceAs (Decidable (_ = false))

/-- Go `sort.Strings`: the list in ascending order. -/
def sortStrings (l : List String) : List String := l.insertionSort stringLe

/-- The files of the migration directory that `applyMigrations` processes, in the
order in which it processes them (lines 285-292). -/
def migrationFiles (names : List String) : List String :=
  sortStrings (names.filter (fun name => hasSuffix name ".sql"))

/-- The version of a migration file (line 295). -/
def fileVersion (file : String) : String := trimSuffix file "_migration.sql"

/-- The body of the loop of `applyMigrations` (lines 295-320) for one file: the
world after it, and the error that ends the run if there is one. -/
def applyFile {σ : Type} (A : DBAdapter σ) (sys : Sys) (migrationDir : String) (file : String)
    (w : World σ) : World σ × Option String :=
  let version := fileVersion file
  match DBManager.IsMigrationApplied A w version with
  | (w1, .error err) => (w1, some err)
  | (w1, .ok true) =>
    (w1.logLine ("Migration " ++ version ++ " already applied, skipping"), none)
  | (w1, .ok false) =>
    match sys.readFile (sys.pathJoin migrationDir file) with
    | .error err => (w1, some ("failed to read migration file " ++ file ++ ": " ++ err))
    | .ok script =>
      let mig : Migration :=
        { Version := version, UpScript := script, DownScript := "",
          Checksum := sys.sha256Hex script }
      match ApplyMigration A w1 mig with
      | (w2, some err) => (w2, some ("failed to apply migration " ++ version ++ ": " ++ err))
      | (w2, none) => (w2.logLine ("Migration " ++ version ++ " applied successfully"), none)

/-- The loop of `applyMigrations` (lines 294-321): the first error ends it. -/
def applyFiles {σ : Type} (A : DBAdapter σ) (sys : Sys) (migrationDir : String) :
    List String → World σ → World σ × Option String
  | [], w => (w, none)
  | file :: rest, w =>
    match applyFile A sys migrationDir file w with
    | (w1, some err) => (w1, some err)
    | (w1, none) => applyFiles A sys migrationDir rest w1

/-- Go `applyMigrations`. -/
def applyMigrations {σ : Type} (A : DBAdapter σ) (sys : Sys) (migrationDir : String)
    (w : World σ) : World σ × Option String :=
  match sys.readDir migrationDir with
  | .error err => (w, some ("failed to read migration directory: " ++ err))
  | .ok names => applyFiles A sys migrationDir (migrationFiles names) w

/-- How a command ends: `log.Fatalf` with a message, or a normal return. -/
inductive CmdOutcome where
  | fatal (msg : String)
  | done
  deriving DecidableEq, Repr

/-- The function `Run` of the Go command `rollbackCmd`. -/
def rollbackCmd {σ : Type} (A : DBAdapter σ) (sys : Sys) (w : World σ) :
    World σ × CmdOutcome :=
  match sys.loadConfig with
  | .error err => (w, .fatal ("Failed to load config: " ++ err))
  | .ok cfg =>
    match NewDBManager sys cfg.DBMS with
    | .error err => (w, .fatal ("Failed to connect to database: " ++ err))
    | .ok _ =>
      match DBManager.GetLastAppliedMigration A w with
      | .error err => (w, .fatal ("Failed to get last applied migration: " ++ err))
      | .ok lastVersion =>
        if lastVersion = "" then (w.logLine "No migrations to rollback", .done)
        else
          match sys.readFile (sys.pathJoin cfg.MigrationDir (lastVersion ++ "_migration.sql")) with
          | .error err =>
            (w, .fatal ("Failed to read migration file " ++ lastVersion ++ ": " ++ err))
          | .ok script =>
            let mig : Migration :=
              { Version := lastVersion, UpScript := script, DownScript := "",
                Checksum := sys.sha256Hex script }
            match RollbackMigration A w mig with
            | (w1, some err) =>
              (w1, .fatal ("Failed to rollback migration " ++ lastVersion ++ ": " ++ err))
            | (w1, none) =>
              match DBManager.CaptureSnapshot A sys w1 cfg.SnapshotDir with
              | (w2, some err) =>
                (w2, .fatal ("Failed to capture post-rollback snapshot: " ++ err))
              | (w2, none) =>
                (w2.logLine ("Migration " ++ lastVersion ++ " rolled back successfully"), .done)

/-- The part of a trace that belongs to one file of the loop of `applyMigrations`:
it starts with the check of the version of the file and has no other check. -/
def isBlockOf (file : String) (block : List Event) : Bool :=
  match block with
  | .check version :: rest => version == fileVersion file && (checked rest).isEmpty
  | _ => false

/-- The script that `migration.ApplyMigration` passes to the database first: the
up section of the text of the migration (lines 121-137). -/
def appliedScript (mig : Migration) : String :=
  upSection (stringsSplit (mig.UpScript ++ "\n" ++ mig.DownScript) '\n') false ""

/-- The script that `RollbackMigration` passes to the database first: the down
section of the text of the migration (lines 95-107). -/
def rolledBackScript (mig : Migration) : String :=
  downSection (stringsSplit (mig.UpScript ++ "\n" ++ mig.DownScript) '\n') false ""

/-- The migration that `applyMigrations` and `rollbackCmd` build from the text of a
migration file (commands.go:228-232 and 310-314). -/
def fileMigration (sys : Sys) (version script : String) : Migration :=
  { Version := version, UpScript := script, DownScript := "", Checksum := sys.sha256Hex script }

/-- What a `remove` change removes: a table, or a column of a table. -/
inductive Removed where
  | table (t : String)
  | column (t c : String)

/-- The object of the `remove` change: `table:<t>` or `column:<t>.<c>`. -/
def Removed.object : Removed → String
  | .table t => "table:" ++ t
  | .column t c => "column:" ++ t ++ "." ++ c

/-- The statement that the removal puts into the up-script. -/
def Removed.statement : Removed → String
  | .table t => "DROP TABLE " ++ t ++ ";\n"
  | .column t c => "ALTER TABLE " ++ t ++ " DROP COLUMN " ++ c ++ ";\n"

/-- The table and the column of a removed column contain no dot. -/
def Removed.plain : Removed → Bool
  | .table _ => true
  | .column t c => decide ('.' ∉ t.data) && decide ('.' ∉ c.data)

/-- The strings of a list one after the other. -/
def concatAll : List String → String
  | [] => ""
  | a :: rest => a ++ concatAll rest

/-- The text made of the given lines, each ended by a line break. -/
def linesText (ls : List String) : String := concatAll (ls.map (fun l => l ++ "\n"))

/-- A line without a line break that starts with neither marker. -/
def plainLine (l : String) : Bool :=
  decide ('\n' ∉ l.data) && !hasPrefix l "-- Up migration" && !hasPrefix l "-- Down migration"

/-- A plain line that is not blank. -/
def solidLine (l : String) : Bool := plainLine l && decide (trimSpace l ≠ "")

/-- The text `m` occurs in the text `s`. -/
def containsText (s m : String) : Bool := decide (m.data <:+: s.data)

/-- A change whose object contains no line break, whose detail contains no marker
and, when it is the change of a column, no line break either. -/
def roundTripSafe (c : Change) : Bool :=
  decide ('\n' ∉ c.object.data) && !containsText c.detail "-- Up migration" &&
    !containsText c.detail "-- Down migration" &&
    (!hasPrefix c.object "column:" || decide ('\n' ∉ c.detail.data))

/-- The change that the first loop of `compareColumns` makes for one column of the
current table, as a function of the column and of the previous columns. -/
def columnChange (table : String) (prevCols : GoMap) (e : String × Value) : List Change :=
  match prevCols.lookup e.1 with
  | none =>
    [⟨"add", "column:" ++ table ++ "." ++ e.1,
      "type " ++ (colType e.2).getD "" ++ (if (colNull e.2).getD false then " NULL" else "")⟩]
  | some p =>
    if colType p ≠ colType e.2 ∨ colNull p ≠ colNull e.2 then
      [⟨"modify", "column:" ++ table ++ "." ++ e.1,
        modifyDetail ((colType e.2).getD "") ((colNull e.2).getD false)
          ((colType p).getD "") ((colNull p).getD false)⟩]
    else []

/-- The change that the second loop of `compareColumns` makes for one column of the
previous table. -/
def removedColumn (table : String) (currCols : GoMap) (e : String × Value) : List Change :=
  match currCols.lookup e.1 with
  | none => [⟨"remove", "column:" ++ table ++ "." ++ e.1, "column removed"⟩]
  | some _ => []

/-- The changes of `compareColumns` on well-formed columns. -/
def columnChanges (table : String) (prevCols currCols : GoMap) : List Change :=
  currCols.flatMap (columnChange table prevCols) ++
    prevCols.flatMap (removedColumn table currCols)

/-- The changes that the first loop of `Compare` makes for one table of the current
snapshot. -/
def tableChange (prev : GoMap) (e : String × Value) : List Change :=
  match prev.lookup e.1 with
  | none => [⟨"add", "table:" ++ e.1, tableDetail e.2⟩]
  | some pv => columnChanges e.1 ((tableColumns pv).getD []) ((tableColumns e.2).getD [])

/-- The change that the second loop of `Compare` makes for one table of the previous
snapshot. -/
def removedTable (curr : GoMap) (e : String × Value) : List Change :=
  match curr.lookup e.1 with
  | none => [⟨"remove", "table:" ++ e.1, "table removed"⟩]
  | some _ => []

/-- The changes of `Compare` on well-formed snapshots. -/
def compareChanges (prev curr : GoMap) : List Change :=
  curr.flatMap (tableChange prev) ++ prev.flatMap (removedTable curr)

/-- A change with the detail left out when it is the addition of a table. -/
def blankTableDetail (c : Change) : Change :=
  if c.kind = "add" ∧ hasPrefix c.object "table:" = true then { c with detail := "" } else c

/-- A version is in the ledger: the count of its rows is positive. -/
def inLedger {σ : Type} (A : DBAdapter σ) (db : σ) (version : String) : Bool :=
  match A.countVersion db version with
  | .ok count => decide (count > 0)
  | .error _ => false

deriving instance DecidableEq for Except

/-- The statements executed between the world `w` and a later world `w1`: the
executed statements of `w1` without those that `w` has already. -/
def executedSince {σ : Type} (w w1 : World σ) : List String :=
  (executed w1.trace).drop (executed w.trace).length

/-- In the loop of `applyMigrations` over the files, started in the world `w`, the
version of every file is in the ledger when the iteration of the file ends. -/
def insertsRegister {σ : Type} (A : DBAdapter σ) (sys : Sys) (migrationDir : String) :
    List String → World σ → Bool
  | [], _ => true
  | file :: rest, w =>
    inLedger A (applyFile A sys migrationDir file w).1.db (fileVersion file) &&
      insertsRegister A sys migrationDir rest (applyFile A sys migrationDir file w).1

/-- The events of a file that the loop of `applyMigrations` skips: the check of its
version and the line of the log. -/
def skipEvents (file : String) : List Event :=
  [.check (fileVersion file),
   .log ("Migration " ++ fileVersion file ++ " already applied, skipping")]

/-! ## Example inputs -/

/-- An example snapshot. -/
def exSnapshot : GoMap :=
  [("users", .obj [("columns", .obj [
      ("id", .obj [("type", .str "INT"), ("null", .bool false), ("key", .str "PRI"),
        ("default", .str ""), ("extra", .str "auto_increment")]),
      ("name", .obj [("type", .str "VARCHAR(100)"), ("null", .bool true), ("key", .str ""),
        ("default", .str ""), ("extra", .str "")])])]),
   ("logs", .obj [("columns", .obj [
      ("msg", .obj [("type", .str "TEXT"), ("null", .bool true), ("key", .str ""),
        ("default", .str ""), ("extra", .str "")])])])]

/-- The snapshot `exSnapshot` enumerated in another order and with other key, default
and extra attributes. -/
def exSnapshotAttrs : GoMap :=
  [("logs", .obj [("columns", .obj [
      ("msg", .obj [("type", .str "TEXT"), ("null", .bool true), ("key", .str "MUL"),
        ("default", .str "none"), ("extra", .str "")])])]),
   ("users", .obj [("columns", .obj [
      ("name", .obj [("type", .str "VARCHAR(100)"), ("null", .bool true), ("key", .str "UNI"),
        ("default", .str "x"), ("extra", .str "")]),
      ("id", .obj [("type", .str "INT"), ("null", .bool false), ("key", .str ""),
        ("default", .str "0"), ("extra", .str "")])])])]

/-- A snapshot whose tables are not tables of `exSnapshot`. -/
def exSnapshotOther : GoMap :=
  [("orders", .obj [("columns", .obj [
      ("id", .obj [("type", .str "INT"), ("null", .bool false)]),
      ("total", .obj [("type", .str "DECIMAL(10,2)"), ("null", .bool true)])])])]

/-- The snapshot `exSnapshot` with the type of `users.name` changed to `TEXT`. -/
def exSnapshotRetyped : GoMap :=
  [("users", .obj [("columns", .obj [
      ("id", .obj [("type", .str "INT"), ("null", .bool false), ("key", .str "PRI"),
        ("default", .str ""), ("extra", .str "auto_increment")]),
      ("name", .obj [("type", .str "TEXT"), ("null", .bool true), ("key", .str ""),
        ("default", .str ""), ("extra", .str "")])])]),
   ("logs", .obj [("columns", .obj [
      ("msg", .obj [("type", .str "TEXT"), ("null", .bool true), ("key", .str ""),
        ("default", .str ""), ("extra", .str "")])])])]

/-- The snapshot `exSnapshot` with one more table, whose entry has no columns map. -/
def exSnapshotBroken : GoMap :=
  exSnapshot ++ [("audit", .obj [("rows", .num 0)])]

/-- An environment of `GenerateMigration` in which every write succeeds. -/
def exGenEnv : GenEnv where
  timestamp := "20240101120000"
  pathJoin := fun dir name => dir ++ "/" ++ name
  sha256Hex := fun _ => "0000"
  writeFile := fun _ _ => none

/-- A pair of snapshots in which the type of `users.age` changes from `int` to
`int unsigned`. -/
def exAgePrev : GoMap :=
  [("users", .obj [("columns", .obj [
    ("age", .obj [("type", .str "int"), ("null", .bool false)])])])]

/-- See `exAgePrev`. -/
def exAgeCurr : GoMap :=
  [("users", .obj [("columns", .obj [
    ("age", .obj [("type", .str "int unsigned"), ("null", .bool false)])])])]

/-- The snapshot of the end-to-end example: table `users` with the column `id INT`,
not nullable. -/
def exUsers : GoMap :=
  [("users", .obj [("columns", .obj [
    ("id", .obj [("type", .str "INT"), ("null", .bool false)])])])]

/-- A snapshot whose only column has the empty name. -/
def exUnnamed : GoMap :=
  [("users", .obj [("columns", .obj [
    ("", .obj [("type", .str "INT"), ("null", .bool false)])])])]

/-- The start of a statement that inserts a ledger row. -/
def exInsertOpen : String :=
  "INSERT INTO schema_migrations (version, description, checksum) VALUES ('"

/-- The start of the statement that inserts the ledger row of a version. -/
def exInsertHead (version : String) : String := exInsertOpen ++ version ++ "', '"

/-- A database that keeps the statements it has executed, every one of which
succeeds; a version is in its ledger once the insert statement of the version has
been executed, and the last version is that of the last insert statement. -/
def exAdapter : DBAdapter (List String) where
  ApplyMigration := fun db script => (db ++ [script], none)
  countVersion := fun db version =>
    .ok ((db.filter (fun s => hasPrefix s (exInsertHead version))).length : Int)
  lastVersion := fun db =>
    match (db.filter (fun s => hasPrefix s exInsertOpen)).getLast? with
    | none => .error "sql: no rows in result set"
    | some s => .ok ⟨(s.data.drop exInsertOpen.data.length).takeWhile (fun c => c ≠ '\'')⟩
  GetSchema := fun _ => .ok []

/-- The text of a migration file that creates the table `users`. -/
def exScript : String :=
  "-- Up migration\nCREATE TABLE users (\nid INT NOT NULL\n);\n\n-- Down migration\nDROP TABLE users;\n"

/-- A system with a configuration, a database that can be reached and a migration
directory with two migration files and one other file. -/
def exSys : Sys where
  loadConfig := .ok ⟨"mysql", "user:pw@/shop", "snapshots", "migrations"⟩
  connectError := none
  timestamp := "20240103120000"
  pathJoin := fun dir name => dir ++ "/" ++ name
  sha256Hex := fun _ => "0000"
  readDir := fun _ => .ok ["20240102120000_migration.sql", "notes.txt",
    "20240101120000_migration.sql"]
  readFile := fun path =>
    if path = "migrations/20240101120000_migration.sql" then .ok exScript
    else if path = "migrations/20240102120000_migration.sql" then
      .ok "-- Up migration\nALTER TABLE users ADD age INT;\n\n-- Down migration\nALTER TABLE users DROP COLUMN age;\n"
    else .error "no such file"
  writeFile := fun _ _ => none
  marshalIndent := fun _ => .ok "{}"

/-- The system `exSys` with the migration files of the versions `2024`, `20240` and
`2025`. -/
def exSysShort : Sys :=
  { exSys with
    readDir := fun _ => .ok ["2024_migration.sql", "20240_migration.sql", "2025_migration.sql"]
    readFile := fun _ => .ok "-- Up migration\nSELECT 1;\n\n-- Down migration\n" }

/-- The world after `applyMigrations` has run on the empty database of `exAdapter`. -/
def exApplied : World (List String) :=
  (applyMigrations exAdapter exSys "migrations" ⟨[], []⟩).1

/-- The database of `exAdapter` with a connection that is lost after two statements:
every later statement fails and changes nothing. -/
def exFailAdapter : DBAdapter (List String) :=
  { exAdapter with
    ApplyMigration := fun db script =>
      if db.length < 2 then (db ++ [script], none) else (db, some "connection lost") }

/-- Two changes of a table `users`: the table is added, then a column. -/
def exChanges : List Change :=
  [⟨"add", "table:users", "id INT NOT NULL,\nname VARCHAR(100) NULL"⟩,
   ⟨"add", "column:users.age", "type INT NULL"⟩]

/-- The addition of a column whose name has a line break followed by `-- Down`, with
the type `migration`. -/
def exBrokenColumn : List Change :=
  [⟨"add", "column:users.x\n-- Down", "type migration"⟩]

/-- The addition of a table whose name has an empty line. -/
def exBrokenTable : List Change :=
  [⟨"add", "table:a\n\nb", "id INT NOT NULL"⟩]

/-- The change of a column type whose old type has an empty line. -/
def exBrokenType : List Change :=
  [⟨"modify", "column:users.age", "type bigint from int\n\nunsigned"⟩]

/-- The columns `id` and `name` of a table, `id` enumerated first. -/
def exIdName : GoMap :=
  [("id", .obj [("type", .str "INT"), ("null", .bool false)]),
   ("name", .obj [("type", .str "VARCHAR(100)"), ("null", .bool true)])]

/-- The columns of `exIdName`, `name` enumerated first. -/
def exNameId : GoMap :=
  [("name", .obj [("type", .str "VARCHAR(100)"), ("null", .bool true)]),
   ("id", .obj [("type", .str "INT"), ("null", .bool false)])]

/-- A snapshot with the tables `users` and `logs`, `users` enumerated first and its
columns in the order of `exIdName`; the columns of `logs` are `at`, then `msg`. -/
def exTwoTables : GoMap :=
  [("users", .obj [("columns", .obj exIdName)]),
   ("logs", .obj [("columns", .obj [
    ("at", .obj [("type", .str "DATETIME"), ("null", .bool false)]),
    ("msg", .obj [("type", .str "TEXT"), ("null", .bool true)])])])]

/-- The snapshot `exTwoTables` with `logs` enumerated first, its columns `msg`, then
`at`, and the columns of `users` in the order of `exNameId`. -/
def exTwoTablesSwapped : GoMap :=
  [("logs", .obj [("columns", .obj [
    ("msg", .obj [("type", .str "TEXT"), ("null", .bool true)]),
    ("at", .obj [("type", .str "DATETIME"), ("null", .bool false)])])]),
   ("users", .obj [("columns", .obj exNameId)])]

/-- A previous snapshot with the table `users` of the former column `email` and the
column `id` of another type, and the table `old`. -/
def exFormer : GoMap :=
  [("users", .obj [("columns", .obj [
    ("email", .obj [("type", .str "TEXT"), ("null", .bool true)]),
    ("id", .obj [("type", .str "BIGINT"), ("null", .bool false)])])]),
   ("old", .obj [("columns", .obj [])])]

/-- The snapshot `exFormer` with `old` enumerated first and the columns of `users`
in the other order. -/
def exFormerSwapped : GoMap :=
  [("old", .obj [("columns", .obj [])]),
   ("users", .obj [("columns", .obj [
    ("id", .obj [("type", .str "BIGINT"), ("null", .bool false)]),
    ("email", .obj [("type", .str "TEXT"), ("null", .bool true)])])])]

/-- The database of `exAdapter` on which the statement `DELETE FROM schema_migrations;`
removes every row of the ledger and a statement that selects from the table `missing`
fails and changes nothing. -/
def exWipeAdapter : DBAdapter (List String) :=
  { exAdapter with
    ApplyMigration := fun db script =>
      if hasPrefix script "SELECT * FROM missing" then (db, some "table missing does not exist")
      else if hasPrefix script "DELETE FROM schema_migrations;" then
        (db.filter (fun s => !hasPrefix s exInsertOpen) ++ [script], none)
      else (db ++ [script], none) }

/-- The system `exSys` where the second migration file deletes the rows of the
ledger. -/
def exWipeSys : Sys :=
  { exSys with
    readFile := fun path =>
      if path = "migrations/20240101120000_migration.sql" then .ok exScript
      else if path = "migrations/20240102120000_migration.sql" then
        .ok "-- Up migration\nDELETE FROM schema_migrations;\n\n-- Down migration\n"
      else .error "no such file" }

/-- The system `exWipeSys` with a third migration file, whose up-script selects from
the table `missing`, and a fourth one. -/
def exWipeSysFour : Sys :=
  { exSys with
    readDir := fun _ => .ok ["20240104120000_migration.sql", "20240102120000_migration.sql",
      "20240103120000_migration.sql", "20240101120000_migration.sql"]
    readFile := fun path =>
      if path = "migrations/20240101120000_migration.sql" then .ok exScript
      else if path = "migrations/20240102120000_migration.sql" then
        .ok "-- Up migration\nDELETE FROM schema_migrations;\n\n-- Down migration\n"
      else if path = "migrations/20240103120000_migration.sql" then
        .ok "-- Up migration\nSELECT * FROM missing;\n\n-- Down migration\n"
      else if path = "migrations/20240104120000_migration.sql" then
        .ok "-- Up migration\nSELECT 1;\n\n-- Down migration\n"
      else .error "no such file" }

/-- The world after `applyMigrations` has run on the empty database of
`exWipeAdapter` with the files of `exWipeSys`. -/
def exWipeApplied : World (List String) :=
  (applyMigrations exWipeAdapter exWipeSys "migrations" ⟨[], []⟩).1

/-! # Theorems -/

/-! ## Maps and well-formed entries -/

theorem lookup_of_mem (m : GoMap) (h : keysNodup m = true) (k : String) (v : Value)
    (hm : (k, v) ∈ m) : m.lookup k = some v := by
  induction m with
  | nil => cases hm
  | cons e rest ih =>
    obtain ⟨k', v'⟩ := e
    simp only [keysNodup, List.map_cons, List.nodup_cons, decide_eq_true_eq] at h ih
    rcases List.mem_cons.mp hm with heq | hin
    · cases heq
      simp [List.lookup]
    · have hne : k ≠ k' := by
        intro hk
        apply h.1
        rw [← hk]
        exact List.mem_map.mpr ⟨(k, v), hin, rfl⟩
      have hb : (k == k') = false := by simpa using hne
      simp [List.lookup, hb, ih h.2 hin]

theorem colType_obj {v : Value} {s : String} (h : colType v = some s) :
    ∃ f, v = .obj f ∧ index f "type" = .str s := by
  cases v with
  | obj f =>
    refine ⟨f, rfl, ?_⟩
    simp only [colType] at h
    unfold index
    split at h <;> simp_all
  | _ => simp [colType] at h

theorem colNull_obj {v : Value} {b : Bool} (h : colNull v = some b) :
    ∃ f, v = .obj f ∧ index f "null" = .bool b := by
  cases v with
  | obj f =>
    refine ⟨f, rfl, ?_⟩
    simp only [colNull] at h
    unfold index
    split at h <;> simp_all
  | _ => simp [colNull] at h

theorem tableColumns_obj {v : Value} {cols : GoMap} (h : tableColumns v = some cols) :
    ∃ f, v = .obj f ∧ index f "columns" = .obj cols := by
  cases v with
  | obj f =>
    refine ⟨f, rfl, ?_⟩
    simp only [tableColumns] at h
    unfold index
    split at h <;> simp_all
  | _ => simp [tableColumns] at h

theorem compareColumnsPrev_same (table : String) (currCols : GoMap) (l : GoMap)
    (changes : List Change) (h : l.all (fun e => (currCols.lookup e.1).isSome) = true) :
    compareColumnsPrev table currCols l changes = changes := by
  induction l with
  | nil => rfl
  | cons e rest ih =>
    obtain ⟨k, v⟩ := e
    simp only [List.all_cons, Bool.and_eq_true] at h
    obtain ⟨x, hx⟩ := Option.isSome_iff_exists.mp h.1
    simp only [compareColumnsPrev, hx]
    exact ih h.2

theorem comparePrev_same (curr : GoMap) (l : GoMap)
    (changes : List Change) (h : l.all (fun e => (curr.lookup e.1).isSome) = true) :
    comparePrev curr l changes = changes := by
  induction l with
  | nil => rfl
  | cons e rest ih =>
    obtain ⟨k, v⟩ := e
    simp only [List.all_cons, Bool.and_eq_true] at h
    obtain ⟨x, hx⟩ := Option.isSome_iff_exists.mp h.1
    simp only [comparePrev, hx]
    exact ih h.2

theorem compareColumnsCurr_same (bad : Value → String) (table : String) (prevCols : GoMap)
    (l : GoMap) (changes : List Change)
    (hwf : l.all (fun e => wfColumn e.2) = true)
    (h : l.all (fun e => match prevCols.lookup e.1 with
      | some p => colType p == colType e.2 && colNull p == colNull e.2
      | none => false) = true) :
    compareColumnsCurr bad table prevCols l changes = .ok changes := by
  induction l with
  | nil => rfl
  | cons e rest ih =>
    obtain ⟨k, v⟩ := e
    simp only [List.all_cons, Bool.and_eq_true] at h hwf
    obtain ⟨⟨hw, hwr⟩, hk, hr⟩ := And.intro hwf h
    simp only [wfColumn, Bool.and_eq_true] at hw
    obtain ⟨ty, hty⟩ := Option.isSome_iff_exists.mp hw.1
    obtain ⟨nl, hnl⟩ := Option.isSome_iff_exists.mp hw.2
    cases hp : prevCols.lookup k with
    | none => simp [hp] at hk
    | some p =>
      simp only [hp, Bool.and_eq_true, beq_iff_eq] at hk
      rw [hty, hnl] at hk
      obtain ⟨f, rfl, hft⟩ := colType_obj hty
      obtain ⟨_, hf', hfn⟩ := colNull_obj hnl
      cases hf'
      obtain ⟨g, rfl, hgt⟩ := colType_obj hk.1
      obtain ⟨_, hg', hgn⟩ := colNull_obj hk.2
      cases hg'
      simp only [compareColumnsCurr, assertMap, hp, hft, hfn, hgt, hgn, ifaceNe, bind,
        Except.bind, bne_self_eq_false, Bool.false_eq_true, if_false, pure, Except.pure]
      exact ih hwr hr

/-! ## Diff of snapshots with the same schema -/

theorem mem_all {α : Type} {p : α → Bool} {l : List α} (h : l.all p = true) {a : α}
    (ha : a ∈ l) : p a = true := List.all_eq_true.mp h a ha

theorem compareCurr_same (bad : Value → String) (prev : GoMap) (l : GoMap)
    (changes : List Change)
    (hwf : l.all (fun e => wfTable e.2) = true)
    (h : l.all (fun e => match prev.lookup e.1 with
      | some pt => match tableColumns pt, tableColumns e.2 with
        | some pc, some cc => sameColumns pc cc
        | _, _ => false
      | none => false) = true) :
    compareCurr bad prev l changes = .ok changes := by
  induction l with
  | nil => rfl
  | cons e rest ih =>
    obtain ⟨k, v⟩ := e
    simp only [List.all_cons, Bool.and_eq_true] at h hwf
    obtain ⟨⟨hw, hwr⟩, hk, hr⟩ := And.intro hwf h
    cases hp : prev.lookup k with
    | none => simp [hp] at hk
    | some pt =>
      simp only [hp] at hk
      cases hpc : tableColumns pt with
      | none => simp [hpc] at hk
      | some pc =>
        cases hcc : tableColumns v with
        | none => simp [hpc, hcc] at hk
        | some cc =>
          simp only [hpc, hcc, sameColumns, Bool.and_eq_true] at hk
          simp only [wfTable, hcc, wfColumns, Bool.and_eq_true] at hw
          obtain ⟨f, rfl, hf⟩ := tableColumns_obj hpc
          obtain ⟨g, rfl, hg⟩ := tableColumns_obj hcc
          have h1 := compareColumnsCurr_same bad k pc cc [] hw.2 hk.2
          have h2 := compareColumnsPrev_same k cc pc [] hk.1
          simp only [compareCurr, hp, assertMap, hf, hg, compareColumns, h1, h2, bind,
            Except.bind, pure, Except.pure, List.append_nil]
          exact ih hwr hr

theorem sameColumns_self (cols : GoMap) (h : wfColumns cols = true) :
    sameColumns cols cols = true := by
  simp only [wfColumns, Bool.and_eq_true] at h
  simp only [sameColumns, Bool.and_eq_true, List.all_eq_true]
  refine ⟨fun e he => ?_, fun e he => ?_⟩
  · rw [lookup_of_mem cols h.1 e.1 e.2 he]; rfl
  · rw [lookup_of_mem cols h.1 e.1 e.2 he]; simp

theorem sameSchema_self (s : GoMap) (h : wfSnapshot s = true) : sameSchema s s = true := by
  simp only [wfSnapshot, Bool.and_eq_true] at h
  simp only [sameSchema, Bool.and_eq_true, List.all_eq_true]
  refine ⟨fun e he => ?_, fun e he => ?_⟩
  · rw [lookup_of_mem s h.1 e.1 e.2 he]; rfl
  · rw [lookup_of_mem s h.1 e.1 e.2 he]
    have hw := mem_all h.2 he
    simp only [wfTable] at hw
    cases hc : tableColumns e.2 with
    | none => simp [hc] at hw
    | some cols =>
      simp only [hc] at hw ⊢
      exact sameColumns_self cols hw

theorem compare_sameSchema (bad : Value → String) (prev curr : GoMap)
    (hc : wfSnapshot curr = true) (hs : sameSchema prev curr = true) :
    Compare bad prev curr = .ok [] := by
  simp only [wfSnapshot, Bool.and_eq_true] at hc
  simp only [sameSchema, Bool.and_eq_true] at hs
  simp only [Compare, compareCurr_same bad prev curr [] hc.2 hs.2,
    comparePrev_same curr prev [] hs.1, bind, Except.bind, pure, Except.pure]

/-- C1: diffing a well-formed snapshot against itself gives the empty change list,
and so does diffing two well-formed snapshots with the same tables, the same columns
and the same type and null flag of every column, whatever the other attributes. -/
theorem compare_same_is_empty (bad : Value → String) :
    (∀ s : GoMap, wfSnapshot s = true → Compare bad s s = .ok []) ∧
    (∀ prev curr : GoMap, wfSnapshot prev = true → wfSnapshot curr = true →
      sameSchema prev curr = true → Compare bad prev curr = .ok []) :=
  ⟨fun s h => compare_sameSchema bad s s h (sameSchema_self s h),
   fun prev curr _ hc hs => compare_sameSchema bad prev curr hc hs⟩

theorem compare_same_is_empty_witness :
    wfSnapshot exSnapshot = true ∧ wfSnapshot exSnapshotAttrs = true ∧
    sameSchema exSnapshot exSnapshotAttrs = true ∧
    Compare (fun _ => "") exSnapshot exSnapshot = .ok [] ∧
    Compare (fun _ => "") exSnapshot exSnapshotAttrs = .ok [] :=
  ⟨by decide, by decide, by decide,
   (compare_same_is_empty (fun _ => "")).1 exSnapshot (by decide),
   (compare_same_is_empty (fun _ => "")).2 exSnapshot exSnapshotAttrs (by decide) (by decide)
     (by decide)⟩

/-! ## Diff of snapshots with disjoint tables -/

theorem colDefs_wf (bad : Value → String) (cols : GoMap) (defs : List String)
    (h : cols.all (fun e => wfColumn e.2) = true) :
    colDefs bad cols defs = .ok (defs ++ cols.map columnDef) := by
  induction cols generalizing defs with
  | nil => simp [colDefs]
  | cons e rest ih =>
    obtain ⟨k, v⟩ := e
    simp only [List.all_cons, Bool.and_eq_true, wfColumn] at h
    obtain ⟨ty, hty⟩ := Option.isSome_iff_exists.mp h.1.1
    obtain ⟨nl, hnl⟩ := Option.isSome_iff_exists.mp h.1.2
    obtain ⟨f, rfl, hft⟩ := colType_obj hty
    obtain ⟨_, hf, hfn⟩ := colNull_obj hnl
    cases hf
    simp only [colDefs, assertMap, assertBool, hft, hfn, fmtS, bind, Except.bind]
    rw [ih _ h.2]
    simp [columnDef, hty, hnl]

theorem compareCurr_disjoint (bad : Value → String) (prev : GoMap) (l : GoMap)
    (changes : List Change)
    (hwf : l.all (fun e => wfTable e.2) = true)
    (h : l.all (fun e => (prev.lookup e.1).isNone) = true) :
    compareCurr bad prev l changes =
      .ok (changes ++ l.map (fun e => ⟨"add", "table:" ++ e.1, tableDetail e.2⟩)) := by
  induction l generalizing changes with
  | nil => simp [compareCurr]
  | cons e rest ih =>
    obtain ⟨k, v⟩ := e
    simp only [List.all_cons, Bool.and_eq_true, Option.isNone_iff_eq_none] at h hwf
    have hw := hwf.1
    simp only [wfTable] at hw
    cases hc : tableColumns v with
    | none => simp [hc] at hw
    | some cols =>
      simp only [hc, wfColumns, Bool.and_eq_true] at hw
      obtain ⟨f, rfl, hf⟩ := tableColumns_obj hc
      simp only [compareCurr, h.1, assertMap, hf, colDefs_wf bad cols [] hw.2, bind,
        Except.bind, List.nil_append]
      rw [ih _ hwf.2 (by simpa using h.2)]
      simp [tableDetail, hc]

theorem comparePrev_disjoint (curr : GoMap) (l : GoMap) (changes : List Change)
    (h : l.all (fun e => (curr.lookup e.1).isNone) = true) :
    comparePrev curr l changes =
      changes ++ l.map (fun e => ⟨"remove", "table:" ++ e.1, "table removed"⟩) := by
  induction l generalizing changes with
  | nil => simp [comparePrev]
  | cons e rest ih =>
    obtain ⟨k, v⟩ := e
    simp only [List.all_cons, Bool.and_eq_true, Option.isNone_iff_eq_none] at h
    simp only [comparePrev, h.1]
    rw [ih _ (by simpa using h.2)]
    simp

/-- C2: for well-formed snapshots with disjoint table names, `Compare` succeeds and
returns one `add` change `table:<t>` for each table of `curr` followed by one
`remove` change `table:<t>` for each table of `prev`, and nothing else; so the
result has `|curr| + |prev|` changes. -/
theorem compare_disjoint (bad : Value → String) (prev curr : GoMap)
    (hp : wfSnapshot prev = true) (hc : wfSnapshot curr = true)
    (hd : disjointTables prev curr = true) :
    Compare bad prev curr = .ok (
      curr.map (fun e => ⟨"add", "table:" ++ e.1, tableDetail e.2⟩) ++
      prev.map (fun e => ⟨"remove", "table:" ++ e.1, "table removed"⟩)) ∧
    (∀ cs, Compare bad prev curr = .ok cs → cs.length = curr.length + prev.length) := by
  have hkeys : keysNodup prev = true := by
    simp only [wfSnapshot, Bool.and_eq_true] at hp
    exact hp.1
  simp only [wfSnapshot, Bool.and_eq_true] at hc
  simp only [disjointTables, Bool.and_eq_true] at hd
  have hres : Compare bad prev curr = .ok (
      curr.map (fun e => ⟨"add", "table:" ++ e.1, tableDetail e.2⟩) ++
      prev.map (fun e => ⟨"remove", "table:" ++ e.1, "table removed"⟩)) := by
    simp only [Compare, compareCurr_disjoint bad prev curr [] hc.2 hd.1,
      comparePrev_disjoint curr prev _ hd.2, bind, Except.bind, pure, Except.pure,
      List.nil_append]
  refine ⟨hres, fun cs h => ?_⟩
  rw [hres] at h
  cases h
  simp

theorem compare_disjoint_witness :
    Compare (fun _ => "") exSnapshot exSnapshotOther = .ok [
      ⟨"add", "table:orders", "id INT NOT NULL,\ntotal DECIMAL(10,2) NULL"⟩,
      ⟨"remove", "table:users", "table removed"⟩,
      ⟨"remove", "table:logs", "table removed"⟩] :=
  (compare_disjoint (fun _ => "") exSnapshot exSnapshotOther (by decide) (by decide)
    (by decide)).1

/-! ## Diff after one type change -/

theorem mem_of_lookup (m : GoMap) (k : String) (v : Value) (h : m.lookup k = some v) :
    (k, v) ∈ m := by
  induction m with
  | nil => simp [List.lookup] at h
  | cons e rest ih =>
    obtain ⟨k', v'⟩ := e
    by_cases hk : k = k'
    · subst hk
      simp [List.lookup] at h
      simp [h]
    · have hb : (k == k') = false := by simpa using hk
      simp only [List.lookup, hb] at h
      exact List.mem_cons_of_mem _ (ih h)

theorem compareColumnsCurr_except (bad : Value → String) (t c : String) (prevCols : GoMap)
    (col col' : Value) (oldT newT : String) (nl : Bool)
    (hp : prevCols.lookup c = some col)
    (hto : colType col = some oldT) (hno : colNull col = some nl)
    (htn : colType col' = some newT) (hnn : colNull col' = some nl) (hne : newT ≠ oldT)
    (l : GoMap) (changes : List Change)
    (hnd : keysNodup l = true) (hwf : l.all (fun e => wfColumn e.2) = true)
    (hc : ∀ v, (c, v) ∈ l → v = col')
    (h : l.all (fun e => match prevCols.lookup e.1 with
      | some p => e.1 == c || (colType p == colType e.2 && colNull p == colNull e.2)
      | none => false) = true) :
    compareColumnsCurr bad t prevCols l changes = .ok (changes ++
      if c ∈ l.map Prod.fst then
        [⟨"modify", "column:" ++ t ++ "." ++ c,
          "type " ++ newT ++ (if nl then " NULL" else "") ++ " from " ++ oldT ++
            (if nl then " NULL" else "")⟩]
      else []) := by
  induction l generalizing changes with
  | nil => simp [compareColumnsCurr]
  | cons e rest ih =>
    obtain ⟨k, v⟩ := e
    simp only [List.all_cons, Bool.and_eq_true] at h hwf
    simp only [keysNodup, List.map_cons, List.nodup_cons, decide_eq_true_eq] at hnd
    have hrest : keysNodup rest = true := by simpa [keysNodup] using hnd.2
    have hc' : ∀ v, (c, v) ∈ rest → v = col' := fun v hv => hc v (List.mem_cons_of_mem _ hv)
    by_cases hk : k = c
    · subst hk
      have hv : v = col' := hc v (List.mem_cons_self _ _)
      subst hv
      obtain ⟨f, rfl, hft⟩ := colType_obj htn
      obtain ⟨_, hf', hfn⟩ := colNull_obj hnn
      cases hf'
      obtain ⟨g, rfl, hgt⟩ := colType_obj hto
      obtain ⟨_, hg', hgn⟩ := colNull_obj hno
      cases hg'
      have hb : (oldT != newT) = true := by
        simp only [bne_iff_ne, ne_eq]
        exact fun h => hne h.symm
      simp only [compareColumnsCurr, assertMap, assertBool, hp, hft, hfn, hgt, hgn, ifaceNe,
        fmtS, hb, bind, Except.bind, if_true, pure, Except.pure]
      rw [ih _ hrest hwf.2 hc' h.2]
      simp [hnd.1]
    · have hw := hwf.1
      simp only [wfColumn, Bool.and_eq_true] at hw
      obtain ⟨ty, hty⟩ := Option.isSome_iff_exists.mp hw.1
      obtain ⟨nl', hnl⟩ := Option.isSome_iff_exists.mp hw.2
      have hk1 := h.1
      cases hpk : prevCols.lookup k with
      | none => simp [hpk] at hk1
      | some p =>
        simp only [hpk, Bool.or_eq_true, beq_iff_eq, hk, false_or, Bool.and_eq_true] at hk1
        rw [hty, hnl] at hk1
        obtain ⟨f, rfl, hft⟩ := colType_obj hty
        obtain ⟨_, hf', hfn⟩ := colNull_obj hnl
        cases hf'
        obtain ⟨g, rfl, hgt⟩ := colType_obj hk1.1
        obtain ⟨_, hg', hgn⟩ := colNull_obj hk1.2
        cases hg'
        simp only [compareColumnsCurr, assertMap, hpk, hft, hfn, hgt, hgn, ifaceNe, bind,
          Except.bind, bne_self_eq_false, Bool.false_eq_true, if_false, pure, Except.pure]
        rw [ih _ hrest hwf.2 hc' h.2]
        have hck : ¬ c = k := fun h => hk h.symm
        simp only [List.map_cons, List.mem_cons, hck, false_or]


theorem compareCurr_except (bad : Value → String) (t c : String) (prev : GoMap)
    (tv tv' : Value) (pcols ccols : GoMap) (col col' : Value) (oldT newT : String) (nl : Bool)
    (hpt : prev.lookup t = some tv) (hpc : tableColumns tv = some pcols)
    (hcc : tableColumns tv' = some ccols)
    (hp : pcols.lookup c = some col) (hp' : ccols.lookup c = some col')
    (hto : colType col = some oldT) (hno : colNull col = some nl)
    (htn : colType col' = some newT) (hnn : colNull col' = some nl) (hne : newT ≠ oldT)
    (l : GoMap) (changes : List Change)
    (hnd : keysNodup l = true) (hwf : l.all (fun e => wfTable e.2) = true)
    (ht : ∀ v, (t, v) ∈ l → v = tv')
    (h : l.all (fun e => match prev.lookup e.1 with
      | some pt => match tableColumns pt, tableColumns e.2 with
        | some pc, some cc => if e.1 = t then sameColumnsExcept c pc cc else sameColumns pc cc
        | _, _ => false
      | none => false) = true) :
    compareCurr bad prev l changes = .ok (changes ++
      if t ∈ l.map Prod.fst then
        [⟨"modify", "column:" ++ t ++ "." ++ c,
          "type " ++ newT ++ (if nl then " NULL" else "") ++ " from " ++ oldT ++
            (if nl then " NULL" else "")⟩]
      else []) := by
  induction l generalizing changes with
  | nil => simp [compareCurr]
  | cons e rest ih =>
    obtain ⟨k, v⟩ := e
    simp only [List.all_cons, Bool.and_eq_true] at h hwf
    simp only [keysNodup, List.map_cons, List.nodup_cons, decide_eq_true_eq] at hnd
    have hrest : keysNodup rest = true := by simpa [keysNodup] using hnd.2
    have ht' : ∀ v, (t, v) ∈ rest → v = tv' := fun v hv => ht v (List.mem_cons_of_mem _ hv)
    by_cases hk : k = t
    · subst hk
      have hv : v = tv' := ht v (List.mem_cons_self _ _)
      subst hv
      have hk1 := h.1
      simp only [hpt, hpc, hcc, if_true, sameColumnsExcept, Bool.and_eq_true] at hk1
      have hw := hwf.1
      simp only [wfTable, hcc, wfColumns, Bool.and_eq_true] at hw
      obtain ⟨f, rfl, hf⟩ := tableColumns_obj hpc
      obtain ⟨g, rfl, hg⟩ := tableColumns_obj hcc
      have hmem : c ∈ ccols.map Prod.fst :=
        List.mem_map.mpr ⟨(c, col'), mem_of_lookup ccols c col' hp', rfl⟩
      have hcol : ∀ v, (c, v) ∈ ccols → v = col' := by
        intro v hv
        have := lookup_of_mem ccols hw.1 c v hv
        rw [hp'] at this
        exact (Option.some.inj this).symm
      have h1 := compareColumnsCurr_except bad k c pcols col col' oldT newT nl hp hto hno htn
        hnn hne ccols [] hw.1 hw.2 hcol hk1.2
      have h2 := compareColumnsPrev_same k ccols pcols
        [⟨"modify", "column:" ++ k ++ "." ++ c,
          "type " ++ newT ++ (if nl then " NULL" else "") ++ " from " ++ oldT ++
            (if nl then " NULL" else "")⟩] hk1.1
      simp only [hmem, if_true, List.nil_append] at h1
      simp only [compareCurr, hpt, assertMap, hf, hg, compareColumns, h1, h2, bind,
        Except.bind, pure, Except.pure]
      rw [ih _ hrest hwf.2 ht' h.2]
      simp [hnd.1]
    · have hk1 := h.1
      cases hpk : prev.lookup k with
      | none => simp [hpk] at hk1
      | some pt =>
        simp only [hpk] at hk1
        cases hpc' : tableColumns pt with
        | none => simp [hpc'] at hk1
        | some pc =>
          cases hcc' : tableColumns v with
          | none => simp [hpc', hcc'] at hk1
          | some cc =>
            simp only [hpc', hcc', hk, if_false, sameColumns, Bool.and_eq_true] at hk1
            have hw := hwf.1
            simp only [wfTable, hcc', wfColumns, Bool.and_eq_true] at hw
            obtain ⟨f, rfl, hf⟩ := tableColumns_obj hpc'
            obtain ⟨g, rfl, hg⟩ := tableColumns_obj hcc'
            have h1 := compareColumnsCurr_same bad k pc cc [] hw.2 hk1.2
            have h2 := compareColumnsPrev_same k cc pc [] hk1.1
            simp only [compareCurr, hpk, assertMap, hf, hg, compareColumns, h1, h2, bind,
              Except.bind, pure, Except.pure, List.append_nil]
            rw [ih _ hrest hwf.2 ht' h.2]
            have hck : ¬ t = k := fun h => hk h.symm
            simp only [List.map_cons, List.mem_cons, hck, false_or]


/-- C3: when `s2` is the well-formed snapshot `s1` with only the type of column `c` of
table `t` changed from `oldT` to `newT`, `Compare s1 s2` is exactly one `modify`
change of `column:<t>.<c>` with detail `type <newT>[ NULL] from <oldT>[ NULL]`, the
suffix ` NULL` being present exactly when the column is nullable. -/
theorem compare_type_change (bad : Value → String) (s1 s2 : GoMap) (t c : String)
    (col1 col2 : Value) (oldT newT : String) (nl : Bool)
    (_h1 : wfSnapshot s1 = true) (h2 : wfSnapshot s2 = true)
    (hcol1 : lookupColumn s1 t c = some col1) (hcol2 : lookupColumn s2 t c = some col2)
    (hto : colType col1 = some oldT) (hno : colNull col1 = some nl)
    (htn : colType col2 = some newT) (hnn : colNull col2 = some nl) (hne : newT ≠ oldT)
    (hsame : sameSchemaExcept t c s1 s2 = true) :
    Compare bad s1 s2 = .ok [
      ⟨"modify", "column:" ++ t ++ "." ++ c,
        "type " ++ newT ++ (if nl then " NULL" else "") ++ " from " ++ oldT ++
          (if nl then " NULL" else "")⟩] := by
  simp only [wfSnapshot, Bool.and_eq_true] at h2
  simp only [sameSchemaExcept, Bool.and_eq_true] at hsame
  simp only [lookupColumn] at hcol1 hcol2
  cases ht1 : s1.lookup t with
  | none => simp [ht1] at hcol1
  | some tv1 =>
    cases ht2 : s2.lookup t with
    | none => simp [ht2] at hcol2
    | some tv2 =>
      simp only [ht1] at hcol1
      simp only [ht2] at hcol2
      cases hc1 : tableColumns tv1 with
      | none => simp [hc1] at hcol1
      | some pcols =>
        cases hc2 : tableColumns tv2 with
        | none => simp [hc2] at hcol2
        | some ccols =>
          simp only [hc1] at hcol1
          simp only [hc2] at hcol2
          have hmem : t ∈ s2.map Prod.fst :=
            List.mem_map.mpr ⟨(t, tv2), mem_of_lookup s2 t tv2 ht2, rfl⟩
          have htv : ∀ v, (t, v) ∈ s2 → v = tv2 := by
            intro v hv
            have := lookup_of_mem s2 h2.1 t v hv
            rw [ht2] at this
            exact (Option.some.inj this).symm
          have hcurr := compareCurr_except bad t c s1 tv1 tv2 pcols ccols col1 col2 oldT newT nl
            ht1 hc1 hc2 hcol1 hcol2 hto hno htn hnn hne s2 [] h2.1 h2.2 htv hsame.2
          simp only [hmem, if_true, List.nil_append] at hcurr
          simp only [Compare, hcurr, comparePrev_same s2 s1 _ hsame.1, bind, Except.bind, pure,
            Except.pure]

theorem compare_type_change_witness :
    Compare (fun _ => "") exSnapshot exSnapshotRetyped = .ok [
      ⟨"modify", "column:users.name", "type TEXT NULL from VARCHAR(100) NULL"⟩] :=
  compare_type_change (fun _ => "") exSnapshot exSnapshotRetyped "users" "name"
    (.obj [("type", .str "VARCHAR(100)"), ("null", .bool true), ("key", .str ""),
      ("default", .str ""), ("extra", .str "")])
    (.obj [("type", .str "TEXT"), ("null", .bool true), ("key", .str ""),
      ("default", .str ""), ("extra", .str "")])
    "VARCHAR(100)" "TEXT" true (by decide) (by decide) rfl rfl (by decide)
    (by decide) (by decide) (by decide) (by decide) (by decide)

/-! ## Table entries without a columns map -/

theorem wfColumn_obj {v : Value} (h : wfColumn v = true) :
    ∃ f ty nl, v = .obj f ∧ index f "type" = .str ty ∧ index f "null" = .bool nl := by
  simp only [wfColumn, Bool.and_eq_true] at h
  obtain ⟨ty, hty⟩ := Option.isSome_iff_exists.mp h.1
  obtain ⟨nl, hnl⟩ := Option.isSome_iff_exists.mp h.2
  obtain ⟨f, rfl, hft⟩ := colType_obj hty
  obtain ⟨_, hf, hfn⟩ := colNull_obj hnl
  cases hf
  exact ⟨f, ty, nl, rfl, hft, hfn⟩

theorem compareColumnsCurr_ok (bad : Value → String) (t : String) (prevCols : GoMap)
    (hprev : ∀ k p, prevCols.lookup k = some p → wfColumn p = true)
    (l : GoMap) (changes : List Change) (hwf : l.all (fun e => wfColumn e.2) = true) :
    ∃ cs, compareColumnsCurr bad t prevCols l changes = .ok cs := by
  induction l generalizing changes with
  | nil => exact ⟨changes, rfl⟩
  | cons e rest ih =>
    obtain ⟨k, v⟩ := e
    simp only [List.all_cons, Bool.and_eq_true] at hwf
    obtain ⟨f, ty, nl, rfl, hft, hfn⟩ := wfColumn_obj hwf.1
    cases hp : prevCols.lookup k with
    | none =>
      simp only [compareColumnsCurr, assertMap, assertBool, hp, hfn, bind, Except.bind]
      exact ih _ hwf.2
    | some p =>
      obtain ⟨g, ty', nl', rfl, hgt, hgn⟩ := wfColumn_obj (hprev k p hp)
      simp only [compareColumnsCurr, assertMap, assertBool, hp, hft, hfn, hgt, hgn, ifaceNe,
        bind, Except.bind, pure, Except.pure]
      cases h1 : (ty' != ty) <;> cases h2 : (nl' != nl) <;>
        simp only [if_true, if_false, Bool.false_eq_true] <;> exact ih _ hwf.2

theorem compareColumns_ok (bad : Value → String) (t : String) (prevCols currCols : GoMap)
    (hp : wfColumns prevCols = true) (hc : wfColumns currCols = true) :
    ∃ cs, compareColumns bad t prevCols currCols = .ok cs := by
  simp only [wfColumns, Bool.and_eq_true] at hp hc
  obtain ⟨cs, hcs⟩ := compareColumnsCurr_ok bad t prevCols
    (fun k p h => mem_all hp.2 (mem_of_lookup prevCols k p h)) currCols [] hc.2
  refine ⟨compareColumnsPrev t currCols prevCols cs, ?_⟩
  simp only [compareColumns, hcs, bind, Except.bind, pure, Except.pure]

theorem compareCurr_invalid (bad : Value → String) (prev : GoMap) (l : GoMap)
    (changes : List Change)
    (hall : l.all (fun e => match prev.lookup e.1 with
      | some pt => wfTable pt && wfTable e.2
      | none => wfTable e.2 || lacksColumns e.2) = true)
    (hsome : l.any (fun e => (prev.lookup e.1).isNone && lacksColumns e.2) = true) :
    ∃ t v, (t, v) ∈ l ∧ prev.lookup t = none ∧ lacksColumns v = true ∧
      compareCurr bad prev l changes = .error (.error ("schema inválido para a tabela " ++ t)) := by
  induction l generalizing changes with
  | nil => simp at hsome
  | cons e rest ih =>
    obtain ⟨k, v⟩ := e
    simp only [List.all_cons, Bool.and_eq_true] at hall
    simp only [List.any_cons, Bool.or_eq_true, Bool.and_eq_true, Option.isNone_iff_eq_none]
      at hsome
    have hk := hall.1
    cases hp : prev.lookup k with
    | some pt =>
      simp only [hp, Bool.and_eq_true] at hk
      have hrest : rest.any (fun e => (prev.lookup e.1).isNone && lacksColumns e.2) = true := by
        rcases hsome with h | h
        · rw [hp] at h; exact absurd h.1 (by simp)
        · exact h
      simp only [wfTable] at hk
      cases hpc : tableColumns pt with
      | none => simp [hpc] at hk
      | some pc =>
        cases hcc : tableColumns v with
        | none => simp [hcc] at hk
        | some cc =>
          simp only [hpc, hcc] at hk
          obtain ⟨f, rfl, hf⟩ := tableColumns_obj hpc
          obtain ⟨g, rfl, hg⟩ := tableColumns_obj hcc
          obtain ⟨cs, hcs⟩ := compareColumns_ok bad k pc cc hk.1 hk.2
          have step : compareCurr bad prev ((k, .obj g) :: rest) changes =
              compareCurr bad prev rest (changes ++ cs) := by
            simp only [compareCurr, hp, assertMap, hf, hg, hcs, bind, Except.bind]
          obtain ⟨t, w, hm, hn, hl, hres⟩ := ih (changes ++ cs) hall.2 hrest
          exact ⟨t, w, List.mem_cons_of_mem _ hm, hn, hl, step.trans hres⟩
    | none =>
      simp only [hp, Bool.or_eq_true] at hk
      by_cases hl : lacksColumns v = true
      · refine ⟨k, v, List.mem_cons_self _ _, hp, hl, ?_⟩
        cases v with
        | obj f =>
          simp only [lacksColumns, Option.isNone_iff_eq_none] at hl
          simp only [compareCurr, hp, assertMap, bind, Except.bind]
          simp only [tableColumns] at hl
          unfold index
          split at hl
          · simp at hl
          · rename_i hne
            cases hx : List.lookup "columns" f with
            | none => rfl
            | some x =>
              cases x with
              | obj cols => exact absurd hx (hne cols)
              | _ => rfl
        | _ => simp [lacksColumns] at hl
      · have hw : wfTable v = true := by
          rcases hk with h | h
          · exact h
          · exact absurd h hl
        have hrest : rest.any (fun e => (prev.lookup e.1).isNone && lacksColumns e.2) = true := by
          rcases hsome with h | h
          · exact absurd h.2 hl
          · exact h
        simp only [wfTable] at hw
        cases hcc : tableColumns v with
        | none => simp [hcc] at hw
        | some cc =>
          simp only [hcc, wfColumns, Bool.and_eq_true] at hw
          obtain ⟨g, rfl, hg⟩ := tableColumns_obj hcc
          have step : compareCurr bad prev ((k, .obj g) :: rest) changes =
              compareCurr bad prev rest (changes ++
                [⟨"add", "table:" ++ k, stringsJoin ([] ++ cc.map columnDef) ",\n"⟩]) := by
            simp only [compareCurr, hp, assertMap, hg, colDefs_wf bad cc [] hw.2, bind,
              Except.bind]
          obtain ⟨t, w, hm, hn, hl, hres⟩ := ih _ hall.2 hrest
          exact ⟨t, w, List.mem_cons_of_mem _ hm, hn, hl, step.trans hres⟩


/-- C4 (code defect): at the failing input the table `users` is on both sides and
its entry is a map without a columns map. `Compare` panics there, at the unchecked
assertion of line 49, also when only the entry of `prev` lacks the columns map; the
sibling branch for a table that is only in `curr` checks the same map (lines 26-29)
and returns the invalid-schema error that the claim states. A table that is only in
`prev` is not inspected and yields its change. -/
theorem compare_missing_columns_panic :
    lacksColumns (.obj []) = true ∧
    Compare (fun _ => "") [("users", .obj [])] [("users", .obj [])] = .error .panic ∧
    Compare (fun _ => "") [("users", .obj [])] [("users", .obj [("columns", .obj [])])] =
      .error .panic ∧
    Compare (fun _ => "") [] [("users", .obj [])] =
      .error (.error "schema inválido para a tabela users") ∧
    Compare (fun _ => "") [("users", .obj [])] [] =
      .ok [⟨"remove", "table:users", "table removed"⟩] := by
  decide

/-- The branch of `Compare` for a table that is only in `curr` (lines 24-29): when
every table on both sides is well-formed on both sides, every table only in `curr` is
well-formed or is a map without a columns map, and some table only in `curr` lacks
its columns map, `Compare` returns the invalid-schema error naming such a table. -/
theorem compare_invalid_schema (bad : Value → String) (prev curr : GoMap)
    (hall : curr.all (fun e => match prev.lookup e.1 with
      | some pt => wfTable pt && wfTable e.2
      | none => wfTable e.2 || lacksColumns e.2) = true)
    (hsome : curr.any (fun e => (prev.lookup e.1).isNone && lacksColumns e.2) = true) :
    ∃ t v, (t, v) ∈ curr ∧ prev.lookup t = none ∧ lacksColumns v = true ∧
      Compare bad prev curr = .error (.error ("schema inválido para a tabela " ++ t)) := by
  obtain ⟨t, v, hm, hn, hl, hres⟩ := compareCurr_invalid bad prev curr [] hall hsome
  refine ⟨t, v, hm, hn, hl, ?_⟩
  simp only [Compare, hres, bind, Except.bind]

theorem compare_invalid_schema_witness :
    ∃ t v, (t, v) ∈ exSnapshotBroken ∧ exSnapshot.lookup t = none ∧ lacksColumns v = true ∧
      Compare (fun _ => "") exSnapshot exSnapshotBroken =
        .error (.error ("schema inválido para a tabela " ++ t)) :=
  compare_invalid_schema (fun _ => "") exSnapshot exSnapshotBroken (by decide) (by decide)

/-! ## Script lines of a `modify` change -/

theorem splitChars_append (sep : Char) (a b : List Char) (h : sep ∉ a) :
    splitChars sep (a ++ sep :: b) = a :: splitChars sep b := by
  induction a with
  | nil => simp [splitChars]
  | cons c a ih =>
    simp only [List.mem_cons, not_or] at h
    have hc : ¬ c = sep := fun e => h.1 e.symm
    rw [List.cons_append]
    simp only [splitChars, hc, if_false]
    rw [ih h.2]

theorem splitChars_nosep (sep : Char) (a : List Char) (h : sep ∉ a) :
    splitChars sep a = [a] := by
  induction a with
  | nil => rfl
  | cons c a ih =>
    simp only [List.mem_cons, not_or] at h
    have hc : ¬ c = sep := fun e => h.1 e.symm
    simp only [splitChars, hc, if_false, ih h.2]

theorem hasPrefix_append (p s : String) : hasPrefix (p ++ s) p = true := by
  simp [hasPrefix, String.data_append, List.isPrefixOf_iff_prefix]

theorem trimPrefix_append (p s : String) : trimPrefix (p ++ s) p = s := by
  simp [trimPrefix, hasPrefix_append, String.data_append]

theorem stringsSplit_pair (t c : String) (ht : '.' ∉ t.data) (hc : '.' ∉ c.data) :
    stringsSplit (t ++ "." ++ c) '.' = [t, c] := by
  have hd : (t ++ "." ++ c).data = t.data ++ '.' :: c.data := by
    simp [String.data_append]
  simp only [stringsSplit, hd, splitChars_append _ _ _ ht, splitChars_nosep _ _ hc,
    List.map_cons, List.map_nil]

theorem stringsSplit_detail (newT oldT : String) (newNull oldNull : Bool)
    (hn : ' ' ∉ newT.data) (ho : ' ' ∉ oldT.data) :
    stringsSplit ("type " ++ newT ++ (if newNull then " NULL" else "") ++ " from " ++ oldT ++
      (if oldNull then " NULL" else "")) ' ' =
    ["type", newT] ++ (if newNull then ["NULL"] else []) ++ ["from", oldT] ++
      (if oldNull then ["NULL"] else []) := by
  have h1 : ' ' ∉ "type".data := by decide
  have h2 : ' ' ∉ "from".data := by decide
  have h3 : ' ' ∉ "NULL".data := by decide
  cases newNull <;> cases oldNull
  · have hd : ("type " ++ newT ++ "" ++ " from " ++ oldT ++ "").data =
        "type".data ++ ' ' :: (newT.data ++ ' ' :: ("from".data ++ ' ' :: oldT.data)) := by
      simp [String.data_append]
    simp only [stringsSplit, Bool.false_eq_true, if_false, hd, splitChars_append _ _ _ h1,
      splitChars_append _ _ _ hn, splitChars_append _ _ _ h2, splitChars_nosep _ _ ho]
    rfl
  · have hd : ("type " ++ newT ++ "" ++ " from " ++ oldT ++ " NULL").data =
        "type".data ++ ' ' :: (newT.data ++ ' ' :: ("from".data ++ ' ' ::
          (oldT.data ++ ' ' :: "NULL".data))) := by
      simp [String.data_append]
    simp only [stringsSplit, Bool.false_eq_true, if_false, if_true, hd,
      splitChars_append _ _ _ h1, splitChars_append _ _ _ hn, splitChars_append _ _ _ h2,
      splitChars_append _ _ _ ho, splitChars_nosep _ _ h3]
    rfl
  · have hd : ("type " ++ newT ++ " NULL" ++ " from " ++ oldT ++ "").data =
        "type".data ++ ' ' :: (newT.data ++ ' ' :: ("NULL".data ++ ' ' ::
          ("from".data ++ ' ' :: oldT.data))) := by
      simp [String.data_append]
    simp only [stringsSplit, Bool.false_eq_true, if_false, if_true, hd,
      splitChars_append _ _ _ h1, splitChars_append _ _ _ hn, splitChars_append _ _ _ h2,
      splitChars_append _ _ _ h3, splitChars_nosep _ _ ho]
    rfl
  · have hd : ("type " ++ newT ++ " NULL" ++ " from " ++ oldT ++ " NULL").data =
        "type".data ++ ' ' :: (newT.data ++ ' ' :: ("NULL".data ++ ' ' ::
          ("from".data ++ ' ' :: (oldT.data ++ ' ' :: "NULL".data)))) := by
      simp [String.data_append]
    simp only [stringsSplit, if_true, hd,
      splitChars_append _ _ _ h1, splitChars_append _ _ _ hn, splitChars_append _ _ _ h2,
      splitChars_append _ _ _ h3, splitChars_append _ _ _ ho, splitChars_nosep _ _ h3]
    rfl

theorem extract_detail (newT oldT : String) (newNull oldNull : Bool)
    (hn : ' ' ∉ newT.data) (ho : ' ' ∉ oldT.data) (hf : newT ≠ "from") :
    extractType (modifyDetail newT newNull oldT oldNull) = newT ∧
    extractOldType (modifyDetail newT newNull oldT oldNull) = oldT := by
  have e1 : ¬ ("type" = "from") := by decide
  have e2 : ¬ ("NULL" = "from") := by decide
  simp only [extractType, extractOldType, modifyDetail,
    stringsSplit_detail newT oldT newNull oldNull hn ho]
  cases newNull <;> cases oldNull <;>
    simp [tokenAfter, hf, e1, e2]


theorem columnParts_column (t c : String) (ht : '.' ∉ t.data) (hc : '.' ∉ c.data) :
    columnParts ("column:" ++ t ++ "." ++ c) = some (t, c) := by
  have e : "column:" ++ t ++ "." ++ c = "column:" ++ (t ++ "." ++ c) := by
    simp [String.append_assoc]
  rw [columnParts, e, trimPrefix_append, stringsSplit_pair t c ht hc]

theorem hasPrefix_column (t c : String) :
    hasPrefix ("column:" ++ t ++ "." ++ c) "column:" = true := by
  have e : "column:" ++ t ++ "." ++ c = "column:" ++ (t ++ "." ++ c) := by
    simp [String.append_assoc]
  rw [e, hasPrefix_append]

/-- C5 (as stated, refuted): for the type change `int` to `int unsigned` that
`Compare` reports, the up-script gets the type `int`; an old type with a space is cut
the same way, a new type `from` is taken for the old type, and a table name with a
dot makes the synthesis fail. -/
theorem modify_types_counterexample :
    Compare (fun _ => "") exAgePrev exAgeCurr =
      .ok [⟨"modify", "column:users.age", "type int unsigned from int"⟩] ∧
    extractType "type int unsigned from int" = "int" ∧
    synthChange ⟨"modify", "column:users.age", "type int unsigned from int"⟩ "" "" =
      .ok ("ALTER TABLE users MODIFY age int;\n", "ALTER TABLE users MODIFY age int;\n") ∧
    extractOldType "type int from int unsigned" = "int" ∧
    extractOldType "type from from int" = "from" ∧
    synthChange ⟨"modify", "column:shop.users.age", "type bigint from int"⟩ "" "" =
      .error (.error "formato inválido para coluna: column:shop.users.age") := by
  decide

/-- C5 (amended): for a table name and a column name without a dot and type strings
without a space, the new one not being `from`, the `modify` change with detail
`type <newT>[ NULL] from <oldT>[ NULL]` appends `ALTER TABLE <t> MODIFY <c> <newT>;`
to the up-script and `ALTER TABLE <t> MODIFY <c> <oldT>;` to the down-script, as
`extractType` gives `newT` and `extractOldType` gives `oldT`. -/
theorem modify_change_scripts (t c newT oldT : String) (newNull oldNull : Bool)
    (up down : String)
    (ht : '.' ∉ t.data) (hc : '.' ∉ c.data)
    (hn : ' ' ∉ newT.data) (ho : ' ' ∉ oldT.data) (hf : newT ≠ "from") :
    extractType (modifyDetail newT newNull oldT oldNull) = newT ∧
    extractOldType (modifyDetail newT newNull oldT oldNull) = oldT ∧
    synthChange ⟨"modify", "column:" ++ t ++ "." ++ c, modifyDetail newT newNull oldT oldNull⟩
        up down =
      .ok (up ++ ("ALTER TABLE " ++ t ++ " MODIFY " ++ c ++ " " ++ newT ++ ";\n"),
        down ++ ("ALTER TABLE " ++ t ++ " MODIFY " ++ c ++ " " ++ oldT ++ ";\n")) := by
  obtain ⟨h1, h2⟩ := extract_detail newT oldT newNull oldNull hn ho hf
  refine ⟨h1, h2, ?_⟩
  have e1 : ¬ ("modify" = "add") := by decide
  have e2 : ¬ ("modify" = "remove") := by decide
  simp only [synthChange, e1, e2, if_false, if_true, hasPrefix_column,
    columnParts_column t c ht hc, h1, h2]

theorem modify_change_scripts_witness :
    synthChange ⟨"modify", "column:users.age", "type bigint NULL from int"⟩
        "-- Up migration\n" "-- Down migration\n" =
      .ok ("-- Up migration\nALTER TABLE users MODIFY age bigint;\n",
        "-- Down migration\nALTER TABLE users MODIFY age int;\n") :=
  (modify_change_scripts "users" "age" "bigint" "int" true false
    "-- Up migration\n" "-- Down migration\n"
    (by decide) (by decide) (by decide) (by decide) (by decide)).2.2

/-! ## Failure of the script synthesis -/

theorem not_table_of_column (o : String) (h : hasPrefix o "column:" = true) :
    hasPrefix o "table:" = false := by
  unfold hasPrefix at h ⊢
  cases hd : o.data with
  | nil => rw [hd] at h; exact absurd h (by decide)
  | cons x xs =>
    rw [hd] at h
    have e1 : "column:".data = 'c' :: "olumn:".data := rfl
    have e2 : "table:".data = 't' :: "able:".data := rfl
    rw [e1, List.isPrefixOf] at h
    rw [e2, List.isPrefixOf]
    simp only [Bool.and_eq_true, beq_iff_eq] at h
    rw [← h.1]
    rfl

theorem synthChange_unsupported (c : Change) (up down : String)
    (h : unsupportedKind c = true) :
    synthChange c up down = .error (synthError c) := by
  have h' := h
  simp only [unsupportedKind, Bool.not_eq_true', Bool.or_eq_false_iff,
    decide_eq_false_iff_not] at h'
  simp only [synthChange, synthError, h, h'.1.1, h'.1.2, h'.2, if_false, if_true]

theorem synthChange_invalid (c : Change) (up down : String)
    (hk : unsupportedKind c = false) (h : invalidColumn c = true) :
    synthChange c up down = .error (synthError c) := by
  simp only [invalidColumn, Bool.and_eq_true, Bool.or_eq_true, decide_eq_true_eq,
    Option.isNone_iff_eq_none] at h
  obtain ⟨⟨hkind, hcol⟩, hparts⟩ := h
  have ht := not_table_of_column c.object hcol
  simp only [synthError, hk, Bool.false_eq_true, if_false]
  rcases hkind with (hadd | hrem) | hmod
  · simp only [synthChange, hadd, if_true, ht, Bool.false_eq_true, if_false, hcol, hparts]
  · have e : ¬ ("remove" = "add") := by decide
    simp only [synthChange, hrem, e, if_true, ht, Bool.false_eq_true, if_false, hcol, hparts]
  · have e1 : ¬ ("modify" = "add") := by decide
    have e2 : ¬ ("modify" = "remove") := by decide
    simp only [synthChange, hmod, e1, e2, if_true, if_false, hcol, hparts]

theorem synthChange_ok (c : Change) (up down : String)
    (hk : unsupportedKind c = false) (h : invalidColumn c = false) :
    ∃ r, synthChange c up down = .ok r := by
  simp only [unsupportedKind, Bool.not_eq_false', Bool.or_eq_true, decide_eq_true_eq] at hk
  have hparts : hasPrefix c.object "column:" = true → ∃ p, columnParts c.object = some p := by
    intro hcol
    cases hp : columnParts c.object with
    | some p => exact ⟨p, rfl⟩
    | none =>
      have : invalidColumn c = true := by
        simp only [invalidColumn, Bool.and_eq_true, Bool.or_eq_true, decide_eq_true_eq,
          Option.isNone_iff_eq_none]
        exact ⟨⟨hk, hcol⟩, hp⟩
      rw [h] at this
      exact absurd this (by decide)
  unfold synthChange
  by_cases h1 : c.kind = "add"
  · simp only [h1, if_true]
    by_cases ht : hasPrefix c.object "table:" = true
    · simp only [ht, if_true]
      exact ⟨_, rfl⟩
    · simp only [ht, if_false]
      by_cases hc : hasPrefix c.object "column:" = true
      · obtain ⟨p, hp⟩ := hparts hc
        simp only [hc, if_true, hp]
        exact ⟨_, rfl⟩
      · simp only [hc, if_false]
        exact ⟨_, rfl⟩
  · simp only [h1, if_false]
    by_cases h2 : c.kind = "remove"
    · simp only [h2, if_true]
      by_cases ht : hasPrefix c.object "table:" = true
      · simp only [ht, if_true]
        exact ⟨_, rfl⟩
      · simp only [ht, if_false]
        by_cases hc : hasPrefix c.object "column:" = true
        · obtain ⟨p, hp⟩ := hparts hc
          simp only [hc, if_true, hp]
          exact ⟨_, rfl⟩
        · simp only [hc, if_false]
          exact ⟨_, rfl⟩
    · simp only [h2, if_false]
      have h3 : c.kind = "modify" := by
        rcases hk with (h | h) | h
        · exact absurd h h1
        · exact absurd h h2
        · exact h
      simp only [h3, if_true]
      by_cases hc : hasPrefix c.object "column:" = true
      · obtain ⟨p, hp⟩ := hparts hc
        simp only [hc, if_true, hp]
        exact ⟨_, rfl⟩
      · simp only [hc, if_false]
        exact ⟨_, rfl⟩

theorem synthesize_first_offending (changes : List Change) (up down : String) :
    (∀ c, changes.find? (fun c => unsupportedKind c || invalidColumn c) = some c →
      synthesize changes up down = .error (synthError c)) ∧
    (changes.find? (fun c => unsupportedKind c || invalidColumn c) = none →
      ∃ r, synthesize changes up down = .ok r) := by
  induction changes generalizing up down with
  | nil => exact ⟨fun c h => by simp at h, fun _ => ⟨_, rfl⟩⟩
  | cons c rest ih =>
    cases hk : unsupportedKind c with
    | true =>
      refine ⟨fun c' h => ?_, fun h => ?_⟩
      · simp only [List.find?, hk, Bool.true_or] at h
        cases h
        simp only [synthesize, synthChange_unsupported c up down hk]
      · simp [List.find?, hk] at h
    | false =>
      cases hi : invalidColumn c with
      | true =>
        refine ⟨fun c' h => ?_, fun h => ?_⟩
        · simp only [List.find?, hk, hi, Bool.or_true] at h
          cases h
          simp only [synthesize, synthChange_invalid c up down hk hi]
        · simp [List.find?, hk, hi] at h
      | false =>
        obtain ⟨⟨u, d⟩, hr⟩ := synthChange_ok c up down hk hi
        refine ⟨fun c' h => ?_, fun h => ?_⟩
        · simp only [List.find?, hk, hi, Bool.or_false] at h
          simp only [synthesize, hr]
          exact (ih u d).1 c' h
        · simp only [List.find?, hk, hi, Bool.or_false] at h
          simp only [synthesize, hr]
          exact (ih u d).2 h


/-- C6 (as stated, refuted): a list whose only change has the kind `add` fails in
the synthesis, with the invalid-column-format error, also when every write succeeds;
and a list with an unsupported kind can fail with that error instead of the
unsupported-change-kind error. -/
theorem generate_failure_counterexample :
    unsupportedKind ⟨"add", "column:users", "type INT"⟩ = false ∧
    synthesize [⟨"add", "column:users", "type INT"⟩] "-- Up migration\n" "-- Down migration\n" =
      .error (.error "formato inválido para coluna: column:users") ∧
    (GenerateMigration exGenEnv [⟨"add", "column:users", "type INT"⟩] "migrations").result =
      .error (.error "formato inválido para coluna: column:users") ∧
    synthesize [⟨"remove", "column:a.b.c", ""⟩, ⟨"rename", "table:x", ""⟩]
        "-- Up migration\n" "-- Down migration\n" =
      .error (.error "formato inválido para coluna: column:a.b.c") := by
  decide

/-- C6 (amended): the synthesis of `GenerateMigration` fails exactly when some change
has an unsupported kind or is a change of a supported kind whose object starts with
`column:` without being `column:<table>.<column>`; `GenerateMigration` then returns
the error of the first such change and writes no file; and when every write succeeds
it succeeds on every list without such a change. -/
theorem generate_failure (env : GenEnv) (changes : List Change) (dir : String) :
    ((∃ e, synthesize changes "-- Up migration\n" "-- Down migration\n" = .error e) ↔
      ∃ c ∈ changes, unsupportedKind c = true ∨ invalidColumn c = true) ∧
    (∀ c, changes.find? (fun c => unsupportedKind c || invalidColumn c) = some c →
      synthesize changes "-- Up migration\n" "-- Down migration\n" = .error (synthError c) ∧
      (GenerateMigration env changes dir).result = .error (synthError c) ∧
      (GenerateMigration env changes dir).written = []) ∧
    ((∀ c ∈ changes, unsupportedKind c = false ∧ invalidColumn c = false) →
      (∀ path content, env.writeFile path content = none) →
      ∃ m, (GenerateMigration env changes dir).result = .ok m) := by
  have hfirst := synthesize_first_offending changes "-- Up migration\n" "-- Down migration\n"
  refine ⟨⟨?_, ?_⟩, ?_, ?_⟩
  · rintro ⟨e, he⟩
    cases hf : changes.find? (fun c => unsupportedKind c || invalidColumn c) with
    | none =>
      obtain ⟨r, hr⟩ := hfirst.2 hf
      rw [hr] at he
      cases he
    | some c =>
      have hp := List.find?_some hf
      simp only [Bool.or_eq_true] at hp
      exact ⟨c, List.mem_of_find?_eq_some hf, hp⟩
  · rintro ⟨c, hc, hp⟩
    cases hf : changes.find? (fun c => unsupportedKind c || invalidColumn c) with
    | none =>
      have := List.find?_eq_none.mp hf c hc
      simp only [Bool.or_eq_true] at this
      exact absurd hp this
    | some c' => exact ⟨_, hfirst.1 c' hf⟩
  · intro c hf
    have hs := hfirst.1 c hf
    refine ⟨hs, ?_, ?_⟩ <;> simp only [GenerateMigration, hs]
  · intro hall hw
    have hf : changes.find? (fun c => unsupportedKind c || invalidColumn c) = none := by
      apply List.find?_eq_none.mpr
      intro c hc
      simp [hall c hc]
    obtain ⟨⟨u, d⟩, hr⟩ := hfirst.2 hf
    refine ⟨⟨env.timestamp, u, d, env.sha256Hex (u ++ "\n" ++ d)⟩, ?_⟩
    simp only [GenerateMigration, hr, hw]

theorem generate_failure_witness :
    (synthesize [⟨"add", "table:users", "id INT NOT NULL"⟩, ⟨"rename", "table:users", ""⟩]
        "-- Up migration\n" "-- Down migration\n" =
      .error (.error "tipo de mudança não suportado: rename") ∧
     (GenerateMigration exGenEnv
        [⟨"add", "table:users", "id INT NOT NULL"⟩, ⟨"rename", "table:users", ""⟩]
        "migrations").result = .error (.error "tipo de mudança não suportado: rename") ∧
     (GenerateMigration exGenEnv
        [⟨"add", "table:users", "id INT NOT NULL"⟩, ⟨"rename", "table:users", ""⟩]
        "migrations").written = []) ∧
    ∃ m, (GenerateMigration exGenEnv [⟨"remove", "column:users.age", "column removed"⟩]
        "migrations").result = .ok m :=
  ⟨(generate_failure exGenEnv
      [⟨"add", "table:users", "id INT NOT NULL"⟩, ⟨"rename", "table:users", ""⟩]
      "migrations").2.1 ⟨"rename", "table:users", ""⟩ (by decide),
   (generate_failure exGenEnv [⟨"remove", "column:users.age", "column removed"⟩]
      "migrations").2.2 (by decide) (fun _ _ => rfl)⟩

/-! ## End to end: one added table -/


theorem trimSpace_eq_self (s : String) (c : Char) (r init : List Char) (d : Char)
    (h1 : s.data = c :: r) (h2 : s.data = init ++ [d])
    (hc : isSpace c = false) (hd : isSpace d = false) : trimSpace s = s := by
  have e1 : s.data.dropWhile isSpace = s.data := by
    rw [h1, List.dropWhile_cons, hc]; rfl
  have e2 : s.data.reverse.dropWhile isSpace = s.data.reverse := by
    rw [h2, List.reverse_append, List.reverse_singleton, List.singleton_append,
      List.dropWhile_cons, hd]; rfl
  unfold trimSpace
  rw [e1, e2, List.reverse_reverse]

theorem stringsJoin_cons_data (d : String) (ds : List String) (sep : String) :
    ∃ r, (stringsJoin (d :: ds) sep).data = d.data ++ r := by
  cases ds with
  | nil => exact ⟨[], by simp [stringsJoin]⟩
  | cons b rest =>
    exact ⟨sep.data ++ (stringsJoin (b :: rest) sep).data,
      by simp only [stringsJoin, String.data_append, List.append_assoc]⟩

theorem stringsJoin_last (l : List String) (sep : String) (x : Char) (hne : l ≠ [])
    (h : ∀ d ∈ l, ∃ init, d.data = init ++ [x]) :
    ∃ init, (stringsJoin l sep).data = init ++ [x] := by
  induction l with
  | nil => exact absurd rfl hne
  | cons a rest ih =>
    cases rest with
    | nil => simpa [stringsJoin] using h a (List.mem_cons_self _ _)
    | cons b rest' =>
      obtain ⟨init, hi⟩ := ih (by simp) (fun d hd => h d (List.mem_cons_of_mem _ hd))
      refine ⟨a.data ++ sep.data ++ init, ?_⟩
      simp only [stringsJoin, String.data_append, hi, List.append_assoc]

theorem columnDef_first (e : String × Value) (c : Char) (r : List Char)
    (h : e.1.data = c :: r) : ∃ r', (columnDef e).data = c :: r' := by
  refine ⟨r ++ (" ".data ++ (((colType e.2).getD "").data ++ (" ".data ++
    (if (colNull e.2).getD false then "NULL" else "NOT NULL").data))), ?_⟩
  simp only [columnDef, String.data_append, h, List.cons_append, List.append_assoc]

theorem columnDef_last (e : String × Value) : ∃ init, (columnDef e).data = init ++ ['L'] := by
  cases hn : (colNull e.2).getD false with
  | true =>
    refine ⟨(e.1 ++ " " ++ (colType e.2).getD "" ++ " ").data ++ ['N', 'U', 'L'], ?_⟩
    simp only [columnDef, hn, if_true, String.data_append, List.append_assoc]
    rfl
  | false =>
    refine ⟨(e.1 ++ " " ++ (colType e.2).getD "" ++ " ").data ++
      ['N', 'O', 'T', ' ', 'N', 'U', 'L'], ?_⟩
    simp only [columnDef, hn, Bool.false_eq_true, if_false, String.data_append,
      List.append_assoc]
    rfl

theorem toLower_ne_tableAdded (s : String) (init : List Char) (h : s.data = init ++ ['L']) :
    toLower s ≠ "table added" := by
  intro he
  have hd : (toLower s).data.getLast? = "table added".data.getLast? := by rw [he]
  have hl : "table added".data = "table adde".data ++ ['d'] := rfl
  simp only [toLower, h, List.map_append, List.map_cons, List.map_nil, hl,
    List.getLast?_concat] at hd
  revert hd
  decide


theorem synthChange_addTable (t detail : String) (up down : String) (c : Char)
    (r init : List Char) (h1 : detail.data = c :: r) (h2 : detail.data = init ++ ['L'])
    (hc : isSpace c = false) :
    synthChange ⟨"add", "table:" ++ t, detail⟩ up down =
      .ok (up ++ ("CREATE TABLE " ++ t ++ " (\n" ++ detail ++ "\n);\n"),
        down ++ ("DROP TABLE " ++ t ++ ";\n")) := by
  have htrim : trimSpace detail = detail := trimSpace_eq_self detail c r init 'L' h1 h2 hc rfl
  have hne : ¬ detail = "" := by
    intro h
    rw [h] at h1
    cases h1
  have hlow : ¬ toLower detail = "table added" := toLower_ne_tableAdded detail init h2
  simp only [synthChange, if_true, hasPrefix_append, trimPrefix_append, htrim, hne, hlow,
    or_self, if_false]

/-- C7 (as stated, refuted): a column with the empty name passes the restriction to
names without white space; its definition starts with a blank, which
`GenerateMigration` trims away, so the up-script does not contain the detail as
`Compare` returned it. -/
theorem add_table_counterexample :
    Compare (fun _ => "") [] exUnnamed = .ok [⟨"add", "table:users", " INT NOT NULL"⟩] ∧
    (GenerateMigration exGenEnv [⟨"add", "table:users", " INT NOT NULL"⟩] "migrations").result =
      .ok ⟨"20240101120000", "-- Up migration\nCREATE TABLE users (\nINT NOT NULL\n);\n",
        "-- Down migration\nDROP TABLE users;\n", "0000"⟩ ∧
    "-- Up migration\nCREATE TABLE users (\nINT NOT NULL\n);\n" ≠
      "-- Up migration\nCREATE TABLE users (\n" ++ " INT NOT NULL" ++ "\n);\n" := by
  decide

/-- C7 (amended): for the empty previous snapshot and a current snapshot with the one
well-formed table `t` that has at least one column and whose column names are not
empty and without white space, `Compare` returns exactly the change `add table:<t>` whose detail is the
column definitions joined by a comma and a line break, and `GenerateMigration` on it
gives the up-script `CREATE TABLE <t> (<detail>);` and the down-script
`DROP TABLE <t>;` under their headers. -/
theorem add_table_scripts (bad : Value → String) (env : GenEnv) (dir t : String) (tv : Value)
    (cols : GoMap) (hw : wfTable tv = true) (hc : tableColumns tv = some cols)
    (hne : cols ≠ []) (hnames : cols.all (fun e => plainName e.1) = true)
    (hwrite : ∀ path content, env.writeFile path content = none) :
    Compare bad [] [(t, tv)] = .ok [⟨"add", "table:" ++ t, tableDetail tv⟩] ∧
    tableDetail tv = stringsJoin (cols.map columnDef) ",\n" ∧
    ∃ m, (GenerateMigration env [⟨"add", "table:" ++ t, tableDetail tv⟩] dir).result = .ok m ∧
      m.UpScript = "-- Up migration\n" ++
        ("CREATE TABLE " ++ t ++ " (\n" ++ tableDetail tv ++ "\n);\n") ∧
      m.DownScript = "-- Down migration\n" ++ ("DROP TABLE " ++ t ++ ";\n") := by
  have hcmp : Compare bad [] [(t, tv)] = .ok [⟨"add", "table:" ++ t, tableDetail tv⟩] := by
    have h := compareCurr_disjoint bad [] [(t, tv)] [] (by simp [hw]) (by simp)
    simp only [Compare, h, comparePrev, bind, Except.bind, pure, Except.pure, List.nil_append,
      List.map_cons, List.map_nil]
  have hdet : tableDetail tv = stringsJoin (cols.map columnDef) ",\n" := by
    simp only [tableDetail, hc, Option.getD_some]
  refine ⟨hcmp, hdet, ?_⟩
  cases cols with
  | nil => exact absurd rfl hne
  | cons e rest =>
    simp only [List.all_cons, Bool.and_eq_true, plainName, decide_eq_true_eq] at hnames
    obtain ⟨⟨hn1, hn2⟩, _⟩ := hnames
    cases hd : e.1.data with
    | nil => exact absurd hd hn1
    | cons c r =>
      have hcs : isSpace c = false := by
        have := List.all_eq_true.mp hn2 c (by rw [hd]; exact List.mem_cons_self _ _)
        simpa using this
      obtain ⟨r1, hr1⟩ := columnDef_first e c r hd
      obtain ⟨r2, hr2⟩ := stringsJoin_cons_data (columnDef e) (rest.map columnDef) ",\n"
      have h1 : (tableDetail tv).data = c :: (r1 ++ r2) := by
        rw [hdet, List.map_cons, hr2, hr1, List.cons_append]
      obtain ⟨init, h2⟩ := stringsJoin_last ((e :: rest).map columnDef) ",\n" 'L' (by simp)
        (fun d hd => by
          obtain ⟨x, _, rfl⟩ := List.mem_map.mp hd
          exact columnDef_last x)
      rw [← hdet] at h2
      have hs := synthChange_addTable t (tableDetail tv) "-- Up migration\n"
        "-- Down migration\n" c (r1 ++ r2) init h1 h2 hcs
      refine ⟨⟨env.timestamp,
        "-- Up migration\n" ++ ("CREATE TABLE " ++ t ++ " (\n" ++ tableDetail tv ++ "\n);\n"),
        "-- Down migration\n" ++ ("DROP TABLE " ++ t ++ ";\n"),
        env.sha256Hex (("-- Up migration\n" ++
          ("CREATE TABLE " ++ t ++ " (\n" ++ tableDetail tv ++ "\n);\n")) ++ "\n" ++
          ("-- Down migration\n" ++ ("DROP TABLE " ++ t ++ ";\n")))⟩, ?_, rfl, rfl⟩
      simp only [GenerateMigration, synthesize, hs, hwrite]

theorem add_table_scripts_witness :
    Compare (fun _ => "") [] exUsers = .ok [⟨"add", "table:users", "id INT NOT NULL"⟩] ∧
    ∃ m, (GenerateMigration exGenEnv [⟨"add", "table:users", "id INT NOT NULL"⟩]
        "migrations").result = .ok m ∧
      m.UpScript = "-- Up migration\nCREATE TABLE users (\nid INT NOT NULL\n);\n" ∧
      m.DownScript = "-- Down migration\nDROP TABLE users;\n" :=
  have h := add_table_scripts (fun _ => "") exGenEnv "migrations" "users"
    (.obj [("columns", .obj [("id", .obj [("type", .str "INT"), ("null", .bool false)])])])
    [("id", .obj [("type", .str "INT"), ("null", .bool false)])]
    (by decide) rfl (List.cons_ne_nil _ _) (by decide) (fun _ _ => rfl)
  ⟨h.1, h.2.2⟩


/-! ## The apply loop -/

theorem applyFile_skip {σ : Type} (A : DBAdapter σ) (sys : Sys) (dir file : String)
    (w : World σ) (h : inLedger A w.db (fileVersion file) = true) :
    applyFile A sys dir file w =
      (⟨w.db, w.trace ++ [.check (fileVersion file),
        .log ("Migration " ++ fileVersion file ++ " already applied, skipping")]⟩, none) := by
  unfold inLedger at h
  cases hc : A.countVersion w.db (fileVersion file) with
  | error e => simp [hc] at h
  | ok n =>
    simp only [hc] at h
    simp only [applyFile, DBManager.IsMigrationApplied, hc, h, World.logLine,
      List.append_assoc, List.singleton_append]

theorem ApplyMigration_success {σ : Type} (A : DBAdapter σ) (w w1 : World σ) (mig : Migration)
    (h : ApplyMigration A w mig = (w1, none)) :
    ∃ up, (A.ApplyMigration w.db up).2 = none ∧
      (A.ApplyMigration (A.ApplyMigration w.db up).1
        (registerScript mig.Version mig.Checksum)).2 = none ∧
      w1 = ⟨(A.ApplyMigration (A.ApplyMigration w.db up).1
          (registerScript mig.Version mig.Checksum)).1,
        w.trace ++ [.exec up, .exec (registerScript mig.Version mig.Checksum)]⟩ := by
  simp only [ApplyMigration, DBManager.ApplyMigration] at h
  generalize upSection _ _ _ = up at h
  refine ⟨up, ?_⟩
  cases h1 : (A.ApplyMigration w.db up).2 with
  | some e => simp [h1] at h
  | none =>
    simp only [h1] at h
    cases h2 : (A.ApplyMigration (A.ApplyMigration w.db up).1
        (registerScript mig.Version mig.Checksum)).2 with
    | some e => simp [h2] at h
    | none =>
      simp only [h2, Prod.mk.injEq, and_true] at h
      refine ⟨rfl, rfl, ?_⟩
      rw [← h]
      simp

theorem applyFile_success {σ : Type} (A : DBAdapter σ) (sys : Sys) (dir file : String)
    (w w1 : World σ) (h : applyFile A sys dir file w = (w1, none)) :
    (inLedger A w.db (fileVersion file) = true ∧
      w1 = ⟨w.db, w.trace ++ [.check (fileVersion file),
        .log ("Migration " ++ fileVersion file ++ " already applied, skipping")]⟩) ∨
    (∃ up checksum,
      (A.ApplyMigration (A.ApplyMigration w.db up).1
        (registerScript (fileVersion file) checksum)).2 = none ∧
      w1 = ⟨(A.ApplyMigration (A.ApplyMigration w.db up).1
          (registerScript (fileVersion file) checksum)).1,
        w.trace ++ [.check (fileVersion file), .exec up,
          .exec (registerScript (fileVersion file) checksum),
          .log ("Migration " ++ fileVersion file ++ " applied successfully")]⟩) := by
  unfold applyFile DBManager.IsMigrationApplied at h
  cases hc : A.countVersion w.db (fileVersion file) with
  | error e => simp [hc] at h
  | ok n =>
    simp only [hc] at h
    by_cases hn : n > 0
    · left
      simp only [hn, decide_True, Prod.mk.injEq, and_true] at h
      refine ⟨by simp [inLedger, hc, hn], ?_⟩
      rw [← h]
      simp [World.logLine]
    · right
      simp only [hn, decide_False] at h
      cases hr : sys.readFile (sys.pathJoin dir file) with
      | error e => simp [hr] at h
      | ok script =>
        simp only [hr] at h
        generalize hm : ApplyMigration A _ _ = r at h
        obtain ⟨w2, err⟩ := r
        cases err with
        | some e => simp at h
        | none =>
          simp only [Prod.mk.injEq, and_true] at h
          obtain ⟨up, _, h2, hw2⟩ := ApplyMigration_success A _ w2 _ hm
          refine ⟨up, sys.sha256Hex script, h2, ?_⟩
          rw [← h, hw2]
          simp [World.logLine]


theorem applyFiles_cons_success {σ : Type} (A : DBAdapter σ) (sys : Sys) (dir file : String)
    (rest : List String) (w w1 : World σ)
    (h : applyFiles A sys dir (file :: rest) w = (w1, none)) :
    ∃ w', applyFile A sys dir file w = (w', none) ∧ applyFiles A sys dir rest w' = (w1, none) := by
  simp only [applyFiles] at h
  generalize hf : applyFile A sys dir file w = r at h
  obtain ⟨w', err⟩ := r
  cases err with
  | some e => simp at h
  | none => exact ⟨w', rfl, h⟩

theorem applyFiles_ledger {σ : Type} (A : DBAdapter σ) (sys : Sys) (dir : String)
    (hIns : ∀ db v c, (A.ApplyMigration db (registerScript v c)).2 = none →
      inLedger A (A.ApplyMigration db (registerScript v c)).1 v = true)
    (files : List String) (w w1 : World σ)
    (h : applyFiles A sys dir files w = (w1, none))
    (hKeep : ∀ db s v, s ∈ executed w1.trace → inLedger A db v = true →
      inLedger A (A.ApplyMigration db s).1 v = true) :
    (∀ v, inLedger A w.db v = true → inLedger A w1.db v = true) ∧
    (∀ f ∈ files, inLedger A w1.db (fileVersion f) = true) ∧
    ∃ t, w1.trace = w.trace ++ t := by
  induction files generalizing w with
  | nil =>
    simp only [applyFiles, Prod.mk.injEq, and_true] at h
    subst h
    exact ⟨fun _ hv => hv, fun f hf => absurd hf (List.not_mem_nil f),
      ⟨[], (List.append_nil _).symm⟩⟩
  | cons file rest ih =>
    obtain ⟨w', hfile, hrest⟩ := applyFiles_cons_success A sys dir file rest w w1 h
    obtain ⟨hk, hall, t, ht⟩ := ih w' hrest
    rcases applyFile_success A sys dir file w w' hfile with ⟨hin, hw'⟩ | ⟨up, c, hreg, hw'⟩
    · have hdb : w'.db = w.db := by rw [hw']
      have htr : w'.trace = w.trace ++ [.check (fileVersion file),
          .log ("Migration " ++ fileVersion file ++ " already applied, skipping")] := by rw [hw']
      rw [hdb] at hk
      refine ⟨hk, ?_, _, by rw [ht, htr, List.append_assoc]⟩
      intro f hf
      rcases List.mem_cons.mp hf with rfl | hf'
      · exact hk _ hin
      · exact hall f hf'
    · have hdb : w'.db = (A.ApplyMigration (A.ApplyMigration w.db up).1
          (registerScript (fileVersion file) c)).1 := by rw [hw']
      have htr : w'.trace = w.trace ++ [.check (fileVersion file), .exec up,
          .exec (registerScript (fileVersion file) c),
          .log ("Migration " ++ fileVersion file ++ " applied successfully")] := by rw [hw']
      have hex : executed w1.trace = executed w.trace ++
          [up, registerScript (fileVersion file) c] ++ executed t := by
        rw [ht, htr]
        simp [executed, List.filterMap_append, List.filterMap_cons]
      have hup : up ∈ executed w1.trace := by rw [hex]; simp
      have hrg : registerScript (fileVersion file) c ∈ executed w1.trace := by rw [hex]; simp
      have hk' : ∀ v, inLedger A w.db v = true → inLedger A w'.db v = true := by
        intro v hv
        rw [hdb]
        exact hKeep _ _ v hrg (hKeep _ _ v hup hv)
      refine ⟨fun v hv => hk v (hk' v hv), ?_, _, by rw [ht, htr, List.append_assoc]⟩
      intro f hf
      rcases List.mem_cons.mp hf with rfl | hf'
      · apply hk
        rw [hdb]
        exact hIns _ _ _ hreg
      · exact hall f hf'

theorem applyFiles_skip_all {σ : Type} (A : DBAdapter σ) (sys : Sys) (dir : String)
    (files : List String) (w : World σ)
    (h : ∀ f ∈ files, inLedger A w.db (fileVersion f) = true) :
    ∃ t, applyFiles A sys dir files w = (⟨w.db, w.trace ++ t⟩, none) ∧ executed t = [] ∧
      written t = [] := by
  induction files generalizing w with
  | nil => exact ⟨[], by simp [applyFiles], rfl, rfl⟩
  | cons file rest ih =>
    have hs := applyFile_skip A sys dir file w (h file (List.mem_cons_self _ _))
    obtain ⟨t, ht, he, hwr⟩ := ih ⟨w.db, w.trace ++ [.check (fileVersion file),
        .log ("Migration " ++ fileVersion file ++ " already applied, skipping")]⟩
      (fun f hf => h f (List.mem_cons_of_mem _ hf))
    refine ⟨[.check (fileVersion file),
        .log ("Migration " ++ fileVersion file ++ " already applied, skipping")] ++ t, ?_, ?_, ?_⟩
    · simp only [applyFiles, hs, ht, List.append_assoc]
    · simpa [executed, List.filterMap_append, List.filterMap_cons] using he
    · simpa [written, List.filterMap_append, List.filterMap_cons] using hwr



/-! ## The ledger of the example database -/

theorem exAdapter_insert (db : List String) (v c : String)
    (_h : (exAdapter.ApplyMigration db (registerScript v c)).2 = none) :
    inLedger exAdapter (exAdapter.ApplyMigration db (registerScript v c)).1 v = true := by
  have e : registerScript v c = exInsertHead v ++
      ("Migration " ++ v ++ " applied" ++ "', '" ++ c ++ "')") := by
    simp only [registerScript, exInsertHead, exInsertOpen, String.append_assoc]
  have hp : hasPrefix (registerScript v c) (exInsertHead v) = true := by
    rw [e]
    exact hasPrefix_append _ _
  simp [inLedger, exAdapter, List.filter_append, hp]

theorem exAdapter_keep (db : List String) (s v : String)
    (h : inLedger exAdapter db v = true) :
    inLedger exAdapter (exAdapter.ApplyMigration db s).1 v = true := by
  simp only [inLedger, exAdapter, gt_iff_lt, Nat.cast_pos, decide_eq_true_eq] at h ⊢
  rw [List.filter_append, List.length_append]
  omega

/-! ## Rollback with an empty ledger -/

/-- C9 (as stated, refuted): with an empty ledger the rollback command writes a line
to the log and returns normally; it does not end with a fatal error. -/
theorem rollback_empty_counterexample :
    DBManager.GetLastAppliedMigration exAdapter ⟨[], []⟩ = .ok "" ∧
    rollbackCmd exAdapter exSys ⟨[], []⟩ =
      (⟨[], [.log "No migrations to rollback"]⟩, .done) := by
  decide

/-- C9 (amended): when the configuration loads, the database connects and the ledger
is empty, the rollback command writes `No migrations to rollback` to the log and
returns normally, without a failure; it executes no statement and writes no file,
and the database is as before. -/
theorem rollback_empty_ledger {σ : Type} (A : DBAdapter σ) (sys : Sys) (w : World σ)
    (cfg : Config) (hcfg : sys.loadConfig = .ok cfg)
    (hdb : NewDBManager sys cfg.DBMS = .ok ())
    (hlast : DBManager.GetLastAppliedMigration A w = .ok "") :
    rollbackCmd A sys w = (⟨w.db, w.trace ++ [.log "No migrations to rollback"]⟩, .done) ∧
    executed (rollbackCmd A sys w).1.trace = executed w.trace ∧
    written (rollbackCmd A sys w).1.trace = written w.trace := by
  have h : rollbackCmd A sys w =
      (⟨w.db, w.trace ++ [.log "No migrations to rollback"]⟩, .done) := by
    simp only [rollbackCmd, hcfg, hdb, hlast, if_true, World.logLine]
  refine ⟨h, ?_, ?_⟩ <;> rw [h] <;> simp [executed, written, List.filterMap_append]

theorem rollback_empty_ledger_witness :
    rollbackCmd exAdapter exSys ⟨[], []⟩ =
      (⟨[], [.log "No migrations to rollback"]⟩, .done) :=
  (rollback_empty_ledger exAdapter exSys ⟨[], []⟩
    ⟨"mysql", "user:pw@/shop", "snapshots", "migrations"⟩ rfl (by decide) (by decide)).1

/-! ## The order of the migration files -/

theorem char_trichotomy (a b : Char) : a.toNat < b.toNat ∨ a = b ∨ b.toNat < a.toNat := by
  rcases Nat.lt_trichotomy a.toNat b.toNat with h | h | h
  · exact Or.inl h
  · right; left
    rw [← Char.ofNat_toNat a, ← Char.ofNat_toNat b, h]
  · exact Or.inr (Or.inr h)

theorem lexLt_irrefl (a : List Char) : lexLt a a = false := by
  induction a with
  | nil => rfl
  | cons c cs ih => simp [lexLt, ih]

theorem lexLt_cons (a b : Char) (as bs : List Char) :
    lexLt (a :: as) (b :: bs) = true ↔ a.toNat < b.toNat ∨ (a = b ∧ lexLt as bs = true) := by
  simp [lexLt]

theorem lexLt_trans (a b c : List Char) (h1 : lexLt a b = true) (h2 : lexLt b c = true) :
    lexLt a c = true := by
  induction a generalizing b c with
  | nil =>
    cases c with
    | nil => cases b <;> simp [lexLt] at h2
    | cons z zs => rfl
  | cons x xs ih =>
    cases b with
    | nil => simp [lexLt] at h1
    | cons y ys =>
      cases c with
      | nil => simp [lexLt] at h2
      | cons z zs =>
        rw [lexLt_cons] at h1 h2 ⊢
        rcases h1 with h1 | ⟨rfl, h1⟩
        · rcases h2 with h2 | ⟨rfl, _⟩
          · exact Or.inl (Nat.lt_trans h1 h2)
          · exact Or.inl h1
        · rcases h2 with h2 | ⟨rfl, h2⟩
          · exact Or.inl h2
          · exact Or.inr ⟨rfl, ih ys zs h1 h2⟩

theorem lexLt_trichotomy (a b : List Char) : lexLt a b = true ∨ a = b ∨ lexLt b a = true := by
  induction a generalizing b with
  | nil =>
    cases b with
    | nil => exact Or.inr (Or.inl rfl)
    | cons y ys => exact Or.inl rfl
  | cons x xs ih =>
    cases b with
    | nil => exact Or.inr (Or.inr rfl)
    | cons y ys =>
      rcases char_trichotomy x y with h | rfl | h
      · exact Or.inl ((lexLt_cons _ _ _ _).mpr (Or.inl h))
      · rcases ih ys with h | rfl | h
        · exact Or.inl ((lexLt_cons _ _ _ _).mpr (Or.inr ⟨rfl, h⟩))
        · exact Or.inr (Or.inl rfl)
        · exact Or.inr (Or.inr ((lexLt_cons _ _ _ _).mpr (Or.inr ⟨rfl, h⟩)))
      · exact Or.inr (Or.inr ((lexLt_cons _ _ _ _).mpr (Or.inl h)))

theorem stringLe_total (a b : String) : stringLe a b ∨ stringLe b a := by
  unfold stringLe
  rcases lexLt_trichotomy a.data b.data with h | h | h
  · left
    cases hb : lexLt b.data a.data with
    | false => rfl
    | true => have := lexLt_trans _ _ _ h hb; rw [lexLt_irrefl] at this; cases this
  · left; rw [h, lexLt_irrefl]
  · right
    cases hb : lexLt a.data b.data with
    | false => rfl
    | true => have := lexLt_trans _ _ _ h hb; rw [lexLt_irrefl] at this; cases this

theorem stringLe_trans (a b c : String) (h1 : stringLe a b) (h2 : stringLe b c) :
    stringLe a c := by
  unfold stringLe at h1 h2 ⊢
  cases hca : lexLt c.data a.data with
  | false => rfl
  | true =>
    rcases lexLt_trichotomy a.data b.data with h | h | h
    · have := lexLt_trans _ _ _ hca h
      rw [h2] at this; cases this
    · rw [h] at hca; rw [h2] at hca; cases hca
    · rw [h1] at h; cases h

theorem sortStrings_sorted (l : List String) : (sortStrings l).Pairwise stringLe :=
  @List.sorted_insertionSort String stringLe _ ⟨stringLe_total⟩ ⟨stringLe_trans⟩ l

theorem sortStrings_perm (l : List String) : (sortStrings l).Perm l :=
  List.perm_insertionSort stringLe l

theorem before_of_sorted (l : List String) (a b : String) (hs : l.Pairwise stringLe)
    (ha : a ∈ l) (hb : b ∈ l) (hlt : lexLt a.data b.data = true) :
    ∃ l1 l2 l3, l = l1 ++ a :: (l2 ++ b :: l3) := by
  induction l with
  | nil => cases ha
  | cons x xs ih =>
    rw [List.pairwise_cons] at hs
    have hbx : b ≠ x := by
      rintro rfl
      rcases List.mem_cons.mp ha with rfl | ha'
      · rw [lexLt_irrefl] at hlt; cases hlt
      · have := hs.1 a ha'
        unfold stringLe at this
        rw [this] at hlt; cases hlt
    have hb' : b ∈ xs := (List.mem_cons.mp hb).resolve_left hbx
    rcases List.mem_cons.mp ha with rfl | ha'
    · obtain ⟨l2, l3, h⟩ := List.append_of_mem hb'
      exact ⟨[], l2, l3, by rw [h]; rfl⟩
    · obtain ⟨l1, l2, l3, h⟩ := ih hs.2 ha' hb'
      exact ⟨x :: l1, l2, l3, by rw [h]; rfl⟩

theorem lexLt_append (a b s t : List Char) (h : lexLt a b = true) (hp : ¬ a <+: b) :
    lexLt (a ++ s) (b ++ t) = true := by
  induction a generalizing b with
  | nil => exact absurd (List.nil_prefix) hp
  | cons x xs ih =>
    cases b with
    | nil => simp [lexLt] at h
    | cons y ys =>
      rw [List.cons_append, List.cons_append, lexLt_cons]
      rw [lexLt_cons] at h
      rcases h with h | ⟨rfl, h⟩
      · exact Or.inl h
      · refine Or.inr ⟨rfl, ih ys h ?_⟩
        intro hpre
        exact hp ((List.cons_prefix_cons).mpr ⟨rfl, hpre⟩)

theorem hasSuffix_append (v s : String) : hasSuffix (v ++ s) s = true := by
  simp [hasSuffix, String.data_append, List.isPrefixOf_iff_prefix]

theorem trimSuffix_append (v s : String) : trimSuffix (v ++ s) s = v := by
  simp [trimSuffix, hasSuffix_append, String.data_append]

theorem fileVersion_migration (v : String) : fileVersion (v ++ "_migration.sql") = v :=
  trimSuffix_append v "_migration.sql"

theorem hasSuffix_sql (v : String) : hasSuffix (v ++ "_migration.sql") ".sql" = true := by
  have e : v ++ "_migration.sql" = (v ++ "_migration") ++ ".sql" := by
    rw [String.append_assoc]; rfl
  rw [e]
  exact hasSuffix_append _ _

theorem ApplyMigration_trace {σ : Type} (A : DBAdapter σ) (w : World σ) (mig : Migration) :
    ∃ t, (ApplyMigration A w mig).1.trace = w.trace ++ t ∧ checked t = [] := by
  simp only [ApplyMigration, DBManager.ApplyMigration]
  generalize upSection _ _ _ = up
  cases h1 : (A.ApplyMigration w.db up).2 with
  | some e => exact ⟨[.exec up], by simp [h1], rfl⟩
  | none =>
    cases h2 : (A.ApplyMigration (A.ApplyMigration w.db up).1
        (registerScript mig.Version mig.Checksum)).2 with
    | some e =>
      exact ⟨[.exec up, .exec (registerScript mig.Version mig.Checksum)], by simp [h1, h2], rfl⟩
    | none =>
      exact ⟨[.exec up, .exec (registerScript mig.Version mig.Checksum)], by simp [h1, h2], rfl⟩

theorem applyFile_block {σ : Type} (A : DBAdapter σ) (sys : Sys) (dir file : String)
    (w : World σ) :
    ∃ block, (applyFile A sys dir file w).1.trace = w.trace ++ block ∧
      isBlockOf file block = true := by
  unfold applyFile DBManager.IsMigrationApplied
  cases hc : A.countVersion w.db (fileVersion file) with
  | error e => exact ⟨[.check (fileVersion file)], by simp [hc], by simp [isBlockOf, checked]⟩
  | ok n =>
    simp only [hc]
    by_cases hn : n > 0
    · refine ⟨[.check (fileVersion file),
        .log ("Migration " ++ fileVersion file ++ " already applied, skipping")], ?_, ?_⟩
      · simp [hn, World.logLine]
      · simp [isBlockOf, checked]
    · simp only [hn, decide_False]
      cases hr : sys.readFile (sys.pathJoin dir file) with
      | error e =>
        exact ⟨[.check (fileVersion file)], by simp [hr], by simp [isBlockOf, checked]⟩
      | ok script =>
        simp only [hr]
        obtain ⟨t, ht, hch⟩ := ApplyMigration_trace A
          ⟨w.db, w.trace ++ [.check (fileVersion file)]⟩
          ⟨fileVersion file, script, "", sys.sha256Hex script⟩
        generalize ApplyMigration A _ _ = r at ht ⊢
        obtain ⟨w2, err⟩ := r
        simp only at ht
        cases err with
        | some e =>
          refine ⟨.check (fileVersion file) :: t, ?_, ?_⟩
          · simp [ht]
          · simp [isBlockOf, hch]
        | none =>
          refine ⟨.check (fileVersion file) :: (t ++
            [.log ("Migration " ++ fileVersion file ++ " applied successfully")]), ?_, ?_⟩
          · simp [ht, World.logLine]
          · simp [isBlockOf, checked, List.filterMap_append] at hch ⊢
            exact hch

theorem applyFiles_blocks {σ : Type} (A : DBAdapter σ) (sys : Sys) (dir : String)
    (files : List String) (w : World σ) :
    ∃ processed blocks, processed <+: files ∧
      List.Forall₂ (fun f b => isBlockOf f b = true) processed blocks ∧
      (applyFiles A sys dir files w).1.trace = w.trace ++ blocks.flatten ∧
      ((applyFiles A sys dir files w).2 = none → processed = files) := by
  induction files generalizing w with
  | nil => exact ⟨[], [], List.prefix_refl _, List.Forall₂.nil, by simp [applyFiles], fun _ => rfl⟩
  | cons file rest ih =>
    obtain ⟨block, hb, hblock⟩ := applyFile_block A sys dir file w
    simp only [applyFiles]
    generalize applyFile A sys dir file w = r at hb ⊢
    obtain ⟨w1, err⟩ := r
    simp only at hb
    cases err with
    | some e =>
      refine ⟨[file], [block], ?_, List.Forall₂.cons hblock List.Forall₂.nil, ?_, ?_⟩
      · exact (List.cons_prefix_cons).mpr ⟨rfl, List.nil_prefix⟩
      · simp [hb]
      · intro h; simp at h
    | none =>
      obtain ⟨processed, blocks, hp, hf, ht, hall⟩ := ih w1
      refine ⟨file :: processed, block :: blocks, ?_, List.Forall₂.cons hblock hf, ?_, ?_⟩
      · exact (List.cons_prefix_cons).mpr ⟨rfl, hp⟩
      · simp only [ht, hb, List.flatten_cons, List.append_assoc]
      · intro h
        rw [hall h]


/-- C10 (as stated, refuted): the version `2024` is lexically smaller than the
version `20240`, and `applyMigrations` checks and applies the file of `20240` first,
because it sorts the file names and `0` sorts before `_`. -/
theorem apply_order_counterexample :
    lexLt "2024".data "20240".data = true ∧
    checked (applyMigrations exAdapter exSysShort "migrations" ⟨[], []⟩).1.trace =
      ["20240", "2024", "2025"] ∧
    executed (applyMigrations exAdapter exSysShort "migrations" ⟨[], []⟩).1.trace =
      ["SELECT 1;\n\n", registerScript "20240" "0000",
       "SELECT 1;\n\n", registerScript "2024" "0000",
       "SELECT 1;\n\n", registerScript "2025" "0000"] := by
  decide

/-- C10 (amended): for migration files named `<version>_migration.sql`, the trace of
`applyMigrations` is made of one block per processed file, each starting with the
check of its version, the processed files being a prefix (all of them when the run
succeeds) of the file names in ascending order; and in that order the file of `v1`
comes before the file of `v2` whenever `v1` is lexically smaller than `v2` and has
the same length as `v2` or is at least no prefix of `v2`. -/
theorem apply_order {σ : Type} (A : DBAdapter σ) (sys : Sys) (dir : String) (w : World σ)
    (versions : List String)
    (hdir : sys.readDir dir = .ok (versions.map (fun v => v ++ "_migration.sql"))) :
    (∃ processed blocks,
      processed <+: migrationFiles (versions.map (fun v => v ++ "_migration.sql")) ∧
      List.Forall₂ (fun f b => isBlockOf f b = true) processed blocks ∧
      (applyMigrations A sys dir w).1.trace = w.trace ++ blocks.flatten ∧
      ((applyMigrations A sys dir w).2 = none →
        processed = migrationFiles (versions.map (fun v => v ++ "_migration.sql")))) ∧
    (∀ v1 v2, v1 ∈ versions → v2 ∈ versions → lexLt v1.data v2.data = true →
      (v1.data.length = v2.data.length ∨ ¬ v1.data <+: v2.data) →
      ∃ l1 l2 l3,
        (migrationFiles (versions.map (fun v => v ++ "_migration.sql"))).map fileVersion =
          l1 ++ v1 :: (l2 ++ v2 :: l3)) := by
  constructor
  · simp only [applyMigrations, hdir]
    exact applyFiles_blocks A sys dir _ w
  · intro v1 v2 h1 h2 hlt hpre
    have hnp : ¬ v1.data <+: v2.data := by
      rcases hpre with hlen | hnp
      · intro hp
        have := List.IsPrefix.eq_of_length hp hlen
        rw [this, lexLt_irrefl] at hlt
        cases hlt
      · exact hnp
    have hfilter : (versions.map (fun v => v ++ "_migration.sql")).filter
        (fun name => hasSuffix name ".sql") = versions.map (fun v => v ++ "_migration.sql") := by
      apply List.filter_eq_self.mpr
      intro name hn
      obtain ⟨v, _, rfl⟩ := List.mem_map.mp hn
      exact hasSuffix_sql v
    have hmem : ∀ v ∈ versions, v ++ "_migration.sql" ∈
        migrationFiles (versions.map (fun v => v ++ "_migration.sql")) := by
      intro v hv
      unfold migrationFiles
      rw [hfilter]
      exact (sortStrings_perm _).mem_iff.mpr (List.mem_map.mpr ⟨v, hv, rfl⟩)
    have hfile : lexLt (v1 ++ "_migration.sql").data (v2 ++ "_migration.sql").data = true := by
      rw [String.data_append, String.data_append]
      exact lexLt_append _ _ _ _ hlt hnp
    obtain ⟨l1, l2, l3, h⟩ := before_of_sorted _ _ _ (sortStrings_sorted _)
      (hmem v1 h1) (hmem v2 h2) hfile
    refine ⟨l1.map fileVersion, l2.map fileVersion, l3.map fileVersion, ?_⟩
    unfold migrationFiles
    rw [h]
    simp only [List.map_append, List.map_cons, fileVersion_migration]

theorem apply_order_witness :
    ∃ l1 l2 l3,
      (migrationFiles ["2024_migration.sql", "20240_migration.sql",
        "2025_migration.sql"]).map fileVersion = l1 ++ "20240" :: (l2 ++ "2025" :: l3) :=
  (apply_order exAdapter exSysShort "migrations" ⟨[], []⟩ ["2024", "20240", "2025"] rfl).2
    "20240" "2025" (by decide) (by decide) (by decide) (Or.inr (by decide))

/-! ## A failure in the apply loop -/

theorem ApplyMigration_upFails {σ : Type} (A : DBAdapter σ) (w : World σ) (mig : Migration)
    (e : String) (h : (A.ApplyMigration w.db (appliedScript mig)).2 = some e) :
    ApplyMigration A w mig =
      (⟨(A.ApplyMigration w.db (appliedScript mig)).1, w.trace ++ [.exec (appliedScript mig)]⟩,
        some ("falha ao aplicar a migração up " ++ mig.Version ++ ": " ++ e)) := by
  unfold appliedScript at h
  simp only [ApplyMigration, DBManager.ApplyMigration, appliedScript, h]

theorem ApplyMigration_insertFails {σ : Type} (A : DBAdapter σ) (w : World σ) (mig : Migration)
    (e : String) (h1 : (A.ApplyMigration w.db (appliedScript mig)).2 = none)
    (h2 : (A.ApplyMigration (A.ApplyMigration w.db (appliedScript mig)).1
      (registerScript mig.Version mig.Checksum)).2 = some e) :
    ApplyMigration A w mig =
      (⟨(A.ApplyMigration (A.ApplyMigration w.db (appliedScript mig)).1
          (registerScript mig.Version mig.Checksum)).1,
        w.trace ++ [.exec (appliedScript mig), .exec (registerScript mig.Version mig.Checksum)]⟩,
        some ("falha ao registrar a migração " ++ mig.Version ++ ": " ++ e)) := by
  unfold appliedScript at h1 h2
  simp [ApplyMigration, DBManager.ApplyMigration, appliedScript, h1, h2]

theorem ApplyMigration_succeeds {σ : Type} (A : DBAdapter σ) (w : World σ) (mig : Migration)
    (h1 : (A.ApplyMigration w.db (appliedScript mig)).2 = none)
    (h2 : (A.ApplyMigration (A.ApplyMigration w.db (appliedScript mig)).1
      (registerScript mig.Version mig.Checksum)).2 = none) :
    ApplyMigration A w mig =
      (⟨(A.ApplyMigration (A.ApplyMigration w.db (appliedScript mig)).1
          (registerScript mig.Version mig.Checksum)).1,
        w.trace ++ [.exec (appliedScript mig), .exec (registerScript mig.Version mig.Checksum)]⟩,
        none) := by
  unfold appliedScript at h1 h2
  simp [ApplyMigration, DBManager.ApplyMigration, appliedScript, h1, h2]

theorem applyFile_pending {σ : Type} (A : DBAdapter σ) (sys : Sys) (dir file : String)
    (w : World σ) (n : Int) (script : String)
    (hcount : A.countVersion w.db (fileVersion file) = .ok n) (hn : ¬ n > 0)
    (hread : sys.readFile (sys.pathJoin dir file) = .ok script) :
    applyFile A sys dir file w =
      match ApplyMigration A ⟨w.db, w.trace ++ [.check (fileVersion file)]⟩
        (fileMigration sys (fileVersion file) script) with
      | (w2, some err) =>
        (w2, some ("failed to apply migration " ++ fileVersion file ++ ": " ++ err))
      | (w2, none) =>
        (w2.logLine ("Migration " ++ fileVersion file ++ " applied successfully"), none) := by
  simp only [applyFile, DBManager.IsMigrationApplied, hcount, hn, decide_False, hread,
    fileMigration]


theorem applyFiles_append {σ : Type} (A : DBAdapter σ) (sys : Sys) (dir : String)
    (pre rest : List String) (w wk : World σ) (h : applyFiles A sys dir pre w = (wk, none)) :
    applyFiles A sys dir (pre ++ rest) w = applyFiles A sys dir rest wk := by
  induction pre generalizing w with
  | nil =>
    simp only [applyFiles, Prod.mk.injEq, and_true] at h
    rw [h, List.nil_append]
  | cons file more ih =>
    obtain ⟨w1, hf, hr⟩ := applyFiles_cons_success A sys dir file more w wk h
    simp only [List.cons_append, applyFiles, hf]
    exact ih w1 hr

theorem checked_blocks (files : List String) (blocks : List (List Event))
    (h : List.Forall₂ (fun f b => isBlockOf f b = true) files blocks) :
    checked blocks.flatten = files.map fileVersion := by
  induction h with
  | nil => rfl
  | @cons f b fs bs hb _ ih =>
    cases b with
    | nil => simp [isBlockOf] at hb
    | cons e rest =>
      cases e with
      | check v =>
        simp only [isBlockOf, Bool.and_eq_true, beq_iff_eq, List.isEmpty_iff] at hb
        have hc : checked (Event.check v :: rest) = [v] := by
          have : checked (Event.check v :: rest) = v :: checked rest := rfl
          rw [this, hb.2]
        have happ : checked ((Event.check v :: rest) ++ bs.flatten) =
            checked (Event.check v :: rest) ++ checked bs.flatten := by
          simp [checked, List.filterMap_append]
        rw [List.flatten_cons, happ, hc, ih, List.map_cons, hb.1]
        rfl
      | exec s => simp [isBlockOf] at hb
      | log m => simp [isBlockOf] at hb
      | write p c => simp [isBlockOf] at hb

theorem applyFiles_checked {σ : Type} (A : DBAdapter σ) (sys : Sys) (dir : String)
    (files : List String) (w w1 : World σ) (h : applyFiles A sys dir files w = (w1, none)) :
    checked w1.trace = checked w.trace ++ files.map fileVersion := by
  obtain ⟨processed, blocks, _, hf, ht, hall⟩ := applyFiles_blocks A sys dir files w
  rw [h] at ht hall
  have hp : processed = files := hall rfl
  rw [hp] at hf
  simp only at ht
  rw [ht]
  have : checked (w.trace ++ blocks.flatten) = checked w.trace ++ checked blocks.flatten := by
    simp [checked, List.filterMap_append]
  rw [this, checked_blocks files blocks hf]

theorem executed_append (a b : List Event) : executed (a ++ b) = executed a ++ executed b := by
  simp [executed, List.filterMap_append]

theorem checked_append (a b : List Event) : checked (a ++ b) = checked a ++ checked b := by
  simp [checked, List.filterMap_append]

theorem applyFile_execs {σ : Type} (A : DBAdapter σ) (sys : Sys) (dir file : String)
    (w : World σ) :
    executed (applyFile A sys dir file w).1.trace = executed w.trace ∨
    (∃ up, executed (applyFile A sys dir file w).1.trace = executed w.trace ++ [up] ∧
      (A.ApplyMigration w.db up).2 ≠ none ∧ (applyFile A sys dir file w).2 ≠ none) ∨
    (∃ up c, executed (applyFile A sys dir file w).1.trace =
        executed w.trace ++ [up, registerScript (fileVersion file) c] ∧
      (A.ApplyMigration w.db up).2 = none) := by
  cases hc : A.countVersion w.db (fileVersion file) with
  | error e =>
    left
    simp [applyFile, DBManager.IsMigrationApplied, hc, executed_append, executed]
  | ok n =>
    by_cases hn : n > 0
    · left
      simp [applyFile, DBManager.IsMigrationApplied, hc, hn, World.logLine, executed_append,
        executed]
    · cases hr : sys.readFile (sys.pathJoin dir file) with
      | error e =>
        left
        simp [applyFile, DBManager.IsMigrationApplied, hc, hn, hr, executed_append, executed]
      | ok script =>
        rw [applyFile_pending A sys dir file w n script hc hn hr]
        cases h1 : (A.ApplyMigration w.db
            (appliedScript (fileMigration sys (fileVersion file) script))).2 with
        | some e =>
          right; left
          refine ⟨appliedScript (fileMigration sys (fileVersion file) script), ?_, ?_, ?_⟩
          · rw [ApplyMigration_upFails A (⟨w.db, w.trace ++ [Event.check (fileVersion file)]⟩ : World σ) _ e h1]
            simp [executed_append, executed]
          · rw [h1]; simp
          · rw [ApplyMigration_upFails A (⟨w.db, w.trace ++ [Event.check (fileVersion file)]⟩ : World σ) _ e h1]
            simp
        | none =>
          right; right
          refine ⟨appliedScript (fileMigration sys (fileVersion file) script),
            sys.sha256Hex script, ?_, h1⟩
          cases h2 : (A.ApplyMigration (A.ApplyMigration w.db
              (appliedScript (fileMigration sys (fileVersion file) script))).1
              (registerScript (fileVersion file) (sys.sha256Hex script))).2 with
          | some e =>
            rw [ApplyMigration_insertFails A (⟨w.db, w.trace ++ [Event.check (fileVersion file)]⟩ : World σ) _ e h1 h2]
            simp [executed_append, executed, fileMigration]
          | none =>
            rw [ApplyMigration_succeeds A (⟨w.db, w.trace ++ [Event.check (fileVersion file)]⟩ : World σ) _ h1 h2]
            simp [executed_append, executed, fileMigration, World.logLine]


theorem exFailAdapter_insert (db : List String) (v c : String)
    (h : (exFailAdapter.ApplyMigration db (registerScript v c)).2 = none) :
    inLedger exFailAdapter (exFailAdapter.ApplyMigration db (registerScript v c)).1 v = true := by
  have e : registerScript v c = exInsertHead v ++
      ("Migration " ++ v ++ " applied" ++ "', '" ++ c ++ "')") := by
    simp only [registerScript, exInsertHead, exInsertOpen, String.append_assoc]
  have hp : hasPrefix (registerScript v c) (exInsertHead v) = true := by
    rw [e]
    exact hasPrefix_append _ _
  by_cases hl : db.length < 2
  · simp [inLedger, exFailAdapter, exAdapter, hl, List.filter_append, hp]
  · simp [exFailAdapter, hl] at h

theorem exFailAdapter_keep (db : List String) (s v : String)
    (h : inLedger exFailAdapter db v = true) :
    inLedger exFailAdapter (exFailAdapter.ApplyMigration db s).1 v = true := by
  by_cases hl : db.length < 2
  · simp only [inLedger, exFailAdapter, exAdapter, gt_iff_lt, Nat.cast_pos, decide_eq_true_eq,
      hl, if_true] at h ⊢
    rw [List.filter_append, List.length_append]
    omega
  · simpa [exFailAdapter, hl] using h

/-! ## The ledger along the apply loop -/

theorem applyFile_steps {σ : Type} (A : DBAdapter σ) (sys : Sys) (dir file : String)
    (w : World σ) :
    ((applyFile A sys dir file w).1.db = w.db ∧
      executed (applyFile A sys dir file w).1.trace = executed w.trace) ∨
    (∃ up, (applyFile A sys dir file w).1.db = (A.ApplyMigration w.db up).1 ∧
      executed (applyFile A sys dir file w).1.trace = executed w.trace ++ [up]) ∨
    (∃ up c, (applyFile A sys dir file w).1.db =
        (A.ApplyMigration (A.ApplyMigration w.db up).1
          (registerScript (fileVersion file) c)).1 ∧
      executed (applyFile A sys dir file w).1.trace =
        executed w.trace ++ [up, registerScript (fileVersion file) c]) := by
  cases hc : A.countVersion w.db (fileVersion file) with
  | error e =>
    left
    simp [applyFile, DBManager.IsMigrationApplied, hc, executed_append, executed]
  | ok n =>
    by_cases hn : n > 0
    · left
      simp [applyFile, DBManager.IsMigrationApplied, hc, hn, World.logLine, executed_append,
        executed]
    · cases hr : sys.readFile (sys.pathJoin dir file) with
      | error e =>
        left
        simp [applyFile, DBManager.IsMigrationApplied, hc, hn, hr, executed_append, executed]
      | ok script =>
        rw [applyFile_pending A sys dir file w n script hc hn hr]
        cases h1 : (A.ApplyMigration w.db
            (appliedScript (fileMigration sys (fileVersion file) script))).2 with
        | some e =>
          right; left
          refine ⟨appliedScript (fileMigration sys (fileVersion file) script), ?_⟩
          rw [ApplyMigration_upFails A (⟨w.db, w.trace ++ [Event.check (fileVersion file)]⟩ : World σ) _ e h1]
          simp [executed_append, executed]
        | none =>
          right; right
          refine ⟨appliedScript (fileMigration sys (fileVersion file) script),
            sys.sha256Hex script, ?_⟩
          cases h2 : (A.ApplyMigration (A.ApplyMigration w.db
              (appliedScript (fileMigration sys (fileVersion file) script))).1
              (registerScript (fileVersion file) (sys.sha256Hex script))).2 with
          | some e =>
            rw [ApplyMigration_insertFails A (⟨w.db, w.trace ++ [Event.check (fileVersion file)]⟩ : World σ) _ e h1 h2]
            simp [executed_append, executed, fileMigration]
          | none =>
            rw [ApplyMigration_succeeds A (⟨w.db, w.trace ++ [Event.check (fileVersion file)]⟩ : World σ) _ h1 h2]
            simp [executed_append, executed, fileMigration, World.logLine]

theorem applyFile_keeps {σ : Type} (A : DBAdapter σ) (sys : Sys) (dir file : String)
    (w : World σ) (ex : List String)
    (hex : executed (applyFile A sys dir file w).1.trace = executed w.trace ++ ex)
    (hKeep : ∀ db s v, s ∈ ex → inLedger A db v = true →
      inLedger A (A.ApplyMigration db s).1 v = true)
    (v : String) (hv : inLedger A w.db v = true) :
    inLedger A (applyFile A sys dir file w).1.db v = true := by
  rcases applyFile_steps A sys dir file w with ⟨hdb, _⟩ | ⟨up, hdb, he⟩ | ⟨up, c, hdb, he⟩
  · rw [hdb]; exact hv
  · rw [hex] at he
    have hx : ex = [up] := List.append_cancel_left he
    rw [hdb]
    exact hKeep _ _ _ (by rw [hx]; simp) hv
  · rw [hex] at he
    have hx : ex = [up, registerScript (fileVersion file) c] := List.append_cancel_left he
    rw [hdb]
    exact hKeep _ _ _ (by rw [hx]; simp) (hKeep _ _ _ (by rw [hx]; simp) hv)

theorem applyFile_executed {σ : Type} (A : DBAdapter σ) (sys : Sys) (dir file : String)
    (w : World σ) :
    ∃ ex, executed (applyFile A sys dir file w).1.trace = executed w.trace ++ ex := by
  obtain ⟨block, hb, _⟩ := applyFile_block A sys dir file w
  exact ⟨executed block, by rw [hb, executed_append]⟩

theorem applyFiles_executed {σ : Type} (A : DBAdapter σ) (sys : Sys) (dir : String)
    (files : List String) (w : World σ) :
    ∃ ex, executed (applyFiles A sys dir files w).1.trace = executed w.trace ++ ex := by
  obtain ⟨_, blocks, _, _, ht, _⟩ := applyFiles_blocks A sys dir files w
  exact ⟨executed blocks.flatten, by rw [ht, executed_append]⟩

theorem applyFiles_keeps {σ : Type} (A : DBAdapter σ) (sys : Sys) (dir : String)
    (files : List String) (w : World σ) (ex : List String)
    (hex : executed (applyFiles A sys dir files w).1.trace = executed w.trace ++ ex)
    (hKeep : ∀ db s v, s ∈ ex → inLedger A db v = true →
      inLedger A (A.ApplyMigration db s).1 v = true)
    (v : String) (hv : inLedger A w.db v = true) :
    inLedger A (applyFiles A sys dir files w).1.db v = true := by
  induction files generalizing w ex with
  | nil => simpa [applyFiles] using hv
  | cons file rest ih =>
    obtain ⟨a, ha⟩ := applyFile_executed A sys dir file w
    have hk := fun hK => applyFile_keeps A sys dir file w a ha hK v hv
    simp only [applyFiles] at hex ⊢
    generalize applyFile A sys dir file w = r at ha hk hex ⊢
    obtain ⟨w1, err⟩ := r
    cases err with
    | some e =>
      simp only at ha hk hex ⊢
      rw [ha] at hex
      have hx : a = ex := List.append_cancel_left hex
      exact hk (by rw [hx]; exact hKeep)
    | none =>
      simp only at ha hk hex ⊢
      obtain ⟨b, hb⟩ := applyFiles_executed A sys dir rest w1
      have hx : ex = a ++ b := by
        rw [hb, ha, List.append_assoc] at hex
        exact (List.append_cancel_left hex).symm
      apply ih w1 b hb
      · intro db s v' hs
        exact hKeep db s v' (by rw [hx]; exact List.mem_append_right _ hs)
      · exact hk (fun db s v' hs => hKeep db s v' (by rw [hx]; exact List.mem_append_left _ hs))

theorem executedSince_eq {σ : Type} (w w1 : World σ) (ex : List String)
    (h : executed w1.trace = executed w.trace ++ ex) : executedSince w w1 = ex := by
  simp [executedSince, h]

theorem applyFiles_split {σ : Type} (A : DBAdapter σ) (sys : Sys) (dir : String)
    (a b : List String) (w w1 : World σ) (h : applyFiles A sys dir (a ++ b) w = (w1, none)) :
    ∃ wk, applyFiles A sys dir a w = (wk, none) ∧ applyFiles A sys dir b wk = (w1, none) := by
  induction a generalizing w with
  | nil => exact ⟨w, by simp [applyFiles], by simpa using h⟩
  | cons file more ih =>
    rw [List.cons_append] at h
    obtain ⟨w', hf, hr⟩ := applyFiles_cons_success A sys dir file (more ++ b) w w1 h
    obtain ⟨wk, h1, h2⟩ := ih w' hr
    exact ⟨wk, by simp only [applyFiles, hf, h1], h2⟩

theorem applyFiles_registered {σ : Type} (A : DBAdapter σ) (sys : Sys) (dir : String)
    (files : List String) (w w1 : World σ) (ex : List String)
    (h : applyFiles A sys dir files w = (w1, none))
    (hreg : insertsRegister A sys dir files w = true)
    (hex : executed w1.trace = executed w.trace ++ ex)
    (hKeep : ∀ db s v, s ∈ ex → inLedger A db v = true →
      inLedger A (A.ApplyMigration db s).1 v = true) :
    ∀ f ∈ files, inLedger A w1.db (fileVersion f) = true := by
  induction files generalizing w ex with
  | nil => intro f hf; cases hf
  | cons file rest ih =>
    obtain ⟨w', hfile, hrest⟩ := applyFiles_cons_success A sys dir file rest w w1 h
    simp only [insertsRegister, hfile, Bool.and_eq_true] at hreg
    obtain ⟨a, ha⟩ := applyFile_executed A sys dir file w
    rw [hfile] at ha
    simp only at ha
    obtain ⟨b, hb⟩ := applyFiles_executed A sys dir rest w'
    rw [hrest] at hb
    simp only at hb
    have hx : ex = a ++ b := by
      rw [hb, ha, List.append_assoc] at hex
      exact (List.append_cancel_left hex).symm
    have hKb : ∀ db s v, s ∈ b → inLedger A db v = true →
        inLedger A (A.ApplyMigration db s).1 v = true :=
      fun db s v' hs => hKeep db s v' (by rw [hx]; exact List.mem_append_right _ hs)
    intro f hf
    rcases List.mem_cons.mp hf with rfl | hf'
    · have := applyFiles_keeps A sys dir rest w' b (by rw [hrest]; exact hb) hKb _ hreg.1
      rw [hrest] at this
      exact this
    · exact ih w' b hrest hreg.2 hb hKb f hf'

theorem applyFiles_skips {σ : Type} (A : DBAdapter σ) (sys : Sys) (dir : String)
    (files : List String) (w : World σ)
    (h : ∀ f ∈ files, inLedger A w.db (fileVersion f) = true) :
    applyFiles A sys dir files w = (⟨w.db, w.trace ++ files.flatMap skipEvents⟩, none) := by
  induction files generalizing w with
  | nil => simp [applyFiles]
  | cons file rest ih =>
    have hs := applyFile_skip A sys dir file w (h file (List.mem_cons_self _ _))
    have hr := ih ⟨w.db, w.trace ++ [.check (fileVersion file),
        .log ("Migration " ++ fileVersion file ++ " already applied, skipping")]⟩
      (fun f hf => h f (List.mem_cons_of_mem _ hf))
    simp only [applyFiles, hs, hr, List.flatMap_cons, skipEvents, List.append_assoc]

theorem executed_skipEvents (files : List String) : executed (files.flatMap skipEvents) = [] := by
  induction files with
  | nil => rfl
  | cons f rest ih =>
    rw [List.flatMap_cons, executed_append, ih]
    rfl

theorem written_skipEvents (files : List String) : written (files.flatMap skipEvents) = [] := by
  induction files with
  | nil => rfl
  | cons f rest ih =>
    have : written (skipEvents f ++ rest.flatMap skipEvents) =
        written (skipEvents f) ++ written (rest.flatMap skipEvents) := by
      simp [written, List.filterMap_append]
    rw [List.flatMap_cons, this, ih]
    rfl

/-- C11 (as stated, refuted): in this run the second file deletes the rows of the
ledger and the third file fails. The run returns an error and executes nothing of the
fourth file, but the ledger entry of the first file, inserted during this run and in
the ledger when the iteration of the first file ends, is not in the ledger when the
run returns. -/
theorem apply_failure_counterexample :
    migrationFiles ["20240104120000_migration.sql", "20240102120000_migration.sql",
      "20240103120000_migration.sql", "20240101120000_migration.sql"] =
      ["20240101120000_migration.sql", "20240102120000_migration.sql",
        "20240103120000_migration.sql", "20240104120000_migration.sql"] ∧
    (applyMigrations exWipeAdapter exWipeSysFour "migrations" ⟨[], []⟩).2 =
      some ("failed to apply migration 20240103120000: " ++
        "falha ao aplicar a migração up 20240103120000: table missing does not exist") ∧
    executed (applyMigrations exWipeAdapter exWipeSysFour "migrations" ⟨[], []⟩).1.trace =
      ["CREATE TABLE users (\nid INT NOT NULL\n);\n\n",
       registerScript "20240101120000" "0000",
       "DELETE FROM schema_migrations;\n\n",
       registerScript "20240102120000" "0000",
       "SELECT * FROM missing;\n\n"] ∧
    inLedger exWipeAdapter (applyFiles exWipeAdapter exWipeSysFour "migrations"
      ["20240101120000_migration.sql"] ⟨[], []⟩).1.db "20240101120000" = true ∧
    inLedger exWipeAdapter
      (applyMigrations exWipeAdapter exWipeSysFour "migrations" ⟨[], []⟩).1.db
      "20240101120000" = false := by
  decide

/-- C11 (amended): when in a run of `applyMigrations` the files `pre` before `fk`
succeed and the up-script of `fk` or its ledger insert fails, the run returns an
error; after the events of `pre` the trace has only the check of `fk`, its up-script
and, when that succeeded, its ledger insert, so the files after `fk` are not even
checked and no statement of theirs is executed; in every iteration of the loop the
ledger insert of the file is executed only directly after the up-script of the file
has been executed with success. When no statement executed during the run, the
failing one included, removes a version from the ledger, every version that is in
the ledger after some of the files of `pre` is in the ledger when the run returns. -/
theorem apply_failure {σ : Type} (A : DBAdapter σ) (sys : Sys) (dir : String)
    (names pre post : List String) (fk : String) (w wk : World σ) (n : Int) (script : String)
    (hdir : sys.readDir dir = .ok names) (hfiles : migrationFiles names = pre ++ fk :: post)
    (hpre : applyFiles A sys dir pre w = (wk, none))
    (hcount : A.countVersion wk.db (fileVersion fk) = .ok n) (hn : ¬ n > 0)
    (hread : sys.readFile (sys.pathJoin dir fk) = .ok script)
    (hfail : (A.ApplyMigration wk.db
        (appliedScript (fileMigration sys (fileVersion fk) script))).2 ≠ none ∨
      (A.ApplyMigration (A.ApplyMigration wk.db
        (appliedScript (fileMigration sys (fileVersion fk) script))).1
        (registerScript (fileVersion fk) (sys.sha256Hex script))).2 ≠ none) :
    (∃ err, (applyMigrations A sys dir w).2 = some err) ∧
    checked (applyMigrations A sys dir w).1.trace =
      checked w.trace ++ (pre ++ [fk]).map fileVersion ∧
    (executed (applyMigrations A sys dir w).1.trace = executed wk.trace ++
        [appliedScript (fileMigration sys (fileVersion fk) script)] ∨
      executed (applyMigrations A sys dir w).1.trace = executed wk.trace ++
        [appliedScript (fileMigration sys (fileVersion fk) script),
          registerScript (fileVersion fk) (sys.sha256Hex script)]) ∧
    ((applyMigrations A sys dir w).1.trace = wk.trace ++ [Event.check (fileVersion fk),
        Event.exec (appliedScript (fileMigration sys (fileVersion fk) script))] ∨
      (applyMigrations A sys dir w).1.trace = wk.trace ++ [Event.check (fileVersion fk),
        Event.exec (appliedScript (fileMigration sys (fileVersion fk) script)),
        Event.exec (registerScript (fileVersion fk) (sys.sha256Hex script))]) ∧
    (∀ (wi : World σ) (f : String),
      executed (applyFile A sys dir f wi).1.trace = executed wi.trace ∨
      (∃ up, executed (applyFile A sys dir f wi).1.trace = executed wi.trace ++ [up] ∧
        (A.ApplyMigration wi.db up).2 ≠ none ∧ (applyFile A sys dir f wi).2 ≠ none) ∨
      (∃ up c, executed (applyFile A sys dir f wi).1.trace =
          executed wi.trace ++ [up, registerScript (fileVersion f) c] ∧
        (A.ApplyMigration wi.db up).2 = none)) ∧
    ((∀ db s v, s ∈ executedSince w (applyMigrations A sys dir w).1 →
        inLedger A db v = true → inLedger A (A.ApplyMigration db s).1 v = true) →
      ∀ pre1 pre2 v, pre = pre1 ++ pre2 →
        inLedger A (applyFiles A sys dir pre1 w).1.db v = true →
        inLedger A (applyMigrations A sys dir w).1.db v = true) := by
  have hrun : applyMigrations A sys dir w = applyFiles A sys dir (fk :: post) wk := by
    simp only [applyMigrations, hdir, hfiles]
    exact applyFiles_append A sys dir pre (fk :: post) w wk hpre
  have hchk := applyFiles_checked A sys dir pre w wk hpre
  have hfile := applyFile_pending A sys dir fk wk n script hcount hn hread
  have key : ∃ W err, applyFiles A sys dir (fk :: post) wk = (W, some err) ∧
      (W.trace = wk.trace ++ [Event.check (fileVersion fk),
          Event.exec (appliedScript (fileMigration sys (fileVersion fk) script))] ∨
       W.trace = wk.trace ++ [Event.check (fileVersion fk),
          Event.exec (appliedScript (fileMigration sys (fileVersion fk) script)),
          Event.exec (registerScript (fileVersion fk) (sys.sha256Hex script))]) := by
    cases h1 : (A.ApplyMigration wk.db
        (appliedScript (fileMigration sys (fileVersion fk) script))).2 with
    | some e =>
      have hA := ApplyMigration_upFails A
        (⟨wk.db, wk.trace ++ [Event.check (fileVersion fk)]⟩ : World σ)
        (fileMigration sys (fileVersion fk) script) e h1
      have hres : applyFiles A sys dir (fk :: post) wk =
          ((⟨(A.ApplyMigration wk.db
              (appliedScript (fileMigration sys (fileVersion fk) script))).1,
            wk.trace ++ [Event.check (fileVersion fk)] ++
              [Event.exec (appliedScript (fileMigration sys (fileVersion fk) script))]⟩ :
              World σ),
            some ("failed to apply migration " ++ fileVersion fk ++ ": " ++
              ("falha ao aplicar a migração up " ++ fileVersion fk ++ ": " ++ e))) := by
        simp only [applyFiles, hfile, hA]
        rfl
      exact ⟨_, _, hres, Or.inl (by simp)⟩
    | none =>
      have h2 : (A.ApplyMigration (A.ApplyMigration wk.db
          (appliedScript (fileMigration sys (fileVersion fk) script))).1
          (registerScript (fileVersion fk) (sys.sha256Hex script))).2 ≠ none := by
        rcases hfail with h | h
        · exact absurd h1 h
        · exact h
      obtain ⟨e, he⟩ := Option.ne_none_iff_exists'.mp h2
      have hA := ApplyMigration_insertFails A
        (⟨wk.db, wk.trace ++ [Event.check (fileVersion fk)]⟩ : World σ)
        (fileMigration sys (fileVersion fk) script) e h1 he
      have hres : applyFiles A sys dir (fk :: post) wk =
          ((⟨(A.ApplyMigration (A.ApplyMigration wk.db
              (appliedScript (fileMigration sys (fileVersion fk) script))).1
              (registerScript (fileVersion fk) (sys.sha256Hex script))).1,
            wk.trace ++ [Event.check (fileVersion fk)] ++
              [Event.exec (appliedScript (fileMigration sys (fileVersion fk) script)),
                Event.exec (registerScript (fileVersion fk) (sys.sha256Hex script))]⟩ :
              World σ),
            some ("failed to apply migration " ++ fileVersion fk ++ ": " ++
              ("falha ao registrar a migração " ++ fileVersion fk ++ ": " ++ e))) := by
        simp only [applyFiles, hfile, hA]
        rfl
      exact ⟨_, _, hres, Or.inr (by simp)⟩
  have hkeep : (∀ db s v, s ∈ executedSince w (applyMigrations A sys dir w).1 →
        inLedger A db v = true → inLedger A (A.ApplyMigration db s).1 v = true) →
      ∀ pre1 pre2 v, pre = pre1 ++ pre2 →
        inLedger A (applyFiles A sys dir pre1 w).1.db v = true →
        inLedger A (applyMigrations A sys dir w).1.db v = true := by
    intro hK pre1 pre2 v hsplit hv
    rw [hsplit] at hpre
    obtain ⟨w', h1, _⟩ := applyFiles_split A sys dir pre1 pre2 w wk hpre
    have hrun2 : applyMigrations A sys dir w =
        applyFiles A sys dir (pre2 ++ fk :: post) w' := by
      simp only [applyMigrations, hdir, hfiles, hsplit, List.append_assoc]
      exact applyFiles_append A sys dir pre1 (pre2 ++ fk :: post) w w' h1
    obtain ⟨a, ha⟩ := applyFiles_executed A sys dir pre1 w
    obtain ⟨b, hb⟩ := applyFiles_executed A sys dir (pre2 ++ fk :: post) w'
    rw [h1] at ha hv
    simp only at ha hv
    have hsince : executedSince w (applyMigrations A sys dir w).1 = a ++ b := by
      apply executedSince_eq
      rw [hrun2, hb, ha, List.append_assoc]
    rw [hsince] at hK
    rw [hrun2]
    exact applyFiles_keeps A sys dir (pre2 ++ fk :: post) w' b hb
      (fun db s v' hs => hK db s v' (List.mem_append_right _ hs)) v hv
  obtain ⟨W, err, hW, hcases⟩ := key
  refine ⟨⟨err, by rw [hrun, hW]⟩, ?_, ?_, ?_, fun wi f => applyFile_execs A sys dir f wi, hkeep⟩
  · rw [hrun, hW]
    rcases hcases with ht | ht <;> simp only [ht, checked_append, hchk] <;> simp [checked]
  · rw [hrun, hW]
    rcases hcases with ht | ht
    · left; simp only [ht, executed_append]; rfl
    · right; simp only [ht, executed_append]; rfl
  · rw [hrun, hW]
    exact hcases

theorem apply_failure_witness :
    (∃ err, (applyMigrations exFailAdapter exSysShort "migrations" ⟨[], []⟩).2 = some err) ∧
    checked (applyMigrations exFailAdapter exSysShort "migrations" ⟨[], []⟩).1.trace =
      [] ++ (["20240_migration.sql"] ++ ["2024_migration.sql"]).map fileVersion ∧
    inLedger exFailAdapter
      (applyMigrations exFailAdapter exSysShort "migrations" ⟨[], []⟩).1.db "20240" = true :=
  have h := apply_failure exFailAdapter exSysShort "migrations"
    ["2024_migration.sql", "20240_migration.sql", "2025_migration.sql"]
    ["20240_migration.sql"] ["2025_migration.sql"] "2024_migration.sql" ⟨[], []⟩
    (applyFiles exFailAdapter exSysShort "migrations" ["20240_migration.sql"] ⟨[], []⟩).1
    0 "-- Up migration\nSELECT 1;\n\n-- Down migration\n"
    rfl (by decide) (by decide) (by decide) (by decide) rfl (Or.inl (by decide))
  ⟨h.1, h.2.1, h.2.2.2.2.2 (fun db s v _ hv => exFailAdapter_keep db s v hv)
    ["20240_migration.sql"] [] "20240" rfl (by decide)⟩

/-! ## Applying twice -/

/-- C8 (as stated, refuted): the first run over the two files succeeds, every
statement succeeds and the version of each file is in the ledger when its iteration
ends; the up-script of the second file deletes the rows of the ledger, so the version
of the first file is not in the ledger after the run, and the second run executes
the first file again and changes the database. -/
theorem apply_twice_counterexample :
    (applyMigrations exWipeAdapter exWipeSys "migrations" ⟨[], []⟩).2 = none ∧
    insertsRegister exWipeAdapter exWipeSys "migrations"
      (migrationFiles ["20240102120000_migration.sql", "notes.txt",
        "20240101120000_migration.sql"]) ⟨[], []⟩ = true ∧
    executed exWipeApplied.trace =
      ["CREATE TABLE users (\nid INT NOT NULL\n);\n\n",
       registerScript "20240101120000" "0000",
       "DELETE FROM schema_migrations;\n\n",
       registerScript "20240102120000" "0000"] ∧
    inLedger exWipeAdapter exWipeApplied.db "20240101120000" = false ∧
    (applyMigrations exWipeAdapter exWipeSys "migrations" exWipeApplied).2 = none ∧
    executed (applyMigrations exWipeAdapter exWipeSys "migrations" exWipeApplied).1.trace =
      executed exWipeApplied.trace ++
        ["CREATE TABLE users (\nid INT NOT NULL\n);\n\n",
         registerScript "20240101120000" "0000"] ∧
    (applyMigrations exWipeAdapter exWipeSys "migrations" exWipeApplied).1.db ≠
      exWipeApplied.db := by
  decide

/-- C8 (amended): once a run of `applyMigrations` over the files of the directory has
returned success, with the version of every file in the ledger when the iteration of
the file ended and with no statement executed during the run that removes a version
from the ledger, a second run over the same files returns success and does nothing
but check and skip every file: `IsMigrationApplied` is true for every version, no
statement is executed, no file is written and the database is as it was. -/
theorem apply_twice {σ : Type} (A : DBAdapter σ) (sys : Sys) (dir : String)
    (names : List String) (w w1 : World σ)
    (hdir : sys.readDir dir = .ok names)
    (hrun : applyMigrations A sys dir w = (w1, none))
    (hreg : insertsRegister A sys dir (migrationFiles names) w = true)
    (hKeep : ∀ db s v, s ∈ executedSince w w1 → inLedger A db v = true →
      inLedger A (A.ApplyMigration db s).1 v = true) :
    applyMigrations A sys dir w1 =
      (⟨w1.db, w1.trace ++ (migrationFiles names).flatMap skipEvents⟩, none) ∧
    (∀ f ∈ migrationFiles names,
      (DBManager.IsMigrationApplied A w1 (fileVersion f)).2 = .ok true) ∧
    executed (applyMigrations A sys dir w1).1.trace = executed w1.trace ∧
    written (applyMigrations A sys dir w1).1.trace = written w1.trace := by
  simp only [applyMigrations, hdir] at hrun ⊢
  obtain ⟨ex, hex⟩ := applyFiles_executed A sys dir (migrationFiles names) w
  rw [hrun] at hex
  simp only at hex
  rw [executedSince_eq w w1 ex hex] at hKeep
  have hall := applyFiles_registered A sys dir (migrationFiles names) w w1 ex hrun hreg hex hKeep
  have hskip := applyFiles_skips A sys dir (migrationFiles names) w1 hall
  refine ⟨hskip, ?_, ?_, ?_⟩
  · intro f hf
    have hin := hall f hf
    unfold inLedger at hin
    cases hc : A.countVersion w1.db (fileVersion f) with
    | error e => simp [hc] at hin
    | ok n =>
      simp only [hc] at hin
      simp only [DBManager.IsMigrationApplied, hc, hin]
  · rw [hskip]
    simp only [executed_append, executed_skipEvents, List.append_nil]
  · rw [hskip]
    have : written (w1.trace ++ (migrationFiles names).flatMap skipEvents) =
        written w1.trace ++ written ((migrationFiles names).flatMap skipEvents) := by
      simp [written, List.filterMap_append]
    simp only [this, written_skipEvents, List.append_nil]

theorem apply_twice_witness :
    applyMigrations exAdapter exSys "migrations" exApplied =
      (⟨exApplied.db, exApplied.trace ++
        (migrationFiles ["20240102120000_migration.sql", "notes.txt",
          "20240101120000_migration.sql"]).flatMap skipEvents⟩, none) ∧
    (∀ f ∈ migrationFiles ["20240102120000_migration.sql", "notes.txt",
        "20240101120000_migration.sql"],
      (DBManager.IsMigrationApplied exAdapter exApplied (fileVersion f)).2 = .ok true) ∧
    executed (applyMigrations exAdapter exSys "migrations" exApplied).1.trace =
      executed exApplied.trace ∧
    written (applyMigrations exAdapter exSys "migrations" exApplied).1.trace =
      written exApplied.trace :=
  apply_twice exAdapter exSys "migrations"
    ["20240102120000_migration.sql", "notes.txt", "20240101120000_migration.sql"]
    ⟨[], []⟩ exApplied rfl (by decide) (by decide)
    (fun db s v _ h => exAdapter_keep db s v h)

/-! ## Scripts of removals -/

theorem synthChange_removed (r : Removed) (detail up down : String) (h : r.plain = true) :
    synthChange ⟨"remove", r.object, detail⟩ up down = .ok (up ++ r.statement, down) := by
  have e : ¬ ("remove" = "add") := by decide
  cases r with
  | table t =>
    simp only [synthChange, e, if_false, if_true, Removed.object, Removed.statement,
      hasPrefix_append, trimPrefix_append]
  | column t c =>
    simp only [Removed.plain, Bool.and_eq_true, decide_eq_true_eq] at h
    have ht := not_table_of_column _ (hasPrefix_column t c)
    simp only [synthChange, e, if_false, if_true, Removed.object, Removed.statement, ht,
      Bool.false_eq_true, hasPrefix_column, columnParts_column t c h.1 h.2]

theorem synthesize_removed (rs : List (Removed × String)) (up down : String)
    (h : ∀ r ∈ rs, r.1.plain = true) :
    synthesize (rs.map (fun r => ⟨"remove", r.1.object, r.2⟩)) up down =
      .ok (up ++ concatAll (rs.map (fun r => r.1.statement)), down) := by
  induction rs generalizing up with
  | nil => simp [synthesize, concatAll]
  | cons r rest ih =>
    simp only [List.map_cons, synthesize,
      synthChange_removed r.1 r.2 up down (h r (List.mem_cons_self _ _))]
    rw [ih _ (fun x hx => h x (List.mem_cons_of_mem _ hx))]
    simp only [concatAll, String.append_assoc]

/-- C12 (as stated, refuted): the removal of the column `age` of a table `shop.users`
has an object of the form `column:<t>.<c>`, and `GenerateMigration` returns the
invalid-column-format error for it instead of a script. -/
theorem remove_scripts_counterexample :
    (Removed.column "shop.users" "age").object = "column:shop.users.age" ∧
    (GenerateMigration exGenEnv [⟨"remove", "column:shop.users.age", "column removed"⟩]
        "migrations").result =
      .error (.error "formato inválido para coluna: column:shop.users.age") := by
  decide

/-- C12 (amended): for a list of `remove` changes of tables `table:<t>` and of columns
`column:<t>.<c>` whose table and column names contain no dot, the synthesis appends
to the up-script, in input order, `DROP TABLE <t>;` for each table and
`ALTER TABLE <t> DROP COLUMN <c>;` for each column and leaves the down-script as it
is; so when the file is written `GenerateMigration` returns these statements under
the up header and the down header alone. -/
theorem remove_scripts (env : GenEnv) (dir : String) (rs : List (Removed × String))
    (h : ∀ r ∈ rs, r.1.plain = true)
    (hwrite : ∀ path content, env.writeFile path content = none) :
    (∀ up down, synthesize (rs.map (fun r => ⟨"remove", r.1.object, r.2⟩)) up down =
      .ok (up ++ concatAll (rs.map (fun r => r.1.statement)), down)) ∧
    ∃ m, (GenerateMigration env (rs.map (fun r => ⟨"remove", r.1.object, r.2⟩)) dir).result =
        .ok m ∧
      m.UpScript = "-- Up migration\n" ++ concatAll (rs.map (fun r => r.1.statement)) ∧
      m.DownScript = "-- Down migration\n" := by
  refine ⟨fun up down => synthesize_removed rs up down h, ?_⟩
  refine ⟨⟨env.timestamp, "-- Up migration\n" ++ concatAll (rs.map (fun r => r.1.statement)),
    "-- Down migration\n", env.sha256Hex (("-- Up migration\n" ++
      concatAll (rs.map (fun r => r.1.statement))) ++ "\n" ++ "-- Down migration\n")⟩,
    ?_, rfl, rfl⟩
  simp only [GenerateMigration, synthesize_removed rs _ _ h, hwrite]

theorem remove_scripts_witness :
    ∃ m, (GenerateMigration exGenEnv
        [⟨"remove", "column:users.age", "column removed"⟩,
         ⟨"remove", "table:logs", "table removed"⟩] "migrations").result = .ok m ∧
      m.UpScript = "-- Up migration\nALTER TABLE users DROP COLUMN age;\nDROP TABLE logs;\n" ∧
      m.DownScript = "-- Down migration\n" :=
  (remove_scripts exGenEnv "migrations"
    [(.column "users" "age", "column removed"), (.table "logs", "table removed")]
    (by decide) (fun _ _ => rfl)).2

/-! ## Lines of a text -/

theorem splitChars_ne_nil (sep : Char) (s : List Char) : splitChars sep s ≠ [] := by
  induction s with
  | nil => simp [splitChars]
  | cons c cs ih =>
    by_cases h : c = sep
    · simp [splitChars, h]
    · simp only [splitChars, h, if_false]
      cases hs : splitChars sep cs with
      | nil => exact absurd hs ih
      | cons p ps => simp

theorem splitChars_mem_noSep (sep : Char) (s p : List Char) (h : p ∈ splitChars sep s) :
    sep ∉ p := by
  induction s generalizing p with
  | nil =>
    simp only [splitChars, List.mem_singleton] at h
    subst h
    exact List.not_mem_nil _
  | cons c cs ih =>
    by_cases hc : c = sep
    · simp only [splitChars, hc, if_true, List.mem_cons] at h
      rcases h with rfl | h
      · exact List.not_mem_nil _
      · exact ih p h
    · simp only [splitChars, hc, if_false] at h
      cases hs : splitChars sep cs with
      | nil => exact absurd hs (splitChars_ne_nil sep cs)
      | cons q qs =>
        rw [hs] at h ih
        simp only [List.mem_cons] at h
        rcases h with rfl | h
        · intro hm
          rcases List.mem_cons.mp hm with rfl | hm'
          · exact hc rfl
          · exact ih q (List.mem_cons_self _ _) hm'
        · exact ih p (List.mem_cons_of_mem _ h)

theorem splitChars_flatten (sep : Char) (s : List Char) :
    ((splitChars sep s).map (fun l => l ++ [sep])).flatten = s ++ [sep] := by
  induction s with
  | nil => simp [splitChars]
  | cons c cs ih =>
    by_cases hc : c = sep
    · simp only [splitChars, hc, if_true, List.map_cons, List.flatten_cons, List.nil_append]
      rw [ih]
      rfl
    · simp only [splitChars, hc, if_false]
      cases hs : splitChars sep cs with
      | nil => exact absurd hs (splitChars_ne_nil sep cs)
      | cons q qs =>
        rw [hs] at ih
        simp only [List.map_cons, List.flatten_cons, List.cons_append] at ih ⊢
        rw [ih]

theorem splitChars_lines (sep : Char) (ls : List (List Char)) (rest : List Char)
    (h : ∀ l ∈ ls, sep ∉ l) :
    splitChars sep ((ls.map (fun l => l ++ [sep])).flatten ++ rest) =
      ls ++ splitChars sep rest := by
  induction ls with
  | nil => simp
  | cons l more ih =>
    simp only [List.map_cons, List.flatten_cons, List.append_assoc, List.singleton_append,
      List.cons_append]
    rw [splitChars_append sep l _ (h l (List.mem_cons_self _ _)), List.nil_append,
      ih (fun x hx => h x (List.mem_cons_of_mem _ hx))]

theorem splitChars_mem_within (sep : Char) (s p : List Char) (h : p ∈ splitChars sep s) :
    p <:+: s := by
  induction s generalizing p with
  | nil =>
    simp only [splitChars, List.mem_singleton] at h
    subst h
    exact List.infix_refl _
  | cons c cs ih =>
    by_cases hc : c = sep
    · simp only [splitChars, hc, if_true, List.mem_cons] at h
      rcases h with rfl | h
      · exact List.nil_infix
      · exact (ih p h).trans (List.infix_cons (List.infix_refl _))
    · simp only [splitChars, hc, if_false] at h
      cases hs : splitChars sep cs with
      | nil => exact absurd hs (splitChars_ne_nil sep cs)
      | cons q qs =>
        rw [hs] at h
        simp only [List.mem_cons] at h
        have hflat := splitChars_flatten sep cs
        rw [hs] at hflat
        simp only [List.map_cons, List.flatten_cons] at hflat
        rcases h with rfl | h
        · have hq : q <+: cs ++ [sep] :=
            ⟨sep :: (qs.map (fun l => l ++ [sep])).flatten, by rw [← hflat]; simp⟩
          have hsep : sep ∉ q := splitChars_mem_noSep sep cs q (by rw [hs]; simp)
          have hq' : q <+: cs := by
            obtain ⟨t, ht⟩ := hq
            rcases List.eq_nil_or_concat t with rfl | ⟨t', x, rfl⟩
            · exfalso
              rw [List.append_nil] at ht
              exact hsep (by rw [ht]; simp)
            · rw [List.concat_eq_append, ← List.append_assoc] at ht
              have := List.append_inj_left' ht rfl
              exact ⟨t', this⟩
          exact ((List.cons_prefix_cons).mpr ⟨rfl, hq'⟩).isInfix
        · exact (ih p (by rw [hs]; exact List.mem_cons_of_mem _ h)).trans
            (List.infix_cons (List.infix_refl _))

theorem concatAll_append (a b : List String) :
    concatAll (a ++ b) = concatAll a ++ concatAll b := by
  induction a with
  | nil => simp [concatAll]
  | cons x xs ih => simp [concatAll, ih, String.append_assoc]

theorem linesText_append (a b : List String) :
    linesText (a ++ b) = linesText a ++ linesText b := by
  simp [linesText, concatAll_append]

theorem linesText_singleton (l : String) : linesText [l] = l ++ "\n" := by
  simp [linesText, concatAll]

theorem linesText_data (ls : List String) :
    (linesText ls).data = ((ls.map String.data).map (fun l => l ++ ['\n'])).flatten := by
  induction ls with
  | nil => rfl
  | cons l more ih =>
    have : linesText (l :: more) = (l ++ "\n") ++ linesText more := rfl
    rw [this, String.data_append, String.data_append, ih]
    simp

theorem linesText_split (s : String) : linesText (stringsSplit s '\n') = s ++ "\n" := by
  apply String.ext
  rw [linesText_data, String.data_append]
  have e : (stringsSplit s '\n').map String.data = splitChars '\n' s.data := by
    simp [stringsSplit, List.map_map, Function.comp_def]
  rw [e]
  exact splitChars_flatten '\n' s.data

/-! ## Extraction of the sections of a migration text -/

theorem stringsSplit_linesText (ls : List String) (h : ∀ l ∈ ls, '\n' ∉ l.data) :
    stringsSplit (linesText ls) '\n' = ls ++ [""] := by
  have hl : ∀ l ∈ ls.map String.data, '\n' ∉ l := by
    intro l hl
    obtain ⟨x, hx, rfl⟩ := List.mem_map.mp hl
    exact h x hx
  have := splitChars_lines '\n' (ls.map String.data) [] hl
  rw [List.append_nil] at this
  rw [stringsSplit, linesText_data, this]
  simp [splitChars, List.map_map, Function.comp_def]

theorem plainLine_spec {l : String} (h : plainLine l = true) :
    '\n' ∉ l.data ∧ hasPrefix l "-- Up migration" = false ∧
      hasPrefix l "-- Down migration" = false := by
  simpa [plainLine, and_assoc] using h

theorem upSection_plain (ls rest : List String) (acc : String)
    (h : ∀ l ∈ ls, plainLine l = true) :
    upSection (ls ++ rest) true acc = upSection rest true (acc ++ linesText ls) := by
  induction ls generalizing acc with
  | nil => simp [linesText, concatAll]
  | cons l more ih =>
    obtain ⟨_, h1, h2⟩ := plainLine_spec (h l (List.mem_cons_self _ _))
    simp only [List.cons_append, upSection, h1, h2, Bool.false_eq_true, if_false, if_true,
      List.append_eq]
    rw [ih _ (fun x hx => h x (List.mem_cons_of_mem _ hx))]
    have : linesText (l :: more) = (l ++ "\n") ++ linesText more := rfl
    rw [this, String.append_assoc]

theorem downSection_skip (ls rest : List String) (acc : String)
    (h : ∀ l ∈ ls, hasPrefix l "-- Down migration" = false) :
    downSection (ls ++ rest) false acc = downSection rest false acc := by
  induction ls with
  | nil => rfl
  | cons l more ih =>
    simp only [List.cons_append, downSection, h l (List.mem_cons_self _ _), Bool.false_eq_true,
      if_false, Bool.false_and, List.append_eq]
    exact ih (fun x hx => h x (List.mem_cons_of_mem _ hx))

theorem downSection_solid (ls rest : List String) (acc : String)
    (h : ∀ l ∈ ls, solidLine l = true) :
    downSection (ls ++ rest) true acc = downSection rest true (acc ++ linesText ls) := by
  induction ls generalizing acc with
  | nil => simp [linesText, concatAll]
  | cons l more ih =>
    have hl := h l (List.mem_cons_self _ _)
    simp only [solidLine, Bool.and_eq_true, decide_eq_true_eq] at hl
    obtain ⟨_, _, h2⟩ := plainLine_spec hl.1
    simp only [List.cons_append, downSection, h2, Bool.false_eq_true, if_false, Bool.true_and,
      decide_eq_true_eq, hl.2, ne_eq, not_false_eq_true, if_true, List.append_eq]
    rw [ih _ (fun x hx => h x (List.mem_cons_of_mem _ hx))]
    have : linesText (l :: more) = (l ++ "\n") ++ linesText more := rfl
    rw [this, String.append_assoc]

theorem sections_roundtrip (U D : List String) (hU : ∀ l ∈ U, plainLine l = true)
    (hD : ∀ l ∈ D, solidLine l = true) (version checksum : String) :
    appliedScript ⟨version, ("-- Up migration\n" ++ linesText U) ++ "\n" ++
        ("-- Down migration\n" ++ linesText D), "", checksum⟩ = linesText U ++ "\n" ∧
    rolledBackScript ⟨version, ("-- Up migration\n" ++ linesText U) ++ "\n" ++
        ("-- Down migration\n" ++ linesText D), "", checksum⟩ = linesText D := by
  have hDp : ∀ l ∈ D, plainLine l = true := by
    intro l hl
    have := hD l hl
    simp only [solidLine, Bool.and_eq_true] at this
    exact this.1
  have htext : (("-- Up migration\n" ++ linesText U) ++ "\n" ++
      ("-- Down migration\n" ++ linesText D)) ++ "\n" ++ "" =
      linesText ("-- Up migration" :: (U ++ "" :: "-- Down migration" :: (D ++ [""]))) := by
    have e1 : linesText ("-- Up migration" :: (U ++ "" :: "-- Down migration" :: (D ++ [""]))) =
        linesText ["-- Up migration"] ++ (linesText U ++ (linesText [""] ++
          (linesText ["-- Down migration"] ++ (linesText D ++ linesText [""])))) := by
      rw [← linesText_append, ← linesText_append, ← linesText_append, ← linesText_append]
      rfl
    rw [e1]
    simp only [linesText_singleton, String.append_assoc]
    rfl
  have hno : ∀ l ∈ ("-- Up migration" :: (U ++ "" :: "-- Down migration" :: (D ++ [""]))),
      '\n' ∉ l.data := by
    intro l hl
    simp only [List.mem_cons, List.mem_append, List.mem_singleton, List.mem_nil_iff,
      or_false] at hl
    rcases hl with rfl | hl | rfl | rfl | hl | rfl
    · decide
    · exact (plainLine_spec (hU l hl)).1
    · decide
    · decide
    · exact (plainLine_spec (hDp l hl)).1
    · decide
  have hsplit := stringsSplit_linesText _ hno
  have hUd : ∀ l ∈ U, hasPrefix l "-- Down migration" = false :=
    fun l hl => (plainLine_spec (hU l hl)).2.2
  constructor
  · simp only [appliedScript, htext, hsplit]
    have s1 : hasPrefix "-- Up migration" "-- Up migration" = true := by decide
    have s2 : hasPrefix "" "-- Up migration" = false := by decide
    have s3 : hasPrefix "" "-- Down migration" = false := by decide
    have s4 : hasPrefix "-- Down migration" "-- Up migration" = false := by decide
    have s5 : hasPrefix "-- Down migration" "-- Down migration" = true := by decide
    simp only [List.cons_append, upSection, s1, if_true, List.append_eq]
    rw [List.append_assoc, upSection_plain U _ _ hU]
    simp only [List.cons_append, upSection, s2, s3, s4, s5, Bool.false_eq_true, if_false,
      if_true]
    simp
  · simp only [rolledBackScript, htext, hsplit]
    have s1 : hasPrefix "-- Up migration" "-- Down migration" = false := by decide
    have s3 : hasPrefix "" "-- Down migration" = false := by decide
    have s5 : hasPrefix "-- Down migration" "-- Down migration" = true := by decide
    have s6 : trimSpace "" = "" := by decide
    simp only [List.cons_append, downSection, s1, Bool.false_eq_true, if_false, Bool.false_and,
      List.append_eq]
    rw [List.append_assoc, downSection_skip U _ _ hUd]
    simp only [List.cons_append, downSection, s3, s5, Bool.false_eq_true, if_false,
      Bool.false_and, if_true, List.append_eq]
    rw [List.append_assoc, downSection_solid D _ _ hD]
    simp [downSection, s3, s6]

/-! ## Lines of the synthesized scripts -/

theorem noNL_trimPrefix (o p : String) (h : '\n' ∉ o.data) : '\n' ∉ (trimPrefix o p).data := by
  unfold trimPrefix
  split
  · exact fun hm => h (List.mem_of_mem_drop hm)
  · exact h

theorem noNL_columnParts (o t c : String) (hp : columnParts o = some (t, c))
    (h : '\n' ∉ o.data) : '\n' ∉ t.data ∧ '\n' ∉ c.data := by
  have hsub : ∀ x ∈ stringsSplit (trimPrefix o "column:") '.', '\n' ∉ x.data := by
    intro x hx
    simp only [stringsSplit, List.mem_map] at hx
    obtain ⟨l, hl, rfl⟩ := hx
    intro hm
    exact noNL_trimPrefix o "column:" h ((splitChars_mem_within _ _ _ hl).subset hm)
  unfold columnParts at hp
  split at hp
  · rename_i a b heq
    simp only [Option.some.injEq, Prod.mk.injEq] at hp
    obtain ⟨rfl, rfl⟩ := hp
    exact ⟨hsub _ (by rw [heq]; simp), hsub _ (by rw [heq]; simp)⟩
  · cases hp

theorem tokenAfter_mem (tok : String) (l : List String) (x : String)
    (h : tokenAfter tok l = some x) : x ∈ l := by
  induction l with
  | nil => simp [tokenAfter] at h
  | cons a rest ih =>
    cases rest with
    | nil => simp [tokenAfter] at h
    | cons b more =>
      simp only [tokenAfter] at h
      split at h
      · simp only [Option.some.injEq] at h
        subst h
        simp
      · exact List.mem_cons_of_mem _ (ih h)

theorem noNL_tokenAfter (tok detail : String) (h : '\n' ∉ detail.data) :
    '\n' ∉ ((tokenAfter tok (stringsSplit detail ' ')).getD "VARCHAR(255)").data := by
  cases ht : tokenAfter tok (stringsSplit detail ' ') with
  | none => simp only [Option.getD_none]; decide
  | some x =>
    have hx := tokenAfter_mem _ _ _ ht
    simp only [stringsSplit, List.mem_map] at hx
    obtain ⟨l, hl, rfl⟩ := hx
    simp only [Option.getD_some]
    exact fun hm => h ((splitChars_mem_within _ _ _ hl).subset hm)

theorem hasPrefix_first (l m : String) (c d : Char) (r s : List Char) (hl : l.data = c :: r)
    (hm : m.data = d :: s) (hne : c ≠ d) : hasPrefix l m = false := by
  unfold hasPrefix
  rw [hl, hm, List.isPrefixOf]
  have : (d == c) = false := by simpa using fun h => hne h.symm
  rw [this]
  rfl

theorem plainLine_first (p rest : String) (c : Char) (r : List Char) (hp : p.data = c :: r)
    (hc : c ≠ '-') (hn : '\n' ∉ (p ++ rest).data) : plainLine (p ++ rest) = true := by
  have hd : (p ++ rest).data = c :: (r ++ rest.data) := by
    rw [String.data_append, hp]; rfl
  have h1 := hasPrefix_first (p ++ rest) "-- Up migration" c '-' _ "- Up migration".data hd rfl hc
  have h2 := hasPrefix_first (p ++ rest) "-- Down migration" c '-' _ "- Down migration".data hd
    rfl hc
  simp only [plainLine, h1, h2, Bool.not_false, Bool.and_true, decide_eq_true_eq]
  exact hn

theorem trimSpace_ne_empty (s : String) (c : Char) (r : List Char) (h : s.data = c :: r)
    (hc : isSpace c = false) : trimSpace s ≠ "" := by
  intro he
  have hd : (trimSpace s).data = [] := by rw [he]
  simp only [trimSpace, h, List.dropWhile_cons, hc, Bool.false_eq_true, if_false,
    List.reverse_eq_nil_iff] at hd
  have hmem : c ∈ (c :: r).reverse := by simp
  have : ∃ x ∈ (c :: r).reverse, ¬ isSpace x = true := ⟨c, hmem, by simp [hc]⟩
  have hne : List.dropWhile isSpace (c :: r).reverse ≠ [] := by
    intro hnil
    rw [List.dropWhile_eq_nil_iff] at hnil
    obtain ⟨x, hx, hnx⟩ := this
    exact hnx (hnil x hx)
  exact hne hd

theorem solidLine_first (p rest : String) (c : Char) (r : List Char) (hp : p.data = c :: r)
    (hc : c ≠ '-') (hs : isSpace c = false) (hn : '\n' ∉ (p ++ rest).data) :
    solidLine (p ++ rest) = true := by
  have hd : (p ++ rest).data = c :: (r ++ rest.data) := by
    rw [String.data_append, hp]; rfl
  simp [solidLine, plainLine_first p rest c r hp hc hn, trimSpace_ne_empty _ c _ hd hs]


theorem trimSpace_within (s : String) : (trimSpace s).data <:+: s.data := by
  have h1 : s.data.dropWhile isSpace <:+ s.data := List.dropWhile_suffix _
  have h2 : (s.data.dropWhile isSpace).reverse.dropWhile isSpace <:+
      (s.data.dropWhile isSpace).reverse := List.dropWhile_suffix _
  have h3 : ((s.data.dropWhile isSpace).reverse.dropWhile isSpace).reverse <+:
      s.data.dropWhile isSpace := by
    have := List.reverse_prefix.mpr h2
    rwa [List.reverse_reverse] at this
  exact h3.isInfix.trans h1.isInfix

theorem definition_lines (detail : String)
    (hu : containsText detail "-- Up migration" = false)
    (hd : containsText detail "-- Down migration" = false) :
    ∀ l ∈ stringsSplit (if trimSpace detail = "" ∨ toLower (trimSpace detail) = "table added"
        then "id INT AUTO_INCREMENT PRIMARY KEY" else trimSpace detail) '\n',
      plainLine l = true := by
  intro l hl
  split at hl
  · have : stringsSplit "id INT AUTO_INCREMENT PRIMARY KEY" '\n' =
        ["id INT AUTO_INCREMENT PRIMARY KEY"] := by decide
    rw [this, List.mem_singleton] at hl
    subst hl
    decide
  · simp only [stringsSplit, List.mem_map] at hl
    obtain ⟨p, hp, rfl⟩ := hl
    have hinf : p <:+: detail.data := (splitChars_mem_within _ _ _ hp).trans (trimSpace_within _)
    have hno := splitChars_mem_noSep _ _ _ hp
    simp only [containsText, decide_eq_false_iff_not] at hu hd
    have h1 : hasPrefix ⟨p⟩ "-- Up migration" = false := by
      cases h : hasPrefix ⟨p⟩ "-- Up migration" with
      | false => rfl
      | true =>
        exfalso
        apply hu
        exact (List.isPrefixOf_iff_prefix.mp h).isInfix.trans hinf
    have h2 : hasPrefix ⟨p⟩ "-- Down migration" = false := by
      cases h : hasPrefix ⟨p⟩ "-- Down migration" with
      | false => rfl
      | true =>
        exfalso
        apply hd
        exact (List.isPrefixOf_iff_prefix.mp h).isInfix.trans hinf
    simp only [plainLine, h1, h2, Bool.not_false, Bool.and_true, decide_eq_true_eq]
    exact hno

theorem roundTripSafe_spec {c : Change} (h : roundTripSafe c = true) :
    '\n' ∉ c.object.data ∧ containsText c.detail "-- Up migration" = false ∧
    containsText c.detail "-- Down migration" = false ∧
    (hasPrefix c.object "column:" = true → '\n' ∉ c.detail.data) := by
  simp only [roundTripSafe, Bool.and_eq_true, decide_eq_true_eq, Bool.not_eq_true',
    Bool.or_eq_true] at h
  refine ⟨h.1.1.1, h.1.1.2, h.1.2, fun hc => ?_⟩
  rcases h.2 with h' | h'
  · rw [hc] at h'; cases h'
  · exact h'

theorem stmt_line (p body : String) (c : Char) (r : List Char) (hp : p.data = c :: r)
    (hc : c ≠ '-') (hs : isSpace c = false) (hn : '\n' ∉ p.data) (hb : '\n' ∉ body.data) :
    plainLine (p ++ body) = true ∧ solidLine (p ++ body) = true := by
  have hno : '\n' ∉ (p ++ body).data := by
    rw [String.data_append, List.mem_append]
    exact fun h => h.elim hn hb
  exact ⟨plainLine_first p body c r hp hc hno, solidLine_first p body c r hp hc hs hno⟩

theorem stmt_text (up body : String) :
    up ++ (body ++ ";\n") = up ++ linesText [body ++ ";"] := by
  rw [linesText_singleton]
  apply String.ext
  simp [String.data_append]

theorem linesText_nil_right (s : String) : s = s ++ linesText [] := by
  simp [linesText, concatAll]

theorem synthChange_lines (c : Change) (hsafe : roundTripSafe c = true) (up down : String)
    (r : String × String) (h : synthChange c up down = .ok r) :
    ∃ u d, r = (up ++ linesText u, down ++ linesText d) ∧
      (∀ l ∈ u, plainLine l = true) ∧ (∀ l ∈ d, solidLine l = true) := by
  obtain ⟨hobj, hu, hd, hcol⟩ := roundTripSafe_spec hsafe
  have hA : "ALTER TABLE ".data = 'A' :: "LTER TABLE ".data := rfl
  have hD : "DROP TABLE ".data = 'D' :: "ROP TABLE ".data := rfl
  have hC : "CREATE TABLE ".data = 'C' :: "REATE TABLE ".data := rfl
  have nA : '\n' ∉ "ALTER TABLE ".data := by decide
  have nD : '\n' ∉ "DROP TABLE ".data := by decide
  have nC : '\n' ∉ "CREATE TABLE ".data := by decide
  have noop : ∀ r : String × String, Except.ok (ε := Failure) (up, down) = .ok r →
      ∃ u d, r = (up ++ linesText u, down ++ linesText d) ∧
        (∀ l ∈ u, plainLine l = true) ∧ (∀ l ∈ d, solidLine l = true) := by
    intro r hr
    cases hr
    exact ⟨[], [], by rw [← linesText_nil_right, ← linesText_nil_right],
      fun l hl => absurd hl (List.not_mem_nil l), fun l hl => absurd hl (List.not_mem_nil l)⟩
  unfold synthChange at h
  by_cases h1 : c.kind = "add"
  · simp only [h1, if_true] at h
    by_cases ht : hasPrefix c.object "table:" = true
    · simp only [ht, if_true] at h
      have hlines := definition_lines c.detail hu hd
      generalize (if trimSpace c.detail = "" ∨ toLower (trimSpace c.detail) = "table added"
        then "id INT AUTO_INCREMENT PRIMARY KEY" else trimSpace c.detail) = D at h hlines
      have hn := noNL_trimPrefix c.object "table:" hobj
      generalize trimPrefix c.object "table:" = t at h hn
      cases h
      refine ⟨["CREATE TABLE " ++ (t ++ " (")] ++ stringsSplit D '\n' ++ [");"],
        ["DROP TABLE " ++ (t ++ ";")], ?_, ?_, ?_⟩
      · rw [linesText_append, linesText_append, linesText_singleton, linesText_singleton,
          linesText_split, linesText_singleton]
        congr 1 <;> apply String.ext <;> simp [String.data_append]
      · intro l hl
        simp only [List.mem_append, List.mem_singleton] at hl
        rcases hl with (rfl | hl) | rfl
        · exact (stmt_line "CREATE TABLE " (t ++ " (") 'C' _ hC (by decide) (by decide) nC
            (by simp [String.data_append, hn])).1
        · exact hlines l hl
        · decide
      · intro l hl
        simp only [List.mem_singleton] at hl
        subst hl
        exact (stmt_line "DROP TABLE " (t ++ ";") 'D' _ hD (by decide) (by decide) nD
          (by simp [String.data_append, hn])).2
    · simp only [ht, if_false] at h
      by_cases hc : hasPrefix c.object "column:" = true
      · simp only [hc, if_true] at h
        cases hp : columnParts c.object with
        | none => simp [hp] at h
        | some p =>
          obtain ⟨t, col⟩ := p
          simp only [hp] at h
          obtain ⟨hnt, hnc⟩ := noNL_columnParts c.object t col hp hobj
          have hty := noNL_tokenAfter "type" c.detail (hcol hc)
          unfold extractType at h
          generalize (tokenAfter "type" (stringsSplit c.detail ' ')).getD "VARCHAR(255)" = ty
            at h hty
          cases h
          refine ⟨["ALTER TABLE " ++ (t ++ " ADD " ++ col ++ " " ++ ty ++ ";")],
            ["ALTER TABLE " ++ (t ++ " DROP COLUMN " ++ col ++ ";")], ?_, ?_, ?_⟩
          · rw [linesText_singleton, linesText_singleton]
            congr 1 <;> apply String.ext <;> simp [String.data_append]
          · intro l hl
            simp only [List.mem_singleton] at hl
            subst hl
            exact (stmt_line "ALTER TABLE " _ 'A' _ hA (by decide) (by decide) nA
              (by simp [String.data_append, hnt, hnc, hty])).1
          · intro l hl
            simp only [List.mem_singleton] at hl
            subst hl
            exact (stmt_line "ALTER TABLE " _ 'A' _ hA (by decide) (by decide) nA
              (by simp [String.data_append, hnt, hnc])).2
      · simp only [hc, if_false] at h
        exact noop r h
  · simp only [h1, if_false] at h
    by_cases h2 : c.kind = "remove"
    · simp only [h2, if_true] at h
      by_cases ht : hasPrefix c.object "table:" = true
      · simp only [ht, if_true] at h
        have hn := noNL_trimPrefix c.object "table:" hobj
        generalize trimPrefix c.object "table:" = t at h hn
        cases h
        refine ⟨["DROP TABLE " ++ (t ++ ";")], [], ?_, ?_, ?_⟩
        · rw [linesText_singleton, ← linesText_nil_right]
          congr 1
          apply String.ext
          simp [String.data_append]
        · intro l hl
          simp only [List.mem_singleton] at hl
          subst hl
          exact (stmt_line "DROP TABLE " (t ++ ";") 'D' _ hD (by decide) (by decide) nD
            (by simp [String.data_append, hn])).1
        · exact fun l hl => absurd hl (List.not_mem_nil l)
      · simp only [ht, if_false] at h
        by_cases hc : hasPrefix c.object "column:" = true
        · simp only [hc, if_true] at h
          cases hp : columnParts c.object with
          | none => simp [hp] at h
          | some p =>
            obtain ⟨t, col⟩ := p
            simp only [hp] at h
            obtain ⟨hnt, hnc⟩ := noNL_columnParts c.object t col hp hobj
            cases h
            refine ⟨["ALTER TABLE " ++ (t ++ " DROP COLUMN " ++ col ++ ";")], [], ?_, ?_, ?_⟩
            · rw [linesText_singleton, ← linesText_nil_right]
              congr 1
              apply String.ext
              simp [String.data_append]
            · intro l hl
              simp only [List.mem_singleton] at hl
              subst hl
              exact (stmt_line "ALTER TABLE " _ 'A' _ hA (by decide) (by decide) nA
                (by simp [String.data_append, hnt, hnc])).1
            · exact fun l hl => absurd hl (List.not_mem_nil l)
        · simp only [hc, if_false] at h
          exact noop r h
    · simp only [h2, if_false] at h
      by_cases h3 : c.kind = "modify"
      · simp only [h3, if_true] at h
        by_cases hc : hasPrefix c.object "column:" = true
        · simp only [hc, if_true] at h
          cases hp : columnParts c.object with
          | none => simp [hp] at h
          | some p =>
            obtain ⟨t, col⟩ := p
            simp only [hp] at h
            obtain ⟨hnt, hnc⟩ := noNL_columnParts c.object t col hp hobj
            have hty := noNL_tokenAfter "type" c.detail (hcol hc)
            have hto := noNL_tokenAfter "from" c.detail (hcol hc)
            unfold extractType extractOldType at h
            generalize (tokenAfter "type" (stringsSplit c.detail ' ')).getD "VARCHAR(255)" = ty
              at h hty
            generalize (tokenAfter "from" (stringsSplit c.detail ' ')).getD "VARCHAR(255)" = oty
              at h hto
            cases h
            refine ⟨["ALTER TABLE " ++ (t ++ " MODIFY " ++ col ++ " " ++ ty ++ ";")],
              ["ALTER TABLE " ++ (t ++ " MODIFY " ++ col ++ " " ++ oty ++ ";")], ?_, ?_, ?_⟩
            · rw [linesText_singleton, linesText_singleton]
              congr 1 <;> apply String.ext <;> simp [String.data_append]
            · intro l hl
              simp only [List.mem_singleton] at hl
              subst hl
              exact (stmt_line "ALTER TABLE " _ 'A' _ hA (by decide) (by decide) nA
                (by simp [String.data_append, hnt, hnc, hty])).1
            · intro l hl
              simp only [List.mem_singleton] at hl
              subst hl
              exact (stmt_line "ALTER TABLE " _ 'A' _ hA (by decide) (by decide) nA
                (by simp [String.data_append, hnt, hnc, hto])).2
        · simp only [hc, if_false] at h
          exact noop r h
      · simp [h3] at h

/-! ## Round trip of the migration file -/

theorem synthesize_lines (changes : List Change) (hsafe : ∀ c ∈ changes, roundTripSafe c = true)
    (up down : String) (r : String × String) (h : synthesize changes up down = .ok r) :
    ∃ u d, r = (up ++ linesText u, down ++ linesText d) ∧
      (∀ l ∈ u, plainLine l = true) ∧ (∀ l ∈ d, solidLine l = true) := by
  induction changes generalizing up down with
  | nil =>
    simp only [synthesize, Except.ok.injEq] at h
    subst h
    exact ⟨[], [], by rw [← linesText_nil_right, ← linesText_nil_right],
      fun l hl => absurd hl (List.not_mem_nil l), fun l hl => absurd hl (List.not_mem_nil l)⟩
  | cons c rest ih =>
    simp only [synthesize] at h
    cases hc : synthChange c up down with
    | error e => simp [hc] at h
    | ok r1 =>
      obtain ⟨u1, d1, rfl, hu1, hd1⟩ :=
        synthChange_lines c (hsafe c (List.mem_cons_self _ _)) up down r1 hc
      simp only [hc] at h
      obtain ⟨u2, d2, rfl, hu2, hd2⟩ :=
        ih (fun x hx => hsafe x (List.mem_cons_of_mem _ hx)) _ _ h
      refine ⟨u1 ++ u2, d1 ++ d2, ?_, ?_, ?_⟩
      · rw [linesText_append, linesText_append, String.append_assoc, String.append_assoc]
      · intro l hl
        rcases List.mem_append.mp hl with h' | h'
        · exact hu1 l h'
        · exact hu2 l h'
      · intro l hl
        rcases List.mem_append.mp hl with h' | h'
        · exact hd1 l h'
        · exact hd2 l h'

theorem ApplyMigration_first {σ : Type} (A : DBAdapter σ) (w : World σ) (mig : Migration) :
    ∃ rest, (ApplyMigration A w mig).1.trace = w.trace ++ Event.exec (appliedScript mig) :: rest ∧
      (rest = [] ∨ rest = [Event.exec (registerScript mig.Version mig.Checksum)]) := by
  cases h1 : (A.ApplyMigration w.db (appliedScript mig)).2 with
  | some e =>
    rw [ApplyMigration_upFails A w mig e h1]
    exact ⟨[], rfl, Or.inl rfl⟩
  | none =>
    cases h2 : (A.ApplyMigration (A.ApplyMigration w.db (appliedScript mig)).1
        (registerScript mig.Version mig.Checksum)).2 with
    | some e =>
      rw [ApplyMigration_insertFails A w mig e h1 h2]
      exact ⟨_, rfl, Or.inr rfl⟩
    | none =>
      rw [ApplyMigration_succeeds A w mig h1 h2]
      exact ⟨_, rfl, Or.inr rfl⟩

theorem RollbackMigration_first {σ : Type} (A : DBAdapter σ) (w : World σ) (mig : Migration) :
    ∃ rest, (RollbackMigration A w mig).1.trace =
        w.trace ++ Event.exec (rolledBackScript mig) :: rest ∧
      (rest = [] ∨ rest = [Event.exec (deleteScript mig.Version)]) := by
  simp only [RollbackMigration, DBManager.ApplyMigration, rolledBackScript]
  generalize downSection _ _ _ = down
  cases h1 : (A.ApplyMigration w.db down).2 with
  | some e => exact ⟨[], by simp [h1], Or.inl rfl⟩
  | none =>
    cases h2 : (A.ApplyMigration (A.ApplyMigration w.db down).1 (deleteScript mig.Version)).2 with
    | some e => exact ⟨[Event.exec (deleteScript mig.Version)], by simp [h1, h2], Or.inr rfl⟩
    | none => exact ⟨[Event.exec (deleteScript mig.Version)], by simp [h1, h2], Or.inr rfl⟩


/-- C13 (as stated, refuted): no name and no detail of these changes contains a
marker. For the column `x` + line break + `-- Down` with the type `migration` the
up-script has a line that starts with the down marker, and `ApplyMigration` executes
only the text before it; for the table named `a`, empty line, `b` and for the old
column type `int`, empty line, `unsigned` the down-script has an empty line, which
`RollbackMigration` leaves out. -/
theorem round_trip_counterexample :
    (exBrokenColumn ++ exBrokenTable ++ exBrokenType).all (fun c =>
      !containsText c.object "-- Up migration" && !containsText c.object "-- Down migration" &&
      !containsText c.detail "-- Up migration" && !containsText c.detail "-- Down migration") =
      true ∧
    (GenerateMigration exGenEnv exBrokenColumn "migrations").result =
      .ok ⟨"20240101120000", "-- Up migration\nALTER TABLE users ADD x\n-- Down migration;\n",
        "-- Down migration\nALTER TABLE users DROP COLUMN x\n-- Down;\n", "0000"⟩ ∧
    appliedScript ⟨"20240101120000",
        "-- Up migration\nALTER TABLE users ADD x\n-- Down migration;\n" ++ "\n" ++
          "-- Down migration\nALTER TABLE users DROP COLUMN x\n-- Down;\n", "", "0000"⟩ =
      "ALTER TABLE users ADD x\n" ∧
    (GenerateMigration exGenEnv exBrokenTable "migrations").result =
      .ok ⟨"20240101120000", "-- Up migration\nCREATE TABLE a\n\nb (\nid INT NOT NULL\n);\n",
        "-- Down migration\nDROP TABLE a\n\nb;\n", "0000"⟩ ∧
    rolledBackScript ⟨"20240101120000",
        "-- Up migration\nCREATE TABLE a\n\nb (\nid INT NOT NULL\n);\n" ++ "\n" ++
          "-- Down migration\nDROP TABLE a\n\nb;\n", "", "0000"⟩ =
      "DROP TABLE a\nb;\n" ∧
    (GenerateMigration exGenEnv exBrokenType "migrations").result =
      .ok ⟨"20240101120000", "-- Up migration\nALTER TABLE users MODIFY age bigint;\n",
        "-- Down migration\nALTER TABLE users MODIFY age int\n\nunsigned;\n", "0000"⟩ ∧
    rolledBackScript ⟨"20240101120000",
        "-- Up migration\nALTER TABLE users MODIFY age bigint;\n" ++ "\n" ++
          "-- Down migration\nALTER TABLE users MODIFY age int\n\nunsigned;\n", "", "0000"⟩ =
      "ALTER TABLE users MODIFY age int\nunsigned;\n" := by
  decide

/-- C13 (amended): when `GenerateMigration` succeeds on changes whose objects contain
no line break, whose details contain no marker and whose column details contain no
line break, the file holds `UpScript`, an empty line and `DownScript`; from that text
`ApplyMigration` executes first exactly the up-script without its header followed by
one empty line, and `RollbackMigration` executes first exactly the down-script
without its header; after it follows at most the ledger statement. -/
theorem round_trip {σ : Type} (A : DBAdapter σ) (w : World σ) (env : GenEnv) (dir : String)
    (changes : List Change) (m : Migration) (version checksum : String)
    (hsafe : ∀ c ∈ changes, roundTripSafe c = true)
    (hgen : (GenerateMigration env changes dir).result = .ok m) :
    ∃ upBody downBody,
      m.UpScript = "-- Up migration\n" ++ upBody ∧
      m.DownScript = "-- Down migration\n" ++ downBody ∧
      (GenerateMigration env changes dir).written =
        [(env.pathJoin dir (env.timestamp ++ "_migration.sql"),
          m.UpScript ++ "\n" ++ m.DownScript)] ∧
      appliedScript ⟨version, m.UpScript ++ "\n" ++ m.DownScript, "", checksum⟩ =
        upBody ++ "\n" ∧
      rolledBackScript ⟨version, m.UpScript ++ "\n" ++ m.DownScript, "", checksum⟩ =
        downBody ∧
      (∃ rest, (ApplyMigration A w
          ⟨version, m.UpScript ++ "\n" ++ m.DownScript, "", checksum⟩).1.trace =
            w.trace ++ Event.exec (upBody ++ "\n") :: rest ∧
        (rest = [] ∨ rest = [Event.exec (registerScript version checksum)])) ∧
      (∃ rest, (RollbackMigration A w
          ⟨version, m.UpScript ++ "\n" ++ m.DownScript, "", checksum⟩).1.trace =
            w.trace ++ Event.exec downBody :: rest ∧
        (rest = [] ∨ rest = [Event.exec (deleteScript version)])) := by
  unfold GenerateMigration at hgen ⊢
  cases hs : synthesize changes "-- Up migration\n" "-- Down migration\n" with
  | error e => simp [hs] at hgen
  | ok r =>
    obtain ⟨U, D, rfl, hU, hD⟩ := synthesize_lines changes hsafe _ _ r hs
    simp only [hs] at hgen ⊢
    cases hw : env.writeFile (env.pathJoin dir (env.timestamp ++ "_migration.sql"))
        ("-- Up migration\n" ++ linesText U ++ "\n" ++ ("-- Down migration\n" ++ linesText D)) with
    | some e => simp [hw] at hgen
    | none =>
      simp only [hw, Except.ok.injEq] at hgen ⊢
      subst hgen
      obtain ⟨ha, hr⟩ := sections_roundtrip U D hU hD version checksum
      refine ⟨linesText U, linesText D, rfl, rfl, rfl, ha, hr, ?_, ?_⟩
      · have := ApplyMigration_first A w ⟨version, "-- Up migration\n" ++ linesText U ++ "\n" ++
          ("-- Down migration\n" ++ linesText D), "", checksum⟩
        rw [ha] at this
        exact this
      · have := RollbackMigration_first A w ⟨version, "-- Up migration\n" ++ linesText U ++
          "\n" ++ ("-- Down migration\n" ++ linesText D), "", checksum⟩
        rw [hr] at this
        exact this

theorem round_trip_witness :
    ∃ upBody downBody,
      "-- Up migration\nCREATE TABLE users (\nid INT NOT NULL,\nname VARCHAR(100) NULL\n);\nALTER TABLE users ADD age INT;\n" =
        "-- Up migration\n" ++ upBody ∧
      "-- Down migration\nDROP TABLE users;\nALTER TABLE users DROP COLUMN age;\n" =
        "-- Down migration\n" ++ downBody ∧
      appliedScript ⟨"20240101120000",
        "-- Up migration\nCREATE TABLE users (\nid INT NOT NULL,\nname VARCHAR(100) NULL\n);\nALTER TABLE users ADD age INT;\n" ++ "\n" ++
        "-- Down migration\nDROP TABLE users;\nALTER TABLE users DROP COLUMN age;\n", "", "0000"⟩ =
        upBody ++ "\n" ∧
      rolledBackScript ⟨"20240101120000",
        "-- Up migration\nCREATE TABLE users (\nid INT NOT NULL,\nname VARCHAR(100) NULL\n);\nALTER TABLE users ADD age INT;\n" ++ "\n" ++
        "-- Down migration\nDROP TABLE users;\nALTER TABLE users DROP COLUMN age;\n", "", "0000"⟩ =
        downBody :=
  have ⟨upBody, downBody, h1, h2, _, h4, h5, _⟩ :=
    round_trip exAdapter ⟨[], []⟩ exGenEnv "migrations" exChanges
      ⟨"20240101120000",
        "-- Up migration\nCREATE TABLE users (\nid INT NOT NULL,\nname VARCHAR(100) NULL\n);\nALTER TABLE users ADD age INT;\n",
        "-- Down migration\nDROP TABLE users;\nALTER TABLE users DROP COLUMN age;\n", "0000"⟩
      "20240101120000" "0000" (by decide) (by decide)
  ⟨upBody, downBody, h1, h2, h4, h5⟩

/-! ## The changes of `Compare` as a function of the two maps -/

theorem compareColumnsPrev_eq (table : String) (currCols : GoMap) (l : GoMap)
    (changes : List Change) :
    compareColumnsPrev table currCols l changes =
      changes ++ l.flatMap (removedColumn table currCols) := by
  induction l generalizing changes with
  | nil => simp [compareColumnsPrev]
  | cons e rest ih =>
    obtain ⟨k, v⟩ := e
    cases h : currCols.lookup k with
    | none => simp [compareColumnsPrev, removedColumn, h, ih]
    | some x => simp [compareColumnsPrev, removedColumn, h, ih]

theorem comparePrev_eq (curr : GoMap) (l : GoMap) (changes : List Change) :
    comparePrev curr l changes = changes ++ l.flatMap (removedTable curr) := by
  induction l generalizing changes with
  | nil => simp [comparePrev]
  | cons e rest ih =>
    obtain ⟨k, v⟩ := e
    cases h : curr.lookup k with
    | none => simp [comparePrev, removedTable, h, ih]
    | some x => simp [comparePrev, removedTable, h, ih]

theorem wfColumn_fields {v : Value} (h : wfColumn v = true) :
    ∃ f ty nl, v = .obj f ∧ index f "type" = .str ty ∧ index f "null" = .bool nl ∧
      colType v = some ty ∧ colNull v = some nl := by
  have h' := h
  simp only [wfColumn, Bool.and_eq_true] at h'
  obtain ⟨ty, hty⟩ := Option.isSome_iff_exists.mp h'.1
  obtain ⟨nl, hnl⟩ := Option.isSome_iff_exists.mp h'.2
  obtain ⟨f, rfl, hft⟩ := colType_obj hty
  obtain ⟨_, hf, hfn⟩ := colNull_obj hnl
  cases hf
  exact ⟨f, ty, nl, rfl, hft, hfn, hty, hnl⟩

theorem compareColumnsCurr_eq (bad : Value → String) (t : String) (prevCols : GoMap)
    (hprev : ∀ k p, prevCols.lookup k = some p → wfColumn p = true)
    (l : GoMap) (changes : List Change) (hwf : l.all (fun e => wfColumn e.2) = true) :
    compareColumnsCurr bad t prevCols l changes =
      .ok (changes ++ l.flatMap (columnChange t prevCols)) := by
  induction l generalizing changes with
  | nil => simp [compareColumnsCurr]
  | cons e rest ih =>
    obtain ⟨k, v⟩ := e
    simp only [List.all_cons, Bool.and_eq_true] at hwf
    obtain ⟨f, ty, nl, rfl, hft, hfn, hty, hnl⟩ := wfColumn_fields hwf.1
    cases hp : prevCols.lookup k with
    | none =>
      simp only [compareColumnsCurr, assertMap, assertBool, hp, hft, hfn, fmtS, bind,
        Except.bind]
      rw [ih _ hwf.2]
      simp [columnChange, hp, hty, hnl]
    | some p =>
      obtain ⟨g, ty', nl', rfl, hgt, hgn, hty', hnl'⟩ := wfColumn_fields (hprev k p hp)
      simp only [compareColumnsCurr, assertMap, assertBool, hp, hft, hfn, hgt, hgn, ifaceNe,
        fmtS, bind, Except.bind, pure, Except.pure]
      by_cases h1 : ty' = ty
      · by_cases h2 : nl' = nl
        · subst h1 h2
          simp only [bne_self_eq_false, Bool.false_eq_true, if_false]
          rw [ih _ hwf.2]
          simp [columnChange, hp, hty, hnl, hty', hnl']
        · have hb : (nl' != nl) = true := by simpa using h2
          subst h1
          simp only [bne_self_eq_false, Bool.false_eq_true, if_false, hb, if_true]
          rw [ih _ hwf.2]
          simp [columnChange, hp, hty, hnl, hty', hnl', h2, modifyDetail]
      · have hb : (ty' != ty) = true := by simpa using h1
        simp only [hb, if_true]
        rw [ih _ hwf.2]
        simp [columnChange, hp, hty, hnl, hty', hnl', h1, modifyDetail]


theorem wfTable_columns {v : Value} (h : wfTable v = true) :
    ∃ f cols, v = .obj f ∧ index f "columns" = .obj cols ∧ tableColumns v = some cols ∧
      wfColumns cols = true := by
  simp only [wfTable] at h
  cases hc : tableColumns v with
  | none => simp [hc] at h
  | some cols =>
    simp only [hc] at h
    obtain ⟨f, rfl, hf⟩ := tableColumns_obj hc
    exact ⟨f, cols, rfl, hf, rfl, h⟩

theorem wfColumns_lookup {cols : GoMap} (h : wfColumns cols = true) (k : String) (p : Value)
    (hp : cols.lookup k = some p) : wfColumn p = true := by
  simp only [wfColumns, Bool.and_eq_true] at h
  exact mem_all h.2 (mem_of_lookup cols k p hp)

theorem wfSnapshot_lookup {s : GoMap} (h : wfSnapshot s = true) (k : String) (v : Value)
    (hv : s.lookup k = some v) : wfTable v = true := by
  simp only [wfSnapshot, Bool.and_eq_true] at h
  exact mem_all h.2 (mem_of_lookup s k v hv)

theorem compareColumns_eq (bad : Value → String) (t : String) (prevCols currCols : GoMap)
    (hp : wfColumns prevCols = true) (hc : wfColumns currCols = true) :
    compareColumns bad t prevCols currCols = .ok (columnChanges t prevCols currCols) := by
  have hc' := hc
  simp only [wfColumns, Bool.and_eq_true] at hc'
  simp only [compareColumns,
    compareColumnsCurr_eq bad t prevCols (wfColumns_lookup hp) currCols [] hc'.2,
    compareColumnsPrev_eq, bind, Except.bind, pure, Except.pure, List.nil_append, columnChanges]

theorem compareCurr_eq (bad : Value → String) (prev : GoMap)
    (hprev : ∀ k pv, prev.lookup k = some pv → wfTable pv = true)
    (l : GoMap) (changes : List Change) (hwf : l.all (fun e => wfTable e.2) = true) :
    compareCurr bad prev l changes = .ok (changes ++ l.flatMap (tableChange prev)) := by
  induction l generalizing changes with
  | nil => simp [compareCurr]
  | cons e rest ih =>
    obtain ⟨k, v⟩ := e
    simp only [List.all_cons, Bool.and_eq_true] at hwf
    obtain ⟨g, cc, rfl, hg, hcc, hwc⟩ := wfTable_columns hwf.1
    cases hp : prev.lookup k with
    | none =>
      have hwc' := hwc
      simp only [wfColumns, Bool.and_eq_true] at hwc'
      simp only [compareCurr, hp, assertMap, hg, colDefs_wf bad cc [] hwc'.2, bind,
        Except.bind, List.nil_append]
      rw [ih _ hwf.2]
      simp [tableChange, hp, tableDetail, hcc]
    | some pv =>
      obtain ⟨f, pc, rfl, hf, hpc, hwp⟩ := wfTable_columns (hprev k pv hp)
      simp only [compareCurr, hp, assertMap, hf, hg, compareColumns_eq bad k pc cc hwp hwc,
        bind, Except.bind]
      rw [ih _ hwf.2]
      simp [tableChange, hp, hpc, hcc]

theorem compare_eq (bad : Value → String) (prev curr : GoMap)
    (hp : wfSnapshot prev = true) (hc : wfSnapshot curr = true) :
    Compare bad prev curr = .ok (compareChanges prev curr) := by
  have hc' := hc
  simp only [wfSnapshot, Bool.and_eq_true] at hc'
  simp only [Compare, compareCurr_eq bad prev (fun k pv => wfSnapshot_lookup hp k pv) curr []
    hc'.2, comparePrev_eq, bind, Except.bind, pure, Except.pure, List.nil_append,
    compareChanges]

/-! ## Enumeration order of the two snapshots -/

theorem lookup_isSome_iff (m : GoMap) (k : String) :
    (m.lookup k).isSome = true ↔ k ∈ m.map Prod.fst := by
  induction m with
  | nil => simp [List.lookup]
  | cons e rest ih =>
    obtain ⟨k', v'⟩ := e
    by_cases hk : k = k'
    · subst hk
      simp [List.lookup]
    · have hb : (k == k') = false := by simpa using hk
      simp only [List.lookup, hb, List.map_cons, List.mem_cons, hk, false_or]
      exact ih

theorem keys_perm (m m2 : GoMap) (hn : keysNodup m = true) (hn2 : keysNodup m2 = true)
    (hkeys : ∀ k, (m.lookup k).isSome = (m2.lookup k).isSome) :
    (m.map Prod.fst).Perm (m2.map Prod.fst) := by
  simp only [keysNodup, decide_eq_true_eq] at hn hn2
  apply (List.perm_ext_iff_of_nodup hn hn2).mpr
  intro k
  rw [← lookup_isSome_iff, ← lookup_isSome_iff, hkeys k]

theorem flatMap_by_keys {β : Type} (m : GoMap) (f : String × Value → List β) (l : GoMap)
    (h : ∀ e ∈ l, m.lookup e.1 = some e.2) :
    l.flatMap f = (l.map Prod.fst).flatMap (fun k => match m.lookup k with
      | some v => f (k, v)
      | none => []) := by
  induction l with
  | nil => rfl
  | cons e rest ih =>
    simp only [List.flatMap_cons, List.map_cons, h e (List.mem_cons_self _ _)]
    rw [ih (fun x hx => h x (List.mem_cons_of_mem _ hx))]

theorem perm_flatMap_lookup {β : Type} (m m2 : GoMap) (hn : keysNodup m = true)
    (hn2 : keysNodup m2 = true) (hkeys : ∀ k, (m.lookup k).isSome = (m2.lookup k).isSome)
    (f f2 : String × Value → List β)
    (hf : ∀ k v v2, m.lookup k = some v → m2.lookup k = some v2 → (f (k, v)).Perm (f2 (k, v2))) :
    (m.flatMap f).Perm (m2.flatMap f2) := by
  rw [flatMap_by_keys m f m (fun e he => lookup_of_mem m hn e.1 e.2 he),
    flatMap_by_keys m2 f2 m2 (fun e he => lookup_of_mem m2 hn2 e.1 e.2 he)]
  refine ((keys_perm m m2 hn hn2 hkeys).flatMap_right _).trans ?_
  apply List.Perm.flatMap_left
  intro k _
  cases h1 : m.lookup k with
  | none =>
    have h2 : m2.lookup k = none := by
      have := hkeys k
      rw [h1] at this
      cases h : m2.lookup k with
      | none => rfl
      | some x => rw [h] at this; cases this
    simp [h2]
  | some v =>
    cases h2 : m2.lookup k with
    | none =>
      have := hkeys k
      rw [h1, h2] at this
      cases this
    | some v2 => exact hf k v v2 h1 h2

theorem sameColumns_spec {pc cc : GoMap} (h : sameColumns pc cc = true) :
    (∀ k, (pc.lookup k).isSome = (cc.lookup k).isSome) ∧
    (∀ k p e, pc.lookup k = some p → cc.lookup k = some e →
      colType p = colType e ∧ colNull p = colNull e) := by
  simp only [sameColumns, Bool.and_eq_true] at h
  constructor
  · intro k
    cases h1 : pc.lookup k with
    | some p =>
      have := mem_all h.1 (mem_of_lookup pc k p h1)
      simp only at this
      rw [this]
      rfl
    | none =>
      cases h2 : cc.lookup k with
      | none => rfl
      | some e =>
        have := mem_all h.2 (mem_of_lookup cc k e h2)
        simp [h1] at this
  · intro k p e h1 h2
    have := mem_all h.2 (mem_of_lookup cc k e h2)
    simpa [h1] using this

theorem sameSchema_spec {a b : GoMap} (h : sameSchema a b = true) :
    (∀ k, (a.lookup k).isSome = (b.lookup k).isSome) ∧
    (∀ k v v2, a.lookup k = some v → b.lookup k = some v2 →
      ∃ pc cc, tableColumns v = some pc ∧ tableColumns v2 = some cc ∧
        sameColumns pc cc = true) := by
  simp only [sameSchema, Bool.and_eq_true] at h
  constructor
  · intro k
    cases h1 : a.lookup k with
    | some p =>
      have := mem_all h.1 (mem_of_lookup a k p h1)
      simp only at this
      rw [this]
      rfl
    | none =>
      cases h2 : b.lookup k with
      | none => rfl
      | some e =>
        have := mem_all h.2 (mem_of_lookup b k e h2)
        simp [h1] at this
  · intro k v v2 h1 h2
    have := mem_all h.2 (mem_of_lookup b k v2 h2)
    simp only [h1] at this
    cases hp : tableColumns v with
    | none => simp [hp] at this
    | some pc =>
      cases hc : tableColumns v2 with
      | none => simp [hp, hc] at this
      | some cc =>
        simp only [hp, hc] at this
        exact ⟨pc, cc, rfl, rfl, this⟩


theorem isSome_eq_none {α : Type} {a b : Option α} (h : a.isSome = b.isSome) (ha : a = none) :
    b = none := by
  subst ha
  cases b with
  | none => rfl
  | some x => cases h

theorem columnChanges_perm (t : String) (pc pc2 cc cc2 : GoMap)
    (wp : wfColumns pc = true) (wp2 : wfColumns pc2 = true)
    (wc : wfColumns cc = true) (wc2 : wfColumns cc2 = true)
    (hp : sameColumns pc pc2 = true) (hc : sameColumns cc cc2 = true) :
    (columnChanges t pc cc).Perm (columnChanges t pc2 cc2) := by
  obtain ⟨hpk, hpv⟩ := sameColumns_spec hp
  obtain ⟨hck, hcv⟩ := sameColumns_spec hc
  simp only [wfColumns, Bool.and_eq_true] at wp wp2 wc wc2
  unfold columnChanges
  apply List.Perm.append
  · apply perm_flatMap_lookup cc cc2 wc.1 wc2.1 hck
    intro k e e2 h1 h2
    obtain ⟨ht, hn⟩ := hcv k e e2 h1 h2
    have heq : columnChange t pc (k, e) = columnChange t pc2 (k, e2) := by
      unfold columnChange
      cases hl : pc.lookup k with
      | none =>
        have hl2 := isSome_eq_none (hpk k) hl
        simp only [hl, hl2, ht, hn]
      | some p =>
        cases hl2 : pc2.lookup k with
        | none =>
          have := isSome_eq_none (hpk k).symm hl2
          rw [hl] at this
          cases this
        | some p2 =>
          obtain ⟨ht', hn'⟩ := hpv k p p2 hl hl2
          simp only [hl, hl2, ht, hn, ht', hn']
    rw [heq]
  · apply perm_flatMap_lookup pc pc2 wp.1 wp2.1 hpk
    intro k p p2 _ _
    have heq : removedColumn t cc (k, p) = removedColumn t cc2 (k, p2) := by
      unfold removedColumn
      cases hl : cc.lookup k with
      | none =>
        have hl2 := isSome_eq_none (hck k) hl
        simp only [hl, hl2]
      | some e =>
        cases hl2 : cc2.lookup k with
        | none =>
          have := isSome_eq_none (hck k).symm hl2
          rw [hl] at this
          cases this
        | some e2 => simp only [hl, hl2]
    rw [heq]

theorem compareChanges_perm (prev prev2 curr curr2 : GoMap)
    (wp : wfSnapshot prev = true) (wp2 : wfSnapshot prev2 = true)
    (wc : wfSnapshot curr = true) (wc2 : wfSnapshot curr2 = true)
    (hp : sameSchema prev prev2 = true) (hc : sameSchema curr curr2 = true) :
    ((compareChanges prev curr).map blankTableDetail).Perm
      ((compareChanges prev2 curr2).map blankTableDetail) := by
  obtain ⟨hpk, hpv⟩ := sameSchema_spec hp
  obtain ⟨hck, hcv⟩ := sameSchema_spec hc
  have np : keysNodup prev = true := by
    simp only [wfSnapshot, Bool.and_eq_true] at wp; exact wp.1
  have np2 : keysNodup prev2 = true := by
    simp only [wfSnapshot, Bool.and_eq_true] at wp2; exact wp2.1
  have nc : keysNodup curr = true := by
    simp only [wfSnapshot, Bool.and_eq_true] at wc; exact wc.1
  have nc2 : keysNodup curr2 = true := by
    simp only [wfSnapshot, Bool.and_eq_true] at wc2; exact wc2.1
  have wcols : ∀ {s : GoMap} (_ : wfSnapshot s = true) (k : String) (v : Value) (cols : GoMap),
      s.lookup k = some v → tableColumns v = some cols → wfColumns cols = true := by
    intro s hs k v cols hl hcols
    have := wfSnapshot_lookup hs k v hl
    simp only [wfTable, hcols] at this
    exact this
  unfold compareChanges
  rw [List.map_append, List.map_append, List.map_flatMap, List.map_flatMap, List.map_flatMap,
    List.map_flatMap]
  apply List.Perm.append
  · apply perm_flatMap_lookup curr curr2 nc nc2 hck
    intro k v v2 h1 h2
    obtain ⟨cc, cc2, hv, hv2, hs⟩ := hcv k v v2 h1 h2
    cases hl : prev.lookup k with
    | none =>
      have hl2 := isSome_eq_none (hpk k) hl
      have hb : ∀ d, blankTableDetail ⟨"add", "table:" ++ k, d⟩ = ⟨"add", "table:" ++ k, ""⟩ := by
        intro d
        simp [blankTableDetail, hasPrefix_append]
      simp only [tableChange, hl, hl2, List.map_cons, List.map_nil, hb]
      exact List.Perm.refl _
    | some pv =>
      cases hl2 : prev2.lookup k with
      | none =>
        have := isSome_eq_none (hpk k).symm hl2
        rw [hl] at this
        cases this
      | some pv2 =>
        obtain ⟨pc, pc2, hpv1, hpv2, hps⟩ := hpv k pv pv2 hl hl2
        simp only [tableChange, hl, hl2, hv, hv2, hpv1, hpv2, Option.getD_some]
        apply List.Perm.map
        exact columnChanges_perm k pc pc2 cc cc2 (wcols wp k pv pc hl hpv1)
          (wcols wp2 k pv2 pc2 hl2 hpv2) (wcols wc k v cc h1 hv) (wcols wc2 k v2 cc2 h2 hv2)
          hps hs
  · apply perm_flatMap_lookup prev prev2 np np2 hpk
    intro k p p2 _ _
    have heq : removedTable curr (k, p) = removedTable curr2 (k, p2) := by
      unfold removedTable
      cases hl : curr.lookup k with
      | none =>
        have hl2 := isSome_eq_none (hck k) hl
        simp only [hl, hl2]
      | some e =>
        cases hl2 : curr2.lookup k with
        | none =>
          have := isSome_eq_none (hck k).symm hl2
          rw [hl] at this
          cases this
        | some e2 => simp only [hl, hl2]
    simp only [heq]
    exact List.Perm.refl _

theorem hasPrefix_column_table (s : String) : hasPrefix ("column:" ++ s) "table:" = false := by
  simp [hasPrefix, String.data_append, List.isPrefixOf]

theorem columnChanges_object (t : String) (pc cc : GoMap) (c : Change)
    (h : c ∈ columnChanges t pc cc) : hasPrefix c.object "table:" = false := by
  simp only [columnChanges, List.mem_append, List.mem_flatMap] at h
  rcases h with ⟨e, _, he⟩ | ⟨e, _, he⟩
  · unfold columnChange at he
    split at he
    · simp only [List.mem_singleton] at he
      subst he
      simp only [String.append_assoc, hasPrefix_column_table]
    · split at he
      · simp only [List.mem_singleton] at he
        subst he
        simp only [String.append_assoc, hasPrefix_column_table]
      · cases he
  · unfold removedColumn at he
    split at he
    · simp only [List.mem_singleton] at he
      subst he
      simp only [String.append_assoc, hasPrefix_column_table]
    · cases he

theorem columnDefs_perm (cc cc2 : GoMap) (wc : wfColumns cc = true) (wc2 : wfColumns cc2 = true)
    (hc : sameColumns cc cc2 = true) : (cc.map columnDef).Perm (cc2.map columnDef) := by
  obtain ⟨hck, hcv⟩ := sameColumns_spec hc
  simp only [wfColumns, Bool.and_eq_true] at wc wc2
  have key := perm_flatMap_lookup cc cc2 wc.1 wc2.1 hck (fun e => [columnDef e])
    (fun e => [columnDef e]) (by
      intro k e e2 h1 h2
      obtain ⟨ht, hn⟩ := hcv k e e2 h1 h2
      simp only [columnDef, ht, hn]
      exact List.Perm.refl _)
  have e : ∀ l : GoMap, l.flatMap (fun e => [columnDef e]) = l.map columnDef := by
    intro l
    induction l with
    | nil => rfl
    | cons a rest ih => simp only [List.flatMap_cons, ih, List.map_cons, List.singleton_append]
  rw [e, e] at key
  exact key

theorem addTable_mem (prev curr : GoMap) (c : Change) (h : c ∈ compareChanges prev curr)
    (hk : c.kind = "add") (ho : hasPrefix c.object "table:" = true) :
    ∃ k v, (k, v) ∈ curr ∧ prev.lookup k = none ∧ c = ⟨"add", "table:" ++ k, tableDetail v⟩ := by
  simp only [compareChanges, List.mem_append, List.mem_flatMap] at h
  rcases h with ⟨e, hm, he⟩ | ⟨e, _, he⟩
  · obtain ⟨k, v⟩ := e
    unfold tableChange at he
    cases hl : prev.lookup k with
    | none =>
      simp only [hl, List.mem_singleton] at he
      exact ⟨k, v, hm, hl, he⟩
    | some pv =>
      simp only [hl] at he
      have := columnChanges_object _ _ _ c he
      rw [ho] at this
      cases this
  · unfold removedTable at he
    split at he
    · simp only [List.mem_singleton] at he
      subst he
      simp at hk
    · cases he


theorem wfSnapshot_columns {s : GoMap} (hs : wfSnapshot s = true) (k : String) (v : Value)
    (cols : GoMap) (hl : s.lookup k = some v) (hcols : tableColumns v = some cols) :
    wfColumns cols = true := by
  have := wfSnapshot_lookup hs k v hl
  simp only [wfTable, hcols] at this
  exact this

/-- C14 (as stated, refuted): the two column lists `exIdName` and `exNameId`
enumerate the same two columns in different orders, and `Compare` of the empty
snapshot with the table `users` of these columns returns one Add/table change in
both orders, but with the Detail `id INT NOT NULL,\nname VARCHAR(100) NULL` in one
order and `name VARCHAR(100) NULL,\nid INT NOT NULL` in the other: the two results
are not the same multiset of Change records. -/
theorem compare_order_counterexample :
    exIdName.Perm exNameId ∧
    wfSnapshot [("users", .obj [("columns", .obj exIdName)])] = true ∧
    wfSnapshot [("users", .obj [("columns", .obj exNameId)])] = true ∧
    Compare (fun _ => "") [] [("users", .obj [("columns", .obj exIdName)])] =
      .ok [⟨"add", "table:users", "id INT NOT NULL,\nname VARCHAR(100) NULL"⟩] ∧
    Compare (fun _ => "") [] [("users", .obj [("columns", .obj exNameId)])] =
      .ok [⟨"add", "table:users", "name VARCHAR(100) NULL,\nid INT NOT NULL"⟩] ∧
    ¬ ([⟨"add", "table:users", "id INT NOT NULL,\nname VARCHAR(100) NULL"⟩] : List Change).Perm
      [⟨"add", "table:users", "name VARCHAR(100) NULL,\nid INT NOT NULL"⟩] :=
  ⟨List.Perm.swap _ _ _, by decide, by decide, by decide, by decide, by decide⟩

/-- C14 (amended): for well-formed snapshots `prev`, `curr` and well-formed
snapshots `prev2`, `curr2` that have the same tables and, per table, the same columns
with the same types and null flags (in particular: the same two maps enumerated in
any other order of tables and columns), `Compare` succeeds on both pairs, and the two
results are the same multiset of Change records once the Detail of the Add/table
changes is left out; every Add/table change of the first result has an Add/table
change of the same Object in the second, and their Details join the same column
definitions with a comma and a line break, in an order that may differ. -/
theorem compare_order (bad : Value → String) (prev prev2 curr curr2 : GoMap)
    (wp : wfSnapshot prev = true) (wp2 : wfSnapshot prev2 = true)
    (wc : wfSnapshot curr = true) (wc2 : wfSnapshot curr2 = true)
    (hp : sameSchema prev prev2 = true) (hc : sameSchema curr curr2 = true) :
    ∃ cs cs2, Compare bad prev curr = .ok cs ∧ Compare bad prev2 curr2 = .ok cs2 ∧
      (cs.map blankTableDetail).Perm (cs2.map blankTableDetail) ∧
      ∀ c ∈ cs, c.kind = "add" → hasPrefix c.object "table:" = true →
        ∃ c2 ∈ cs2, c2.kind = "add" ∧ c2.object = c.object ∧
          ∃ defs defs2, c.detail = stringsJoin defs ",\n" ∧
            c2.detail = stringsJoin defs2 ",\n" ∧ defs.Perm defs2 := by
  refine ⟨compareChanges prev curr, compareChanges prev2 curr2, compare_eq bad prev curr wp wc,
    compare_eq bad prev2 curr2 wp2 wc2, compareChanges_perm prev prev2 curr curr2 wp wp2 wc wc2
      hp hc, ?_⟩
  intro c hcm hk ho
  obtain ⟨k, v, hm, hl, rfl⟩ := addTable_mem prev curr c hcm hk ho
  obtain ⟨hpk, _⟩ := sameSchema_spec hp
  obtain ⟨hck, hcv⟩ := sameSchema_spec hc
  have nc : keysNodup curr = true := by
    simp only [wfSnapshot, Bool.and_eq_true] at wc; exact wc.1
  have h1 := lookup_of_mem curr nc k v hm
  have hl2 := isSome_eq_none (hpk k) hl
  cases h2 : curr2.lookup k with
  | none =>
    have := isSome_eq_none (hck k).symm h2
    rw [h1] at this
    cases this
  | some v2 =>
    obtain ⟨cc, cc2, hv, hv2, hs⟩ := hcv k v v2 h1 h2
    refine ⟨⟨"add", "table:" ++ k, tableDetail v2⟩, ?_, rfl, rfl, cc.map columnDef,
      cc2.map columnDef, ?_, ?_, columnDefs_perm cc cc2 (wfSnapshot_columns wc k v cc h1 hv)
        (wfSnapshot_columns wc2 k v2 cc2 h2 hv2) hs⟩
    · simp only [compareChanges, List.mem_append, List.mem_flatMap]
      exact Or.inl ⟨(k, v2), mem_of_lookup curr2 k v2 h2, by simp [tableChange, hl2]⟩
    · simp [tableDetail, hv]
    · simp [tableDetail, hv2]

theorem compare_order_witness :
    exIdName.Perm exNameId ∧
    wfSnapshot exFormer = true ∧ wfSnapshot exFormerSwapped = true ∧
    wfSnapshot exTwoTables = true ∧ wfSnapshot exTwoTablesSwapped = true ∧
    sameSchema exFormer exFormerSwapped = true ∧
    sameSchema exTwoTables exTwoTablesSwapped = true ∧
    Compare (fun _ => "") exFormer exTwoTables = .ok
      [⟨"modify", "column:users.id", "type INT from BIGINT"⟩,
       ⟨"add", "column:users.name", "type VARCHAR(100) NULL"⟩,
       ⟨"remove", "column:users.email", "column removed"⟩,
       ⟨"add", "table:logs", "at DATETIME NOT NULL,\nmsg TEXT NULL"⟩,
       ⟨"remove", "table:old", "table removed"⟩] ∧
    Compare (fun _ => "") exFormerSwapped exTwoTablesSwapped = .ok
      [⟨"add", "table:logs", "msg TEXT NULL,\nat DATETIME NOT NULL"⟩,
       ⟨"add", "column:users.name", "type VARCHAR(100) NULL"⟩,
       ⟨"modify", "column:users.id", "type INT from BIGINT"⟩,
       ⟨"remove", "column:users.email", "column removed"⟩,
       ⟨"remove", "table:old", "table removed"⟩] ∧
    ∃ cs cs2, Compare (fun _ => "") exFormer exTwoTables = .ok cs ∧
      Compare (fun _ => "") exFormerSwapped exTwoTablesSwapped = .ok cs2 ∧
      (cs.map blankTableDetail).Perm (cs2.map blankTableDetail) ∧
      ∀ c ∈ cs, c.kind = "add" → hasPrefix c.object "table:" = true →
        ∃ c2 ∈ cs2, c2.kind = "add" ∧ c2.object = c.object ∧
          ∃ defs defs2, c.detail = stringsJoin defs ",\n" ∧
            c2.detail = stringsJoin defs2 ",\n" ∧ defs.Perm defs2 :=
  ⟨List.Perm.swap _ _ _, by decide, by decide, by decide, by decide, by decide, by decide,
   by decide, by decide,
   compare_order (fun _ => "") exFormer exFormerSwapped exTwoTables exTwoTablesSwapped
     (by decide) (by decide) (by decide) (by decide) (by decide) (by decide)⟩

end DbPivot
